import Mathlib

/-!
# A boundary-tag allocator with an explicit free list (`malloclab-handout/mm.c`)

Shallow embedding of `mm.c`.

* Memory is a finite map from byte addresses to 64-bit words (`Mem`); the
  allocator only ever reads and writes `size_t`/pointer sized fields.  An
  address that was never written reads as `0` (fresh `mem_map` memory).
* `size_t` values and pointers are naturals below `2^64`; arithmetic on them
  wraps (`uadd`, `usub`).
* A C `int` is kept as its 32-bit two's complement pattern (a natural below
  `2^32`).  The program never compares two `int`s: every use converts to
  `size_t` first (`sext`), and every assignment to an `int` truncates
  (`toInt`).
* The arena primitive (`mem_map`, `mem_unmap`, `mem_pagesize`) is external:
  `Arena` supplies the page granularity and the base address of every mapping;
  the calls made are logged in the state.
* The two loops (`new_page`'s scan for the last page, `mm_malloc`'s walk of
  the free list) take fuel and return `none` when it runs out.
-/

namespace MM

/-! ## Machine arithmetic -/

/-- Modulus of `size_t` and of pointers: `2^64`. -/
@[irreducible] def two64 : Nat := 18446744073709551616

/-- Modulus of `int`: `2^32`. -/
@[irreducible] def two32 : Nat := 4294967296

/-- Wrapping `size_t` / pointer addition. -/
def uadd (a b : Nat) : Nat := (a + b) % two64

/-- Wrapping `size_t` / pointer subtraction. -/
def usub (a b : Nat) : Nat := (a + (two64 - b % two64)) % two64

/-- Conversion of a `size_t` to `int`: the low 32 bits (the conversion is
implementation-defined in C; this is what two's complement targets do). -/
def toInt (x : Nat) : Nat := x % two32

/-- Conversion of an `int` (32-bit pattern) to `size_t`: sign extension. -/
def sext (i : Nat) : Nat := if i < 2147483648 then i else i + (two64 - two32)

/-- Multiplication of `int`s, wrapping on the 32-bit pattern (signed overflow
is undefined in C; the statements about it assume values in `int` range). -/
def imul (i k : Nat) : Nat := (i * k) % two32

/-! ## Memory -/

/-- Memory: address-sorted association list of the words written so far. -/
abbrev Mem := List (Nat × Nat)

/-- Word stored at address `a` (`0` when never written). -/
def read : Mem → Nat → Nat
  | [], _ => 0
  | (k, w) :: m, a => if a = k then w else read m a

/-- Store word `v` at address `a`. -/
def write : Mem → Nat → Nat → Mem
  | [], a, v => [(a, v)]
  | (k, w) :: m, a, v =>
    if a = k then (a, v) :: m
    else if a < k then (a, v) :: (k, w) :: m
    else (k, w) :: write m a v

/-! ## Block macros (`mm.c` lines 45-87) -/

/-- always use 16-byte alignment -/
def ALIGNMENT : Nat := 16

/-- `ALIGN(size) = (size + (ALIGNMENT-1)) & ~(ALIGNMENT-1)` on `size_t`. -/
def ALIGN (size : Nat) : Nat := uadd size (ALIGNMENT - 1) &&& (two64 - ALIGNMENT)

/-- `sizeof(block_header)` -/
def BLOCK_OVERHEAD : Nat := 16

/-- `sizeof(block_footer)` -/
def FOOTER_SIZE : Nat := 16

/-- `sizeof(page_header)` -/
def PAGE_HEADER_SIZE : Nat := 16

/-- `HEADER_PAYLOAD(b) = (char*)b - sizeof(block_header)` -/
def HEADER_PAYLOAD (b : Nat) : Nat := usub b BLOCK_OVERHEAD

/-- `GET(p)`: the `size_t` at `p`. -/
def GET (m : Mem) (p : Nat) : Nat := read m p

/-- `GET_ALLOC(p) = GET(p) & 0x1` -/
def GET_ALLOC (m : Mem) (p : Nat) : Nat := GET m p &&& 1

/-- `GET_SIZE(p) = GET(p) & ~0xF` -/
def GET_SIZE (m : Mem) (p : Nat) : Nat := GET m p &&& (two64 - 16)

/-- `GET_PREV_ALLOC(p) = GET(p) & 0x2` -/
def GET_PREV_ALLOC (m : Mem) (p : Nat) : Nat := GET m p &&& 2

/-- `INSERT(p, val)`: store a `size_t` at `p`. -/
def INSERT (m : Mem) (p val : Nat) : Mem := write m p val

/-- `FOOTER_PAYLOAD(b) = b + (GET_SIZE(HEADER_PAYLOAD(b)) - sizeof(block_header) - sizeof(block_footer))` -/
def FOOTER_PAYLOAD (m : Mem) (b : Nat) : Nat :=
  uadd b (usub (usub (GET_SIZE m (HEADER_PAYLOAD b)) BLOCK_OVERHEAD) FOOTER_SIZE)

/-- `NEXT_PAY(b) = b + GET_SIZE(HEADER_PAYLOAD(b))` -/
def NEXT_PAY (m : Mem) (b : Nat) : Nat := uadd b (GET_SIZE m (HEADER_PAYLOAD b))

/-- `PREV_FT(b) = b - sizeof(block_header) - sizeof(block_footer)` -/
def PREV_FT (b : Nat) : Nat := usub (usub b BLOCK_OVERHEAD) FOOTER_SIZE

/-- `SET_BITS(size, alloc, prev_alloc) = size | alloc | prev_alloc` -/
def SET_BITS (size alloc prev_alloc : Nat) : Nat := size ||| alloc ||| prev_alloc

/-- Address of the field `((block_footer*)FOOTER_PAYLOAD(b))->next_free`. -/
def NEXT_FREE_ADDR (m : Mem) (b : Nat) : Nat := uadd (FOOTER_PAYLOAD m b) 8

/-- Address of the field `((block_header*)HEADER_PAYLOAD(b))->prev_free`. -/
def PREV_FREE_ADDR (b : Nat) : Nat := uadd (HEADER_PAYLOAD b) 8

/-- `NEXT_FREE(b)` read as an rvalue. -/
def NEXT_FREE (m : Mem) (b : Nat) : Nat := read m (NEXT_FREE_ADDR m b)

/-- `PREV_FREE(b)` read as an rvalue. -/
def PREV_FREE (m : Mem) (b : Nat) : Nat := read m (PREV_FREE_ADDR b)

/-- `PREV_BLKP(b) = b - GET_SIZE(PREV_FT(b))` -/
def PREV_BLKP (m : Mem) (b : Nat) : Nat := usub b (GET_SIZE m (PREV_FT b))

/-! ## Page macros (`mm.c` lines 91-104) -/

/-- The external arena primitive: `mem_pagesize()` and the base address that
the `k`-th call of `mem_map` (counting from `0`) returns for a byte size.
A failing `mem_map` is fatal and outside the model. -/
structure Arena where
  pagesize : Nat
  mem_map : Nat → Nat → Nat

/-- `PAGE_ALIGN(size) = (size + (mem_pagesize()-1)) & ~(mem_pagesize()-1)` -/
def PAGE_ALIGN (ar : Arena) (size : Nat) : Nat :=
  uadd size (usub ar.pagesize 1) &&& (two64 - 1 - usub ar.pagesize 1)

/-- Address of `((page_header*)ph)->next_page`. -/
def PAGE_NEXT_ADDR (ph : Nat) : Nat := uadd ph 8

/-- Address of `((page_header*)ph)->prev_page`. -/
def PAGE_PREV_ADDR (ph : Nat) : Nat := ph

/-- `PAGE_NEXT(ph)` read as an rvalue. -/
def PAGE_NEXT (m : Mem) (ph : Nat) : Nat := read m (PAGE_NEXT_ADDR ph)

/-- `PAGE_PREV(ph)` read as an rvalue. -/
def PAGE_PREV (m : Mem) (ph : Nat) : Nat := read m (PAGE_PREV_ADDR ph)

/-- `PAGE_OVERHEAD = sizeof(page_header) + 3 * BLOCK_OVERHEAD` -/
def PAGE_OVERHEAD : Nat := PAGE_HEADER_SIZE + BLOCK_OVERHEAD + BLOCK_OVERHEAD + BLOCK_OVERHEAD

/-- `PAGE_FIRST_PAY(ph) = (char*)ph + PAGE_OVERHEAD - BLOCK_OVERHEAD` -/
def PAGE_FIRST_PAY (ph : Nat) : Nat := usub (uadd ph PAGE_OVERHEAD) BLOCK_OVERHEAD

/-- `PAGE_PROLOG(ph) = (char*)ph + sizeof(page_header)` -/
def PAGE_PROLOG (ph : Nat) : Nat := uadd ph PAGE_HEADER_SIZE

/-- Address of `((prolog*)PAGE_PROLOG(ph))->page_size`. -/
def PROLOG_PAGE_SIZE_ADDR (ph : Nat) : Nat := uadd (PAGE_PROLOG ph) 8

/-! ## Allocator state -/

/-- The globals of `mm.c`, the managed memory, and the log of the calls made
to the arena primitive (most recent first): `maps` holds `(base, bytes)` of
every `mem_map`, `unmaps` holds `(address, bytes)` of every `mem_unmap`. -/
structure State where
  mem : Mem
  first_pay : Nat
  last_freed : Nat
  first_page : Nat
  min_page_size : Nat
  maps : List (Nat × Nat)
  unmaps : List (Nat × Nat)
deriving DecidableEq, Repr

/-- State of the process before `mm_init`: zeroed globals, nothing mapped. -/
def boot : State :=
  { mem := [], first_pay := 0, last_freed := 0, first_page := 0, min_page_size := 0,
    maps := [], unmaps := [] }

/-- `mem_map(size)`: the arena hands out a base address; the call is logged. -/
def mem_map (ar : Arena) (s : State) (size : Nat) : Nat × State :=
  let p := ar.mem_map s.maps.length size
  (p, { s with maps := (p, size) :: s.maps })

/-- `mem_unmap(p, size)`: the call is logged. -/
def mem_unmap (s : State) (p size : Nat) : State :=
  { s with unmaps := (p, size) :: s.unmaps }

/-- Store into managed memory: `INSERT(p, val)` and the assignments to
pointer fields. -/
def State.put (s : State) (p val : Nat) : State := { s with mem := INSERT s.mem p val }

/-! ## Free list (`mm.c` lines 352-392) -/

/-- `add_free(b_payload)`: add a given block at the head of the list of
unallocated blocks. -/
def add_free (s : State) (b : Nat) : State :=
  if s.last_freed = 0 then
    let s := s.put (NEXT_FREE_ADDR s.mem b) 0
    let s := s.put (PREV_FREE_ADDR b) 0
    { s with last_freed := b }
  else
    let s := s.put (NEXT_FREE_ADDR s.mem b) s.last_freed
    let s := s.put (PREV_FREE_ADDR b) 0
    let s := s.put (PREV_FREE_ADDR s.last_freed) b
    { s with last_freed := b }

/-- `remove_free(b_payload)`: unlink a block from the free list. -/
def remove_free (s : State) (b : Nat) : State :=
  if PREV_FREE s.mem b = 0 ∧ NEXT_FREE s.mem b = 0 then
    { s with last_freed := 0 }
  else if PREV_FREE s.mem b = 0 then
    let s := s.put (PREV_FREE_ADDR (NEXT_FREE s.mem b)) 0
    { s with last_freed := NEXT_FREE s.mem b }
  else if NEXT_FREE s.mem b = 0 then
    s.put (NEXT_FREE_ADDR s.mem (PREV_FREE s.mem b)) 0
  else
    let s := s.put (NEXT_FREE_ADDR s.mem (PREV_FREE s.mem b)) (NEXT_FREE s.mem b)
    s.put (PREV_FREE_ADDR (NEXT_FREE s.mem b)) (PREV_FREE s.mem b)

/-! ## Pages (`mm.c` lines 123-203, 397-419) -/

/-- `mm_init`: initialize the malloc package. -/
def mm_init (ar : Arena) (s : State) : State :=
  let s := { s with min_page_size := toInt (ar.pagesize * 7 % two64) }
  let size := sext s.min_page_size
  -- Initialize page
  let (fp, s) := mem_map ar s size
  let s := { s with first_page := fp }
  let s := s.put (PAGE_PREV_ADDR s.first_page) 0
  let s := s.put (PAGE_NEXT_ADDR s.first_page) 0
  -- Create prolog
  let s := s.put (HEADER_PAYLOAD (PAGE_PROLOG s.first_page)) (SET_BITS 32 1 3)
  let s := s.put (PROLOG_PAGE_SIZE_ADDR s.first_page) size
  -- Add first payload
  let s := { s with first_pay := PAGE_FIRST_PAY s.first_page }
  let s := s.put (HEADER_PAYLOAD s.first_pay) (SET_BITS (usub size PAGE_OVERHEAD) 0 2)
  let s := s.put (FOOTER_PAYLOAD s.mem s.first_pay) (SET_BITS (usub size PAGE_OVERHEAD) 0 2)
  -- Init free list ptrs
  let s := s.put (NEXT_FREE_ADDR s.mem s.first_pay) 0
  let s := s.put (PREV_FREE_ADDR s.first_pay) 0
  let s := { s with last_freed := s.first_pay }
  -- Create end block
  let b := NEXT_PAY s.mem s.first_pay
  s.put (HEADER_PAYLOAD b) (SET_BITS 0 1 0)

/-- The loop of `new_page` that finds the last page:
`while (PAGE_NEXT(lp) != NULL) lp = PAGE_NEXT(lp);` -/
def last_page : Nat → Mem → Nat → Option Nat
  | 0, _, _ => none
  | fuel + 1, m, lp =>
    if PAGE_NEXT m lp ≠ 0 then last_page fuel m (PAGE_NEXT m lp) else some lp

/-- Lines 162-173 of `new_page`: the byte size to acquire
(`current_avail_size`, an `int`) and the new value of `min_page_size`. -/
def page_request (ar : Arena) (min_page_size size : Nat) : Nat × Nat :=
  if size < usub (sext min_page_size) PAGE_OVERHEAD then
    (min_page_size, min_page_size)
  else
    let current_avail_size := toInt (PAGE_ALIGN ar (uadd size PAGE_OVERHEAD))
    (current_avail_size, imul current_avail_size 25)

/-- Lines 182-202 of `new_page`: map `current_avail_size` bytes, link the
page after the last page `lp`, lay out prolog, free block and end block.
Returns `PAGE_FIRST_PAY(pp)`. -/
def install_page (ar : Arena) (s : State) (current_avail_size lp : Nat) : Nat × State :=
  -- Link new page
  let (pp, s) := mem_map ar s (sext current_avail_size)
  let s := s.put (PAGE_NEXT_ADDR lp) pp
  let s := s.put (PAGE_PREV_ADDR pp) lp
  let s := s.put (PAGE_NEXT_ADDR pp) 0
  let s := s.put (HEADER_PAYLOAD (PAGE_PROLOG pp)) (SET_BITS 32 1 3)
  let s := s.put (PROLOG_PAGE_SIZE_ADDR s.first_page) (sext current_avail_size)
  -- Setup payload
  let b := PAGE_FIRST_PAY pp
  let s := s.put (HEADER_PAYLOAD b)
    (SET_BITS (usub (sext current_avail_size) PAGE_OVERHEAD) 0 2)
  let s := s.put (FOOTER_PAYLOAD s.mem b)
    (SET_BITS (usub (sext current_avail_size) PAGE_OVERHEAD) 0 2)
  -- Free list management
  let s := add_free s b
  let b := NEXT_PAY s.mem b
  let s := s.put (HEADER_PAYLOAD b) (SET_BITS 0 1 0)
  (PAGE_FIRST_PAY pp, s)

/-- `new_page(size)`: create a new page; returns the payload of its one
free block. -/
def new_page (ar : Arena) (fuel : Nat) (s : State) (size : Nat) : Option (Nat × State) :=
  -- Calculate if we need a bigger page than the minimum
  let current_avail_size := (page_request ar s.min_page_size size).1
  let s := { s with min_page_size := (page_request ar s.min_page_size size).2 }
  -- find the last page
  match last_page fuel s.mem s.first_page with
  | none => none
  | some lp => some (install_page ar s current_avail_size lp)

/-- `remove_page(b_payload)`: unlink the page whose first payload is
`b_payload` and unmap it. -/
def remove_page (s : State) (b : Nat) : State :=
  let pp := uadd (usub b PAGE_OVERHEAD) BLOCK_OVERHEAD
  if PAGE_PREV s.mem pp = 0 ∧ PAGE_NEXT s.mem pp = 0 then
    s
  else
    let s :=
      if PAGE_PREV s.mem pp = 0 then
        let s := s.put (PAGE_PREV_ADDR (PAGE_NEXT s.mem pp)) 0
        { s with first_page := PAGE_NEXT s.mem pp }
      else if PAGE_NEXT s.mem pp = 0 then
        s.put (PAGE_NEXT_ADDR (PAGE_PREV s.mem pp)) 0
      else
        let s := s.put (PAGE_NEXT_ADDR (PAGE_PREV s.mem pp)) (PAGE_NEXT s.mem pp)
        s.put (PAGE_PREV_ADDR (PAGE_NEXT s.mem pp)) (PAGE_PREV s.mem pp)
    mem_unmap s pp (read s.mem (PROLOG_PAGE_SIZE_ADDR s.first_page))

/-! ## Allocation (`mm.c` lines 209-267) -/

/-- `allocate_mem(b_payload, size)`: commit a free block to a request,
splitting off the remainder when it is large enough. -/
def allocate_mem (s : State) (b size : Nat) : State :=
  let extra_space := usub (GET_SIZE s.mem (HEADER_PAYLOAD b)) size
  -- Remove this block from the free list
  let s := remove_free s b
  -- Check for split
  if extra_space > ALIGN (1 + BLOCK_OVERHEAD) then
    let s := s.put (HEADER_PAYLOAD b) (SET_BITS size 1 2)
    let s := s.put (HEADER_PAYLOAD (NEXT_PAY s.mem b)) (SET_BITS extra_space 0 2)
    let s := s.put (FOOTER_PAYLOAD s.mem (NEXT_PAY s.mem b)) (SET_BITS extra_space 0 2)
    -- Track block in free list
    add_free s (NEXT_PAY s.mem b)
  else
    let s := s.put (HEADER_PAYLOAD b) (SET_BITS (GET_SIZE s.mem (HEADER_PAYLOAD b)) 1 2)
    s.put (HEADER_PAYLOAD (NEXT_PAY s.mem b))
      (SET_BITS (GET_SIZE s.mem (HEADER_PAYLOAD (NEXT_PAY s.mem b))) 1 2)

/-- Line 212 of `mm_malloc`: `int new_size = ALIGN(size + BLOCK_OVERHEAD);` -/
def needed_size (size : Nat) : Nat := toInt (ALIGN (uadd size BLOCK_OVERHEAD))

/-- The `do ... while (b_payload != 0)` loop of `mm_malloc` started at
`b_payload`: `some (some b)` when it leaves through the `return` with block
`b`, `some none` when the walk reaches a null forward link, `none` when the
fuel runs out first. -/
def find_fit : Nat → Mem → Nat → Nat → Option (Option Nat)
  | 0, _, _, _ => none
  | fuel + 1, m, b, new_size =>
    if GET_ALLOC m (HEADER_PAYLOAD b) = 0 ∧ GET_SIZE m (HEADER_PAYLOAD b) ≥ sext new_size then
      some (some b)
    else if NEXT_FREE m b ≠ 0 then find_fit fuel m (NEXT_FREE m b) new_size
    else some none

/-- Lines 230-235 of `mm_malloc`: new page if no blocks big enough. -/
def malloc_new_page (ar : Arena) (fuel : Nat) (s : State) (new_size : Nat) :
    Option (Nat × State) :=
  match new_page ar fuel s (sext new_size) with
  | none => none
  | some (b, s) => some (b, allocate_mem s b (sext new_size))

/-- `mm_malloc(size)`: allocate a block from the free list, grabbing a new
page if necessary.  Returns the payload address and the new state. -/
def mm_malloc (ar : Arena) (fuel : Nat) (s : State) (size : Nat) : Option (Nat × State) :=
  -- Align the given size
  let new_size := needed_size size
  if s.last_freed ≠ 0 then
    match find_fit fuel s.mem s.last_freed new_size with
    | none => none
    | some (some b) => some (b, allocate_mem s b (sext new_size))
    | some none => malloc_new_page ar fuel s new_size
  else
    malloc_new_page ar fuel s new_size

/-! ## Deallocation (`mm.c` lines 272-347) -/

/-- `coalesce(b_payload)`: merge a just-freed block with its free physical
neighbours and put the result on the free list; returns the merged block. -/
def coalesce (s : State) (b : Nat) : Nat × State :=
  let prev_alloc := GET_PREV_ALLOC s.mem (HEADER_PAYLOAD b)
  let next_alloc := GET_ALLOC s.mem (HEADER_PAYLOAD (NEXT_PAY s.mem b))
  let size := GET_SIZE s.mem (HEADER_PAYLOAD b)
  if prev_alloc ≠ 0 ∧ next_alloc ≠ 0 then
    -- Don't coalesce
    (b, add_free s b)
  else if prev_alloc ≠ 0 ∧ next_alloc = 0 then
    -- Coalesce next block
    let s := remove_free s (NEXT_PAY s.mem b)
    let size := uadd size (GET_SIZE s.mem (HEADER_PAYLOAD (NEXT_PAY s.mem b)))
    let s := s.put (HEADER_PAYLOAD b) (SET_BITS size 0 2)
    let s := s.put (FOOTER_PAYLOAD s.mem b) (SET_BITS size 0 2)
    (b, add_free s b)
  else if prev_alloc = 0 ∧ next_alloc ≠ 0 then
    -- Coalesce previous
    let s := remove_free s (PREV_BLKP s.mem b)
    let size := uadd size (GET_SIZE s.mem (PREV_FT b))
    let s := s.put (FOOTER_PAYLOAD s.mem b) (SET_BITS size 0 2)
    let s := s.put (HEADER_PAYLOAD (PREV_BLKP s.mem b)) (SET_BITS size 0 2)
    let b := PREV_BLKP s.mem b
    (b, add_free s b)
  else if prev_alloc = 0 ∧ next_alloc = 0 then
    -- Coalesce both
    let s := remove_free s (PREV_BLKP s.mem b)
    let s := remove_free s (NEXT_PAY s.mem b)
    let size := uadd size
      (uadd (GET_SIZE s.mem (HEADER_PAYLOAD (NEXT_PAY s.mem b))) (GET_SIZE s.mem (PREV_FT b)))
    let s := s.put (HEADER_PAYLOAD (PREV_BLKP s.mem b)) (SET_BITS size 0 2)
    let s := s.put (FOOTER_PAYLOAD s.mem (NEXT_PAY s.mem b)) (SET_BITS size 0 2)
    let b := PREV_BLKP s.mem b
    (b, add_free s b)
  else
    (b, s)

/-- `mm_free(b_payload)`: release a block, with coalescing. -/
def mm_free (s : State) (b : Nat) : State :=
  let s := s.put (HEADER_PAYLOAD b)
    (SET_BITS (GET_SIZE s.mem (HEADER_PAYLOAD b)) 0 (GET_PREV_ALLOC s.mem (HEADER_PAYLOAD b)))
  let s := s.put (FOOTER_PAYLOAD s.mem b)
    (SET_BITS (GET_SIZE s.mem (HEADER_PAYLOAD b)) 0 (GET_PREV_ALLOC s.mem (HEADER_PAYLOAD b)))
  let (b, s) := coalesce s b
  let s := s.put (HEADER_PAYLOAD (NEXT_PAY s.mem b))
    (SET_BITS (GET_SIZE s.mem (HEADER_PAYLOAD (NEXT_PAY s.mem b))) 1 0)
  -- Erase page if there is only one block
  if GET_SIZE s.mem (NEXT_PAY s.mem b) = 0 ∧ GET_PREV_ALLOC s.mem (PREV_FT b) = 3 then
    remove_page s b
  else
    s

/-- Lines 275-276 of `mm_free`: mark the block free in header and footer. -/
def free_mark (s : State) (b : Nat) : State :=
  let s := s.put (HEADER_PAYLOAD b)
    (SET_BITS (GET_SIZE s.mem (HEADER_PAYLOAD b)) 0 (GET_PREV_ALLOC s.mem (HEADER_PAYLOAD b)))
  s.put (FOOTER_PAYLOAD s.mem b)
    (SET_BITS (GET_SIZE s.mem (HEADER_PAYLOAD b)) 0 (GET_PREV_ALLOC s.mem (HEADER_PAYLOAD b)))

/-- Lines 280-286 of `mm_free`, on the block that `coalesce` returned. -/
def free_finish (s : State) (b : Nat) : State :=
  let s := s.put (HEADER_PAYLOAD (NEXT_PAY s.mem b))
    (SET_BITS (GET_SIZE s.mem (HEADER_PAYLOAD (NEXT_PAY s.mem b))) 1 0)
  if GET_SIZE s.mem (NEXT_PAY s.mem b) = 0 ∧ GET_PREV_ALLOC s.mem (PREV_FT b) = 3 then
    remove_page s b
  else
    s

/-! ## Call sequences -/

/-- One call of the public interface. -/
inductive Call where
  | malloc (n : Nat)
  | free (p : Nat)
deriving DecidableEq, Repr

/-- Allocator state together with the live allocations: the pairs
`(p, n)` of an address returned by `mm_malloc(n)` and not yet freed, most
recent first. -/
structure Sys where
  st : State
  live : List (Nat × Nat)
deriving DecidableEq, Repr

/-- The system right after `mm_init`. -/
def start (ar : Arena) : Sys := { st := mm_init ar boot, live := [] }

/-- One call.  `mm_free` may only be given a live address (its
precondition); `none` when the precondition fails or `mm_malloc` does not
return within `fuel` loop iterations. -/
def step (ar : Arena) (fuel : Nat) (σ : Sys) : Call → Option Sys
  | .malloc n =>
    match mm_malloc ar fuel σ.st n with
    | none => none
    | some (p, s) => some { st := s, live := (p, n) :: σ.live }
  | .free p =>
    if σ.live.any (fun e => e.1 == p) then
      some { st := mm_free σ.st p, live := σ.live.eraseP (fun e => e.1 == p) }
    else none

/-- A sequence of calls, the client storing nothing in between. -/
def run (ar : Arena) (fuel : Nat) : Sys → List Call → Option Sys
  | σ, [] => some σ
  | σ, c :: cs =>
    match step ar fuel σ c with
    | none => none
    | some σ1 => run ar fuel σ1 cs

/-! ## Predicates used in the statements -/

/-- Every pointer-sized field (an address that is `8` modulo `16`) holds a
multiple of 16.  This holds of memory that only the allocator has written; a
client that stores into its payloads breaks it. -/
def AlMem (m : Mem) : Prop := ∀ a, a % 16 = 8 → read m a % 16 = 0

/-- Alignment invariant of the allocator state on runs in which the client
stores nothing into its allocations. -/
structure Aligned (s : State) : Prop where
  mem : AlMem s.mem
  last_freed : s.last_freed % 16 = 0
  min_page_size : s.min_page_size % 16 = 0

/-- An arena whose page granularity and base addresses are multiples of 16. -/
structure Arena.Aligned16 (ar : Arena) : Prop where
  pagesize : ar.pagesize % 16 = 0
  base : ∀ k size, ar.mem_map k size % 16 = 0

/-- The payload ranges `[p, p + n)` of the live allocations are pairwise
disjoint (an empty range is disjoint from every range). -/
def NoOverlap (live : List (Nat × Nat)) : Prop :=
  live.Pairwise (fun a b => a.2 = 0 ∨ b.2 = 0 ∨ a.1 + a.2 ≤ b.1 ∨ b.1 + b.2 ≤ a.1)

/-- The payload addresses met by following forward links from `b` until
null (`none` when the walk is longer than `fuel`). -/
def free_list : Nat → Mem → Nat → Option (List Nat)
  | 0, _, _ => none
  | fuel + 1, m, b =>
    if b = 0 then some []
    else (free_list fuel m (NEXT_FREE m b)).map (fun l => b :: l)

/-- The payload addresses of the physical blocks of a page, from the payload
`b` on, up to and excluding the zero-size end block. -/
def page_blocks : Nat → Mem → Nat → List Nat
  | 0, _, _ => []
  | fuel + 1, m, b =>
    if GET_SIZE m (HEADER_PAYLOAD b) = 0 then []
    else b :: page_blocks fuel m (NEXT_PAY m b)

/-- `s` rounded up to the next multiple of `ps`. -/
def round_up (ps s : Nat) : Nat := (s + ps - 1) / ps * ps

/-- An arena with 4096-byte pages whose `k`-th mapping starts at
`65536 * (k + 1)`. -/
def arena4k : Arena := { pagesize := 4096, mem_map := fun k _ => 65536 * (k + 1) }

/-- The part of the state that only page management touches. -/
structure Frame (s t : State) : Prop where
  maps : t.maps = s.maps
  unmaps : t.unmaps = s.unmaps
  min_page_size : t.min_page_size = s.min_page_size
  first_page : t.first_page = s.first_page


/-! ## Concrete runs on `arena4k` -/

/-- The system after `mm_malloc(16)` three times: three live 32-byte blocks
at `65584`, `65616`, `65648`, followed by the free remainder of the page. -/
def three_live : Sys :=
  { st := { mem := [(65536, 35), (65544, 0), (65560, 28672), (65568, 35), (65576, 0),
                    (65600, 35), (65608, 0), (65632, 35), (65640, 0), (65664, 28514),
                    (65672, 0), (94160, 28514), (94168, 0), (94176, 1)],
            first_pay := 65584, last_freed := 65680, first_page := 65536,
            min_page_size := 28672, maps := [(65536, 28672)], unmaps := [] },
    live := [(65648, 16), (65616, 16), (65584, 16)] }

/-- The state after `mm_malloc(100)` in `three_live`. -/
def three_live_next : State :=
  { mem := [(65536, 35), (65544, 0), (65560, 28672), (65568, 35), (65576, 0),
            (65600, 35), (65608, 0), (65632, 35), (65640, 0), (65664, 131), (65672, 0),
            (65792, 28386), (65800, 0), (94160, 28386), (94168, 0), (94176, 1)],
    first_pay := 65584, last_freed := 65808, first_page := 65536,
    min_page_size := 28672, maps := [(65536, 28672)], unmaps := [] }

/-- The system after `p = mm_malloc(0)`, `mm_malloc(1)`, `mm_free(p)`,
`mm_malloc(1)`: the free list runs `131152 → 65584 → 131152 → ...`. -/
def cyclic : Sys :=
  { st := { mem := [(65536, 35), (65544, 131072), (65560, 28672), (65568, 18), (65576, 131152),
                    (65584, 33), (65592, 0), (65616, 28562), (65624, 65584), (94160, 28562),
                    (94168, 0), (94176, 1), (131072, 35), (131080, 0), (131104, 35),
                    (131112, 0), (131136, 28578), (131144, 0), (159696, 28578),
                    (159704, 65584), (159712, 1)],
            first_pay := 65584, last_freed := 131152, first_page := 65536,
            min_page_size := 28672, maps := [(131072, 28672), (65536, 28672)], unmaps := [] },
    live := [(131120, 1), (65600, 1)] }

/-- A run with requests of at most 40 bytes that ends with an address handed
out twice over. -/
def stale_entry_calls : List Call :=
  [.malloc 1, .malloc 0, .malloc 1, .malloc 1, .malloc 1, .malloc 1,
   .free 65616, .free 65696, .free 65584, .free 65664, .malloc 40, .malloc 1, .malloc 1]

/-! ## Predicates for the header, page and free-list statements -/

/-- The word `w` with bits 2 and 3 cleared: the value `4 * (w / 4 % 4)` of
those two bits is taken away. -/
def clear_bits_2_3 (w : Nat) : Nat := w - w / 4 % 4 * 4

/-- The test of the walk in `mm_malloc` (line 221) on block `b`: allocation
bit clear and header size at least `new_size` (as `size_t`). -/
def fits (m : Mem) (new_size b : Nat) : Prop :=
  GET_ALLOC m (HEADER_PAYLOAD b) = 0 ∧ GET_SIZE m (HEADER_PAYLOAD b) ≥ new_size

/-- The state after `mm_init` and `mm_malloc(28592)` on `arena4k`: the
request took the whole free block of the first page, the free list is
empty. -/
def full_first_page : State :=
  { mem := [(65536, 35), (65544, 0), (65560, 28672), (65568, 28611), (65576, 0),
            (94160, 28610), (94168, 0), (94176, 3)],
    first_pay := 65584, last_freed := 0, first_page := 65536,
    min_page_size := 28672, maps := [(65536, 28672)], unmaps := [] }

/-- The heap after `mm_init` and `mm_malloc(30000)` on `arena4k`: two pages,
28672 bytes at `65536` and 32768 bytes at `131072`. -/
def two_pages_reached : State :=
  { mem := [(65536, 35), (65544, 131072), (65560, 32768), (65568, 28610), (65576, 161136),
            (94160, 28610), (94168, 0), (94176, 1), (131072, 35), (131080, 0),
            (131104, 30019), (131112, 0), (161120, 2690), (161128, 0), (163792, 2690),
            (163800, 65584), (163808, 1)],
    first_pay := 65584, last_freed := 161136, first_page := 65536,
    min_page_size := 819200, maps := [(131072, 32768), (65536, 28672)], unmaps := [] }

/-- The word at address `a` lies inside a region that `mem_map` handed out
and that was not given back to `mem_unmap`. -/
def mapped (s : State) (a : Nat) : Prop :=
  ∃ e ∈ s.maps, e ∉ s.unmaps ∧ e.1 ≤ a ∧ a + 8 ≤ e.1 + e.2

/-- The free-list run `L` in memory `m`: entered at `h` from a block whose
address is `q` (`0` at the head of the list), every block's forward link is
the next block of `L`, every block's backward link is the block before it,
and the forward link of the last block is `e` (`0` at the end of the
list). -/
def Seg (m : Mem) : Nat → Nat → List Nat → Nat → Prop
  | _, h, [], e => h = e
  | q, h, x :: L, e => h = x ∧ x ≠ 0 ∧ PREV_FREE m x = q ∧ Seg m x (NEXT_FREE m x) L e

/-- The address of the last block of the run `L`, or `q` for an empty run. -/
def last_of (q : Nat) : List Nat → Nat
  | [] => q
  | x :: L => last_of x L

/-- A block with payload `b` that can be on the free list: 16-byte aligned,
its header size at least 32 (header and footer, with the two links, do not
overlap), and its extent inside the address space. -/
structure Block (m : Mem) (b : Nat) : Prop where
  align : b % 16 = 0
  low : 16 ≤ b
  size : 32 ≤ GET_SIZE m (HEADER_PAYLOAD b)
  high : b + GET_SIZE m (HEADER_PAYLOAD b) < two64

/-- The extents of the blocks `a` and `b` (header to footer) are disjoint. -/
def Apart (m : Mem) (a b : Nat) : Prop :=
  a + GET_SIZE m (HEADER_PAYLOAD a) ≤ b ∨ b + GET_SIZE m (HEADER_PAYLOAD b) ≤ a

/-- A well-formed free list that represents the sequence `L`: distinct
(pairwise disjoint) blocks each of size at least 32, entered at `head`, the
head's backward link null, the last block's forward link null, backward links
mirroring forward links. -/
structure FreeList (m : Mem) (head : Nat) (L : List Nat) : Prop where
  chain : Seg m 0 head L 0
  block : ∀ x ∈ L, Block m x
  apart : L.Pairwise (Apart m)

/-- The state after six `mm_malloc(16)` and `mm_free` of the first, third
and fifth block on `arena4k`: the free list is
`65712 → 65648 → 65584 → 65776`. -/
def three_free : State :=
  { mem := [(65536, 35), (65544, 0), (65560, 28672), (65568, 34), (65576, 65648),
            (65584, 34), (65592, 65776), (65600, 33), (65608, 0), (65632, 34),
            (65640, 65712), (65648, 34), (65656, 65584), (65664, 33), (65672, 0),
            (65696, 34), (65704, 0), (65712, 34), (65720, 65648), (65728, 33), (65736, 0),
            (65760, 28418), (65768, 65584), (94160, 28418), (94168, 0), (94176, 1)],
    first_pay := 65584, last_freed := 65712, first_page := 65536,
    min_page_size := 28672, maps := [(65536, 28672)], unmaps := [] }

/-- The extent of block `x` does not meet the extent of a block with payload
`lo` that ends where a block with payload `hi` begins. -/
def Outside (m : Mem) (lo hi x : Nat) : Prop :=
  x + GET_SIZE m (HEADER_PAYLOAD x) ≤ lo ∨ hi ≤ x

/-- The result of `coalesce`: the state `t` and returned payload `res`, for a
merged block `r` of size `total` and the remaining free blocks `L`.  The
returned address is `r`; header and footer of `r` record `total` with the
allocation bit clear; the free list is well formed and represents `r :: L`,
so `r` is its head. -/
structure Coalesced (t : State) (res r total : Nat) (L : List Nat) : Prop where
  result : res = r
  header_size : GET_SIZE t.mem (HEADER_PAYLOAD r) = total
  header_alloc : GET_ALLOC t.mem (HEADER_PAYLOAD r) = 0
  footer_size : GET_SIZE t.mem (FOOTER_PAYLOAD t.mem r) = total
  footer_alloc : GET_ALLOC t.mem (FOOTER_PAYLOAD t.mem r) = 0
  list : FreeList t.mem t.last_freed (r :: L)
  head : t.last_freed = r

/-- Two physically adjacent live blocks `A` (size `sA`) and `B = A + sA`
(size `sB`) in a well-formed heap, with allocated outer neighbours: what the
heap's well-formedness says about them and about the free list.  The free
list is well formed and represents `L`; since it holds free blocks only and
blocks tile the page, the extent of each of its blocks is disjoint from the
extents of `A` and `B`.  Sizes are at least 32 (and multiples of 16, being
header sizes), both headers carry the allocated bit, the prev-allocated bits
of `A` and `B` are accurate (the block before `A` and `A` itself are
allocated), and the header after `B` carries the allocated bit.  Nothing is
assumed about the words inside the payloads of live blocks. -/
structure AdjacentLive (s : State) (L : List Nat) (A sA sB : Nat) : Prop where
  list : FreeList s.mem s.last_freed L
  outside : ∀ x ∈ L, Outside s.mem A (A + sA + sB) x
  alignA : A % 16 = 0
  lowA : 16 ≤ A
  high : A + sA + sB < two64
  sizeA : 32 ≤ sA
  sizeB : 32 ≤ sB
  hdrA_size : GET_SIZE s.mem (HEADER_PAYLOAD A) = sA
  hdrA_alloc : GET_ALLOC s.mem (HEADER_PAYLOAD A) = 1
  hdrA_prev : GET_PREV_ALLOC s.mem (HEADER_PAYLOAD A) = 2
  hdrB_size : GET_SIZE s.mem (HEADER_PAYLOAD (A + sA)) = sB
  hdrB_alloc : GET_ALLOC s.mem (HEADER_PAYLOAD (A + sA)) = 1
  hdrB_prev : GET_PREV_ALLOC s.mem (HEADER_PAYLOAD (A + sA)) = 2
  next_alloc : GET_ALLOC s.mem (HEADER_PAYLOAD (A + sA + sB)) = 1

/-- The state `three_free` after lines 275-276 of `mm_free(65616)`: the block
`65616`, between the free blocks `65584` and `65648`, is marked free and not
yet coalesced. -/
def marked_free : State := free_mark three_free 65616

/-- What a client does after `mm_init`: a call of the interface, or a store
of a 64-bit word `v` at an 8-byte aligned address `a` inside the payload of
one of its live allocations. -/
inductive Action where
  | call (c : Call)
  | store (a v : Nat)
deriving DecidableEq, Repr

/-- One action.  A store that is not inside a live payload is not an action
of a client that respects the interface: `none`. -/
def act (ar : Arena) (fuel : Nat) (σ : Sys) : Action → Option Sys
  | .call c => step ar fuel σ c
  | .store a v =>
    if a % 8 = 0 ∧ v < two64 ∧
        σ.live.any (fun e => decide (e.1 ≤ a ∧ a + 8 ≤ e.1 + e.2)) then
      some { σ with st := σ.st.put a v }
    else none

/-- A sequence of actions. -/
def play (ar : Arena) (fuel : Nat) : Sys → List Action → Option Sys
  | σ, [] => some σ
  | σ, a :: as =>
    match act ar fuel σ a with
    | none => none
    | some σ1 => play ar fuel σ1 as

/-- A client that asks for at most 48 bytes, frees only live addresses, and
stores four words into its live 40-byte allocation at `65664` before the last
request. -/
def unaligned_actions : List Action :=
  [.call (.malloc 1), .call (.malloc 0), .call (.malloc 1), .call (.malloc 1),
   .call (.malloc 1), .call (.malloc 1), .call (.free 65616), .call (.free 65696),
   .call (.free 65584), .call (.free 65664), .call (.malloc 40),
   .store 65680 1, .store 65672 65704, .store 65688 80, .store 65696 0,
   .call (.malloc 48)]

/-! # Theorems -/

/-! ## Memory and bit masks -/

theorem read_write (m : Mem) (a v x : Nat) :
    read (write m a v) x = if x = a then v else read m x := by
  induction m with
  | nil => simp [write, read]
  | cons kw m ih =>
    obtain ⟨k, w⟩ := kw
    by_cases h1 : a = k
    · subst h1
      simp only [write, if_pos, read]
      by_cases h3 : x = a <;> simp [h3]
    · by_cases h2 : a < k
      · simp only [write, if_neg h1, if_pos h2, read]
      · simp only [write, if_neg h1, if_neg h2, read, ih]
        by_cases h3 : x = k
        · have : x ≠ a := by omega
          simp [h3, this, Ne.symm h1]
        · simp [h3]

theorem and_mask_of_lt (x k n : Nat) (hk : k ≤ n) (hx : x < 2 ^ n) :
    x &&& (2 ^ n - 2 ^ k) = x - x % 2 ^ k := by
  have e1 : 2 ^ n - 2 ^ k = 2 ^ k * (2 ^ (n - k) - 1) := by
    rw [Nat.mul_sub, ← Nat.pow_add, Nat.add_sub_cancel' hk, Nat.mul_one]
  have e2 : x - x % 2 ^ k = 2 ^ k * (x / 2 ^ k) := by
    have := Nat.div_add_mod x (2 ^ k)
    omega
  rw [e1, e2]
  apply Nat.eq_of_testBit_eq
  intro i
  rw [Nat.testBit_and, Nat.testBit_mul_pow_two, Nat.testBit_mul_pow_two,
    Nat.testBit_two_pow_sub_one, ← Nat.shiftRight_eq_div_pow, Nat.testBit_shiftRight]
  by_cases hi : k ≤ i
  · by_cases hin : i < n
    · have : i - k < n - k := by omega
      have e : k + (i - k) = i := by omega
      simp [hi, this, e]
    · have : ¬ (i - k < n - k) := by omega
      have hxi : x.testBit i = false :=
        Nat.testBit_lt_two_pow (lt_of_lt_of_le hx (Nat.pow_le_pow_right (by decide) (by omega)))
      have e : k + (i - k) = i := by omega
      simp [hi, this, hxi, e]
  · simp [hi]

theorem and_mod_sixteen (x y : Nat) (hy : y % 16 = 0) : (x &&& y) % 16 = 0 := by
  have : (x &&& y) % 2 ^ 4 = 0 := by
    apply Nat.eq_of_testBit_eq
    intro i
    rw [Nat.testBit_mod_two_pow, Nat.testBit_and, Nat.zero_testBit]
    by_cases hi : i < 4
    · have h2 : (y % 2 ^ 4).testBit i = false := by
        have : y % 2 ^ 4 = 0 := hy
        rw [this]; simp
      rw [Nat.testBit_mod_two_pow] at h2
      simp [hi] at h2
      simp [h2]
    · simp [hi]
  simpa using this

/-! ## Alignment of every pointer the allocator handles -/

theorem uadd_mod (a b : Nat) : uadd a b % 16 = (a % 16 + b % 16) % 16 := by
  simp only [uadd, two64]; omega

theorem usub_mod (a b : Nat) : usub a b % 16 = (a % 16 + 16 - b % 16) % 16 := by
  simp only [usub, two64]; omega

theorem sext_mod (i : Nat) : sext i % 16 = i % 16 := by
  simp only [sext, two64, two32]; split <;> omega

theorem toInt_mod (x : Nat) : toInt x % 16 = x % 16 := by
  simp only [toInt, two32]; omega

theorem imul_mod (i k : Nat) (h : i % 16 = 0) : imul i k % 16 = 0 := by
  simp only [imul, two32]
  have : (i * k) % 16 = 0 := by
    rw [Nat.mul_mod, h]; simp
  omega

theorem GET_SIZE_mod (m : Mem) (p : Nat) : GET_SIZE m p % 16 = 0 :=
  and_mod_sixteen _ _ (by simp [two64])

theorem ALIGN_mod (x : Nat) : ALIGN x % 16 = 0 :=
  and_mod_sixteen _ _ (by simp [two64, ALIGNMENT])

theorem PAGE_ALIGN_mod (ar : Arena) (h : ar.pagesize % 16 = 0) (x : Nat) :
    PAGE_ALIGN ar x % 16 = 0 := by
  apply and_mod_sixteen
  have h1 := usub_mod ar.pagesize 1
  have h2 : usub ar.pagesize 1 < two64 := Nat.mod_lt _ (by simp [two64])
  simp only [two64] at h2 ⊢
  omega

theorem HEADER_PAYLOAD_mod {b : Nat} (hb : b % 16 = 0) : HEADER_PAYLOAD b % 16 = 0 := by
  simp [HEADER_PAYLOAD, BLOCK_OVERHEAD, usub_mod, hb]

theorem FOOTER_PAYLOAD_mod (m : Mem) {b : Nat} (hb : b % 16 = 0) :
    FOOTER_PAYLOAD m b % 16 = 0 := by
  simp [FOOTER_PAYLOAD, BLOCK_OVERHEAD, FOOTER_SIZE, usub_mod, uadd_mod, hb, GET_SIZE_mod]

theorem NEXT_PAY_mod (m : Mem) {b : Nat} (hb : b % 16 = 0) : NEXT_PAY m b % 16 = 0 := by
  simp [NEXT_PAY, uadd_mod, hb, GET_SIZE_mod]

theorem PREV_FT_mod {b : Nat} (hb : b % 16 = 0) : PREV_FT b % 16 = 0 := by
  simp [PREV_FT, BLOCK_OVERHEAD, FOOTER_SIZE, usub_mod, hb]

theorem PREV_BLKP_mod (m : Mem) {b : Nat} (hb : b % 16 = 0) : PREV_BLKP m b % 16 = 0 := by
  simp [PREV_BLKP, usub_mod, hb, GET_SIZE_mod]

theorem NEXT_FREE_ADDR_mod (m : Mem) {b : Nat} (hb : b % 16 = 0) :
    NEXT_FREE_ADDR m b % 16 = 8 := by
  simp [NEXT_FREE_ADDR, uadd_mod, FOOTER_PAYLOAD_mod m hb]

theorem PREV_FREE_ADDR_mod {b : Nat} (hb : b % 16 = 0) : PREV_FREE_ADDR b % 16 = 8 := by
  simp [PREV_FREE_ADDR, uadd_mod, HEADER_PAYLOAD_mod hb]

theorem NEXT_FREE_mod {m : Mem} (hm : AlMem m) {b : Nat} (hb : b % 16 = 0) :
    NEXT_FREE m b % 16 = 0 := hm _ (NEXT_FREE_ADDR_mod m hb)

theorem PREV_FREE_mod {m : Mem} (hm : AlMem m) {b : Nat} (hb : b % 16 = 0) :
    PREV_FREE m b % 16 = 0 := hm _ (PREV_FREE_ADDR_mod hb)

theorem PAGE_NEXT_ADDR_mod {ph : Nat} (h : ph % 16 = 0) : PAGE_NEXT_ADDR ph % 16 = 8 := by
  simp [PAGE_NEXT_ADDR, uadd_mod, h]

theorem PAGE_NEXT_mod {m : Mem} (hm : AlMem m) {ph : Nat} (h : ph % 16 = 0) :
    PAGE_NEXT m ph % 16 = 0 := hm _ (PAGE_NEXT_ADDR_mod h)

theorem PAGE_PROLOG_mod {ph : Nat} (h : ph % 16 = 0) : PAGE_PROLOG ph % 16 = 0 := by
  simp [PAGE_PROLOG, PAGE_HEADER_SIZE, uadd_mod, h]

theorem PAGE_FIRST_PAY_mod {ph : Nat} (h : ph % 16 = 0) : PAGE_FIRST_PAY ph % 16 = 0 := by
  simp [PAGE_FIRST_PAY, PAGE_OVERHEAD, PAGE_HEADER_SIZE, BLOCK_OVERHEAD, uadd_mod, usub_mod, h]

theorem PROLOG_PAGE_SIZE_ADDR_mod {ph : Nat} (h : ph % 16 = 0) :
    PROLOG_PAGE_SIZE_ADDR ph % 16 = 8 := by
  simp [PROLOG_PAGE_SIZE_ADDR, uadd_mod, PAGE_PROLOG_mod h]

theorem AlMem.write {m : Mem} (hm : AlMem m) {p v : Nat} (hv : p % 16 = 8 → v % 16 = 0) :
    AlMem (write m p v) := by
  intro a ha
  rw [read_write]
  split
  · next h => subst h; exact hv ha
  · exact hm a ha

/-- Writing a size word (address `0 mod 16`). -/
theorem Aligned.put_tag {s : State} (h : Aligned s) {p : Nat} (hp : p % 16 = 0) (v : Nat) :
    Aligned (s.put p v) :=
  ⟨h.mem.write (fun h8 => by omega), h.last_freed, h.min_page_size⟩

/-- Writing an aligned value into a link field. -/
theorem Aligned.put_link {s : State} (h : Aligned s) (p : Nat) {v : Nat} (hv : v % 16 = 0) :
    Aligned (s.put p v) :=
  ⟨h.mem.write (fun _ => hv), h.last_freed, h.min_page_size⟩

theorem Aligned.set_last_freed {s : State} (h : Aligned s) {b : Nat} (hb : b % 16 = 0) :
    Aligned { s with last_freed := b } :=
  ⟨h.mem, hb, h.min_page_size⟩

theorem Aligned.set_min_page_size {s : State} (h : Aligned s) {x : Nat} (hx : x % 16 = 0) :
    Aligned { s with min_page_size := x } :=
  ⟨h.mem, h.last_freed, hx⟩

theorem add_free_aligned {s : State} (h : Aligned s) {b : Nat} (hb : b % 16 = 0) :
    Aligned (add_free s b) := by
  unfold add_free
  split
  · exact ((h.put_link _ (by rfl : 0 % 16 = 0)).put_link _ (by rfl : 0 % 16 = 0)).set_last_freed hb
  · exact (((h.put_link _ h.last_freed).put_link _ (by rfl : 0 % 16 = 0)).put_link _ hb).set_last_freed hb

theorem remove_free_aligned {s : State} (h : Aligned s) {b : Nat} (hb : b % 16 = 0) :
    Aligned (remove_free s b) := by
  unfold remove_free
  have hn := NEXT_FREE_mod h.mem hb
  split
  · exact h.set_last_freed (by rfl)
  · split
    · have h1 := h.put_link (PREV_FREE_ADDR (NEXT_FREE s.mem b)) (by rfl : 0 % 16 = 0)
      exact h1.set_last_freed (NEXT_FREE_mod h1.mem hb)
    · split
      · exact h.put_link _ (by rfl : 0 % 16 = 0)
      · have h1 := h.put_link (NEXT_FREE_ADDR s.mem (PREV_FREE s.mem b)) hn
        exact h1.put_link _ (PREV_FREE_mod h1.mem hb)


theorem coalesce_aligned {s : State} (h : Aligned s) {b : Nat} (hb : b % 16 = 0) :
    (coalesce s b).1 % 16 = 0 ∧ Aligned (coalesce s b).2 := by
  unfold coalesce
  simp only []
  split
  · exact ⟨hb, add_free_aligned h hb⟩
  · split
    · have h1 := remove_free_aligned h (NEXT_PAY_mod s.mem hb)
      refine ⟨hb, add_free_aligned ?_ hb⟩
      exact (h1.put_tag (HEADER_PAYLOAD_mod hb) _).put_tag (FOOTER_PAYLOAD_mod _ hb) _
    · split
      · have h1 := remove_free_aligned h (PREV_BLKP_mod s.mem hb)
        refine ⟨PREV_BLKP_mod _ hb, add_free_aligned ?_ (PREV_BLKP_mod _ hb)⟩
        exact (h1.put_tag (FOOTER_PAYLOAD_mod _ hb) _).put_tag
          (HEADER_PAYLOAD_mod (PREV_BLKP_mod _ hb)) _
      · split
        · have h1 := remove_free_aligned h (PREV_BLKP_mod s.mem hb)
          have h2 := remove_free_aligned h1 (NEXT_PAY_mod (remove_free s (PREV_BLKP s.mem b)).mem hb)
          refine ⟨PREV_BLKP_mod _ hb, add_free_aligned ?_ (PREV_BLKP_mod _ hb)⟩
          exact (h2.put_tag (HEADER_PAYLOAD_mod (PREV_BLKP_mod _ hb)) _).put_tag
            (FOOTER_PAYLOAD_mod _ (NEXT_PAY_mod _ hb)) _
        · exact ⟨hb, h⟩


theorem and_two_ne_three (x : Nat) : x &&& 2 ≠ 3 := by
  have : x &&& 2 ≤ 2 := Nat.and_le_right
  omega

theorem mm_free_aligned {s : State} (h : Aligned s) {b : Nat} (hb : b % 16 = 0) :
    Aligned (mm_free s b) := by
  unfold mm_free
  simp only []
  have h1 := (h.put_tag (HEADER_PAYLOAD_mod hb)
    (SET_BITS (GET_SIZE s.mem (HEADER_PAYLOAD b)) 0 (GET_PREV_ALLOC s.mem (HEADER_PAYLOAD b))))
  generalize s.put (HEADER_PAYLOAD b)
    (SET_BITS (GET_SIZE s.mem (HEADER_PAYLOAD b)) 0 (GET_PREV_ALLOC s.mem (HEADER_PAYLOAD b))) = s1 at h1 ⊢
  have h2 := (h1.put_tag (FOOTER_PAYLOAD_mod s1.mem hb)
    (SET_BITS (GET_SIZE s1.mem (HEADER_PAYLOAD b)) 0 (GET_PREV_ALLOC s1.mem (HEADER_PAYLOAD b))))
  generalize s1.put (FOOTER_PAYLOAD s1.mem b)
    (SET_BITS (GET_SIZE s1.mem (HEADER_PAYLOAD b)) 0 (GET_PREV_ALLOC s1.mem (HEADER_PAYLOAD b))) = s2 at h2 ⊢
  obtain ⟨hc1, hc2⟩ := coalesce_aligned h2 hb
  generalize coalesce s2 b = r at hc1 hc2 ⊢
  obtain ⟨b', s3⟩ := r
  simp only [] at hc1 hc2 ⊢
  rw [if_neg (fun hh => and_two_ne_three _ hh.2)]
  exact hc2.put_tag (HEADER_PAYLOAD_mod (NEXT_PAY_mod _ hc1)) _

theorem allocate_mem_aligned {s : State} (h : Aligned s) {b : Nat} (hb : b % 16 = 0)
    (size : Nat) : Aligned (allocate_mem s b size) := by
  unfold allocate_mem
  simp only []
  have h1 := remove_free_aligned h hb
  generalize remove_free s b = s1 at h1 ⊢
  split
  · apply add_free_aligned _ (NEXT_PAY_mod _ hb)
    exact ((h1.put_tag (HEADER_PAYLOAD_mod hb) _).put_tag
      (HEADER_PAYLOAD_mod (NEXT_PAY_mod _ hb)) _).put_tag
      (FOOTER_PAYLOAD_mod _ (NEXT_PAY_mod _ hb)) _
  · exact (h1.put_tag (HEADER_PAYLOAD_mod hb) _).put_tag
      (HEADER_PAYLOAD_mod (NEXT_PAY_mod _ hb)) _

theorem page_request_aligned {ar : Arena} (har : ar.Aligned16) {mps : Nat} (h : mps % 16 = 0)
    (size : Nat) :
    (page_request ar mps size).1 % 16 = 0 ∧ (page_request ar mps size).2 % 16 = 0 := by
  unfold page_request
  split
  · exact ⟨h, h⟩
  · have : toInt (PAGE_ALIGN ar (uadd size PAGE_OVERHEAD)) % 16 = 0 := by
      rw [toInt_mod]; exact PAGE_ALIGN_mod ar har.pagesize _
    exact ⟨this, imul_mod _ _ this⟩

theorem install_page_aligned {ar : Arena} (har : ar.Aligned16) {s : State} (h : Aligned s)
    {cur : Nat} (hcur : cur % 16 = 0) (lp : Nat) :
    (install_page ar s cur lp).1 % 16 = 0 ∧ Aligned (install_page ar s cur lp).2 := by
  unfold install_page
  simp only [mem_map]
  have hpp : ar.mem_map s.maps.length (sext cur) % 16 = 0 := har.base _ _
  generalize ar.mem_map s.maps.length (sext cur) = pp at hpp ⊢
  have hsx : sext cur % 16 = 0 := by rw [sext_mod]; exact hcur
  refine ⟨PAGE_FIRST_PAY_mod hpp, ?_⟩
  apply Aligned.put_tag _ (HEADER_PAYLOAD_mod (NEXT_PAY_mod _ (PAGE_FIRST_PAY_mod hpp)))
  apply add_free_aligned _ (PAGE_FIRST_PAY_mod hpp)
  apply Aligned.put_tag _ (FOOTER_PAYLOAD_mod _ (PAGE_FIRST_PAY_mod hpp))
  apply Aligned.put_tag _ (HEADER_PAYLOAD_mod (PAGE_FIRST_PAY_mod hpp))
  apply Aligned.put_link _ _ hsx
  apply Aligned.put_tag _ (HEADER_PAYLOAD_mod (PAGE_PROLOG_mod hpp))
  apply Aligned.put_link _ _ (by rfl : 0 % 16 = 0)
  apply Aligned.put_tag _ (by simpa [PAGE_PREV_ADDR] using hpp)
  apply Aligned.put_link _ _ hpp
  exact ⟨h.mem, h.last_freed, h.min_page_size⟩

theorem new_page_aligned {ar : Arena} (har : ar.Aligned16) {s : State} (h : Aligned s)
    {fuel size p : Nat} {s' : State} (hr : new_page ar fuel s size = some (p, s')) :
    p % 16 = 0 ∧ Aligned s' := by
  obtain ⟨hc, hm⟩ := page_request_aligned har h.min_page_size size
  have h1 := h.set_min_page_size hm
  cases hlp : last_page fuel s.mem s.first_page with
  | none => simp [new_page, hlp] at hr
  | some lp =>
    have h2 := install_page_aligned har h1 hc lp
    simp only [new_page, hlp, Option.some.injEq] at hr
    rw [hr] at h2
    exact h2

theorem find_fit_aligned {m : Mem} (hm : AlMem m) (new_size : Nat) :
    ∀ (fuel b p : Nat), b % 16 = 0 → find_fit fuel m b new_size = some (some p) → p % 16 = 0 := by
  intro fuel
  induction fuel with
  | zero => intro b p _ h; simp [find_fit] at h
  | succ n ih =>
    intro b p hb h
    unfold find_fit at h
    split at h
    · cases h; exact hb
    · split at h
      · exact ih _ _ (NEXT_FREE_mod hm hb) h
      · cases h

theorem malloc_new_page_aligned {ar : Arena} (har : ar.Aligned16) {s : State} (h : Aligned s)
    {fuel new_size p : Nat} {s' : State}
    (hr : malloc_new_page ar fuel s new_size = some (p, s')) : p % 16 = 0 ∧ Aligned s' := by
  unfold malloc_new_page at hr
  split at hr
  · cases hr
  · next b s1 hnp =>
    obtain ⟨hb, h1⟩ := new_page_aligned har h hnp
    injection hr with hr
    injection hr with hp hs
    subst hp hs
    exact ⟨hb, allocate_mem_aligned h1 hb _⟩

theorem mm_malloc_aligned {ar : Arena} (har : ar.Aligned16) {s : State} (h : Aligned s)
    {fuel size p : Nat} {s' : State} (hr : mm_malloc ar fuel s size = some (p, s')) :
    p % 16 = 0 ∧ Aligned s' := by
  unfold mm_malloc at hr
  simp only [] at hr
  split at hr
  · split at hr
    · cases hr
    · next b hff =>
      have hb := find_fit_aligned h.mem _ _ _ _ h.last_freed hff
      injection hr with hr
      injection hr with hp hs
      subst hp hs
      exact ⟨hb, allocate_mem_aligned h hb _⟩
    · exact malloc_new_page_aligned har h hr
  · exact malloc_new_page_aligned har h hr

theorem AlMem_nil : AlMem [] := by
  intro a _; rfl

theorem mm_init_aligned {ar : Arena} (har : ar.Aligned16) : Aligned (mm_init ar boot) := by
  unfold mm_init
  simp only [mem_map]
  have hfp : ar.mem_map boot.maps.length (sext (toInt (ar.pagesize * 7 % two64))) % 16 = 0 :=
    har.base _ _
  have hsz : sext (toInt (ar.pagesize * 7 % two64)) % 16 = 0 := by
    rw [sext_mod, toInt_mod]
    have := har.pagesize
    simp only [two64]; omega
  have hmps : toInt (ar.pagesize * 7 % two64) % 16 = 0 := by
    rw [toInt_mod]
    have := har.pagesize
    simp only [two64]; omega
  generalize ar.mem_map boot.maps.length (sext (toInt (ar.pagesize * 7 % two64))) = fp at hfp ⊢
  apply Aligned.put_tag _ (HEADER_PAYLOAD_mod (NEXT_PAY_mod _ (PAGE_FIRST_PAY_mod hfp)))
  apply Aligned.set_last_freed _ (PAGE_FIRST_PAY_mod hfp)
  apply Aligned.put_link _ _ (by rfl : 0 % 16 = 0)
  apply Aligned.put_link _ _ (by rfl : 0 % 16 = 0)
  apply Aligned.put_tag _ (FOOTER_PAYLOAD_mod _ (PAGE_FIRST_PAY_mod hfp))
  apply Aligned.put_tag _ (HEADER_PAYLOAD_mod (PAGE_FIRST_PAY_mod hfp))
  refine ⟨?_, by rfl, hmps⟩
  apply AlMem.write _ (fun _ => hsz)
  apply AlMem.write _ (fun h8 => ?_)
  · apply AlMem.write _ (fun _ => (by rfl : 0 % 16 = 0))
    apply AlMem.write _ (fun _ => (by rfl : 0 % 16 = 0))
    exact AlMem_nil
  · have h0 := HEADER_PAYLOAD_mod (PAGE_PROLOG_mod hfp)
    have h8' : HEADER_PAYLOAD (PAGE_PROLOG fp) % 16 = 8 := h8
    omega

/-! ## Call sequences without client stores keep everything aligned -/

theorem step_aligned {ar : Arena} (har : ar.Aligned16) {fuel : Nat} {σ σ1 : Sys} {c : Call}
    (h : Aligned σ.st) (hl : ∀ e ∈ σ.live, e.1 % 16 = 0) (hs : step ar fuel σ c = some σ1) :
    Aligned σ1.st ∧ ∀ e ∈ σ1.live, e.1 % 16 = 0 := by
  cases c with
  | malloc n =>
    simp only [step] at hs
    split at hs
    · cases hs
    · next p s hm =>
      obtain ⟨hp, hs'⟩ := mm_malloc_aligned har h hm
      injection hs with hs
      subst hs
      refine ⟨hs', ?_⟩
      intro e he
      rcases List.mem_cons.mp he with rfl | he
      · exact hp
      · exact hl e he
  | free p =>
    simp only [step] at hs
    split at hs
    · next hany =>
      injection hs with hs
      subst hs
      obtain ⟨e, he, hep⟩ := List.any_eq_true.mp hany
      have hp : p % 16 = 0 := by
        have := hl e he
        simp only [beq_iff_eq] at hep
        rw [← hep]; exact this
      exact ⟨mm_free_aligned h hp, fun e he => hl e (List.mem_of_mem_eraseP he)⟩
    · cases hs

theorem run_aligned {ar : Arena} (har : ar.Aligned16) (fuel : Nat) :
    ∀ (calls : List Call) (σ σ1 : Sys), Aligned σ.st → (∀ e ∈ σ.live, e.1 % 16 = 0) →
      run ar fuel σ calls = some σ1 → Aligned σ1.st ∧ ∀ e ∈ σ1.live, e.1 % 16 = 0 := by
  intro calls
  induction calls with
  | nil =>
    intro σ σ1 h hl hr
    simp only [run, Option.some.injEq] at hr
    subst hr
    exact ⟨h, hl⟩
  | cons c cs ih =>
    intro σ σ1 h hl hr
    simp only [run] at hr
    split at hr
    · cases hr
    · next σ2 hs =>
      obtain ⟨h2, hl2⟩ := step_aligned har h hl hs
      exact ih σ2 σ1 h2 hl2 hr

theorem Arena.aligned16_of_pow {ar : Arena} {k : Nat} (hk : 4 ≤ k) (hps : ar.pagesize = 2 ^ k)
    (hbase : ∀ i size, ar.mem_map i size % ar.pagesize = 0) : ar.Aligned16 := by
  have h16 : ar.pagesize % 16 = 0 := by
    rw [hps]
    obtain ⟨j, rfl⟩ : ∃ j, k = 4 + j := ⟨k - 4, by omega⟩
    rw [Nat.pow_add]
    simp
  refine ⟨h16, fun i size => ?_⟩
  have h1 := hbase i size
  have h2 : 16 ∣ ar.pagesize := Nat.dvd_of_mod_eq_zero h16
  have h3 : ar.pagesize ∣ ar.mem_map i size := Nat.dvd_of_mod_eq_zero h1
  exact Nat.mod_eq_zero_of_dvd (Nat.dvd_trans h2 h3)

/-- Alignment as long as the client stores nothing into its allocations.
Assume the page granularity is a power of two that is at least 16 and
`mem_map` only returns multiples of it.  Then in every state reached from
`mm_init` by `mm_malloc`/`mm_free` calls alone, every `mm_free` given a live
address, every address that `mm_malloc(n)` returns is a multiple of 16. -/
theorem malloc_returns_aligned (ar : Arena) (k : Nat) (hk : 4 ≤ k) (hps : ar.pagesize = 2 ^ k)
    (hbase : ∀ i size, ar.mem_map i size % ar.pagesize = 0)
    (fuel : Nat) (calls : List Call) (σ : Sys) (hrun : run ar fuel (start ar) calls = some σ)
    (n fuel1 p : Nat) (s1 : State) (hm : mm_malloc ar fuel1 σ.st n = some (p, s1)) :
    p % 16 = 0 := by
  have har := Arena.aligned16_of_pow hk hps hbase
  have h0 : Aligned (start ar).st := mm_init_aligned har
  have hl0 : ∀ e ∈ (start ar).live, e.1 % 16 = 0 := by
    intro e he; simp [start] at he
  obtain ⟨h, _⟩ := run_aligned har fuel calls _ _ h0 hl0 hrun
  exact (mm_malloc_aligned har h hm).1


/-! ## What page management alone touches -/

theorem Frame.refl (s : State) : Frame s s := ⟨rfl, rfl, rfl, rfl⟩

theorem Frame.put {s t : State} (h : Frame s t) (p v : Nat) : Frame s (t.put p v) :=
  ⟨h.maps, h.unmaps, h.min_page_size, h.first_page⟩

theorem Frame.keep_last_freed {s t : State} (h : Frame s t) (b : Nat) :
    Frame s { t with last_freed := b } :=
  ⟨h.maps, h.unmaps, h.min_page_size, h.first_page⟩

theorem add_free_frame {s t : State} (h : Frame s t) (b : Nat) : Frame s (add_free t b) := by
  unfold add_free
  split
  · exact ((h.put _ _).put _ _).keep_last_freed _
  · exact (((h.put _ _).put _ _).put _ _).keep_last_freed _

theorem remove_free_frame {s t : State} (h : Frame s t) (b : Nat) :
    Frame s (remove_free t b) := by
  unfold remove_free
  split
  · exact h.keep_last_freed _
  · split
    · exact (h.put _ _).keep_last_freed _
    · split
      · exact h.put _ _
      · exact (h.put _ _).put _ _

theorem coalesce_frame {s t : State} (h : Frame s t) (b : Nat) : Frame s (coalesce t b).2 := by
  unfold coalesce
  simp only []
  split
  · exact add_free_frame h _
  · split
    · exact add_free_frame (((remove_free_frame h _).put _ _).put _ _) _
    · split
      · exact add_free_frame (((remove_free_frame h _).put _ _).put _ _) _
      · split
        · exact add_free_frame
            (((remove_free_frame (remove_free_frame h _) _).put _ _).put _ _) _
        · exact h

/-- `mm_free` never reaches `remove_page`: it leaves the page list, the
growth state and the log of arena calls as they are. -/
theorem mm_free_frame (s : State) (b : Nat) : Frame s (mm_free s b) := by
  unfold mm_free
  simp only []
  rw [if_neg (fun hh => and_two_ne_three _ hh.2)]
  exact (coalesce_frame (((Frame.refl s).put _ _).put _ _) _).put _ _

theorem allocate_mem_frame {s t : State} (h : Frame s t) (b size : Nat) :
    Frame s (allocate_mem t b size) := by
  unfold allocate_mem
  simp only []
  split
  · exact add_free_frame ((((remove_free_frame h _).put _ _).put _ _).put _ _) _
  · exact ((remove_free_frame h _).put _ _).put _ _

theorem two64_eq : two64 = 2 ^ 64 := by simp [two64]

theorem and_two_eq (x : Nat) : x &&& 2 = x / 2 % 2 * 2 := by
  apply Nat.eq_of_testBit_eq
  intro i
  rw [Nat.testBit_and]
  have h2 : (2 : Nat) = 2 ^ 1 := by norm_num
  rw [Nat.mul_comm]
  conv => rhs; rw [h2, Nat.testBit_mul_pow_two]
  conv => lhs; rw [h2, Nat.testBit_two_pow]
  by_cases hi : i = 1
  · subst hi
    simp [Nat.testBit_to_div_mod]
  · have : ¬ (1 = i) := fun h => hi h.symm
    simp only [this, decide_False, Bool.and_false]
    by_cases h1 : 1 ≤ i
    · have : 1 ≤ i - 1 := by omega
      have hlt : x / 2 % 2 < 2 ^ (i - 1) :=
        lt_of_lt_of_le (Nat.mod_lt _ (by decide)) (by
          calc 2 = 2 ^ 1 := by norm_num
            _ ≤ 2 ^ (i - 1) := Nat.pow_le_pow_right (by decide) this)
      simp [Nat.testBit_lt_two_pow hlt]
    · simp [h1]

/-- The three fields of a header word built by `SET_BITS`. -/
theorem SET_BITS_eq {size alloc prev_alloc : Nat} (hs : size % 16 = 0) (ha : alloc < 2)
    (hp : prev_alloc = 0 ∨ prev_alloc = 2) :
    SET_BITS size alloc prev_alloc = size + alloc + prev_alloc := by
  unfold SET_BITS
  have h1 : alloc ||| prev_alloc = alloc + prev_alloc := by
    have : alloc = 0 ∨ alloc = 1 := by omega
    rcases this with rfl | rfl <;> rcases hp with rfl | rfl <;> decide
  have h2 : size = 2 ^ 4 * (size / 16) := by
    have := Nat.div_add_mod size 16
    omega
  rw [Nat.or_assoc, h1]
  have h3 : alloc + prev_alloc < 2 ^ 4 := by
    rcases hp with rfl | rfl <;> omega
  have := Nat.mul_add_lt_is_or h3 (size / 16)
  rw [← h2] at this
  omega

theorem SET_BITS_size {size alloc prev_alloc : Nat} (hs : size % 16 = 0) (hlt : size < two64)
    (ha : alloc < 2) (hp : prev_alloc = 0 ∨ prev_alloc = 2) :
    SET_BITS size alloc prev_alloc &&& (two64 - 16) = size := by
  rw [SET_BITS_eq hs ha hp]
  have h16 : two64 - 16 = 2 ^ 64 - 2 ^ 4 := by rw [two64_eq]; norm_num
  have hx : size + alloc + prev_alloc < 2 ^ 64 := by
    rw [← two64_eq]; simp only [two64] at hlt ⊢
    rcases hp with rfl | rfl <;> omega
  rw [h16, and_mask_of_lt _ 4 64 (by decide) hx]
  rcases hp with rfl | rfl <;> omega

theorem SET_BITS_alloc {size alloc prev_alloc : Nat} (hs : size % 16 = 0)
    (ha : alloc < 2) (hp : prev_alloc = 0 ∨ prev_alloc = 2) :
    SET_BITS size alloc prev_alloc &&& 1 = alloc := by
  rw [SET_BITS_eq hs ha hp, Nat.and_one_is_mod]
  rcases hp with rfl | rfl <;> omega

theorem SET_BITS_prev_alloc {size alloc prev_alloc : Nat} (hs : size % 16 = 0)
    (ha : alloc < 2) (hp : prev_alloc = 0 ∨ prev_alloc = 2) :
    SET_BITS size alloc prev_alloc &&& 2 = prev_alloc := by
  rw [SET_BITS_eq hs ha hp, and_two_eq]
  rcases hp with rfl | rfl <;> omega

theorem GET_SIZE_lt (m : Mem) (p : Nat) : GET_SIZE m p < two64 := by
  have : GET_SIZE m p ≤ two64 - 16 := Nat.and_le_right
  simp only [two64] at this ⊢
  omega

/-! ## Link writes leave size words alone -/

theorem read_put_link {s : State} {p : Nat} (hp : p % 16 = 8) (v : Nat) {a : Nat}
    (ha : a % 16 = 0) : read (s.put p v).mem a = read s.mem a := by
  show read (write s.mem p v) a = read s.mem a
  rw [read_write, if_neg (by omega)]

/-! ## Addresses without wrap-around -/

theorem HEADER_PAYLOAD_val {b : Nat} (h16 : 16 ≤ b) (hb : b < two64) :
    HEADER_PAYLOAD b = b - 16 := by
  simp only [HEADER_PAYLOAD, usub, BLOCK_OVERHEAD, two64] at hb ⊢
  omega

theorem FOOTER_PAYLOAD_val {m : Mem} {b sz : Nat} (h16 : 16 ≤ b) (hsz : 32 ≤ sz)
    (hb : b + sz < two64) (hs : GET_SIZE m (b - 16) = sz) :
    FOOTER_PAYLOAD m b = b + sz - 32 := by
  unfold FOOTER_PAYLOAD
  rw [HEADER_PAYLOAD_val h16 (by omega), hs]
  simp only [usub, uadd, BLOCK_OVERHEAD, FOOTER_SIZE, two64] at hb ⊢
  omega

theorem NEXT_PAY_val {m : Mem} {b sz : Nat} (h16 : 16 ≤ b)
    (hb : b + sz < two64) (hs : GET_SIZE m (b - 16) = sz) :
    NEXT_PAY m b = b + sz := by
  unfold NEXT_PAY
  rw [HEADER_PAYLOAD_val h16 (by omega), hs]
  simp only [uadd, two64] at hb ⊢
  omega

theorem PREV_FT_val {b : Nat} (h32 : 32 ≤ b) (hb : b < two64) : PREV_FT b = b - 32 := by
  simp only [PREV_FT, usub, BLOCK_OVERHEAD, FOOTER_SIZE, two64] at hb ⊢
  omega

theorem PREV_BLKP_val {m : Mem} {b sp : Nat} (h32 : 32 ≤ b) (hb : b < two64)
    (hs : GET_SIZE m (b - 32) = sp) (hle : sp ≤ b) : PREV_BLKP m b = b - sp := by
  unfold PREV_BLKP
  rw [PREV_FT_val h32 hb, hs]
  simp only [usub, two64] at hb ⊢
  omega

theorem GET_SIZE_of_read {m : Mem} {p size alloc prev_alloc : Nat}
    (hr : read m p = SET_BITS size alloc prev_alloc) (hs : size % 16 = 0) (hlt : size < two64)
    (ha : alloc < 2) (hp : prev_alloc = 0 ∨ prev_alloc = 2) : GET_SIZE m p = size := by
  unfold GET_SIZE GET; rw [hr]; exact SET_BITS_size hs hlt ha hp

theorem GET_ALLOC_of_read {m : Mem} {p size alloc prev_alloc : Nat}
    (hr : read m p = SET_BITS size alloc prev_alloc) (hs : size % 16 = 0)
    (ha : alloc < 2) (hp : prev_alloc = 0 ∨ prev_alloc = 2) : GET_ALLOC m p = alloc := by
  unfold GET_ALLOC GET; rw [hr]; exact SET_BITS_alloc hs ha hp

theorem GET_PREV_ALLOC_of_read {m : Mem} {p size alloc prev_alloc : Nat}
    (hr : read m p = SET_BITS size alloc prev_alloc) (hs : size % 16 = 0)
    (ha : alloc < 2) (hp : prev_alloc = 0 ∨ prev_alloc = 2) :
    GET_PREV_ALLOC m p = prev_alloc := by
  unfold GET_PREV_ALLOC GET; rw [hr]; exact SET_BITS_prev_alloc hs ha hp

theorem GET_SIZE_congr {m m1 : Mem} {p : Nat} (h : read m1 p = read m p) :
    GET_SIZE m1 p = GET_SIZE m p := by
  unfold GET_SIZE GET; rw [h]

theorem GET_ALLOC_congr {m m1 : Mem} {p : Nat} (h : read m1 p = read m p) :
    GET_ALLOC m1 p = GET_ALLOC m p := by
  unfold GET_ALLOC GET; rw [h]

theorem GET_PREV_ALLOC_congr {m m1 : Mem} {p : Nat} (h : read m1 p = read m p) :
    GET_PREV_ALLOC m1 p = GET_PREV_ALLOC m p := by
  unfold GET_PREV_ALLOC GET; rw [h]

theorem read_put (s : State) (p v a : Nat) :
    read (s.put p v).mem a = if a = p then v else read s.mem a :=
  read_write _ _ _ _

/-! ## The four branches of `coalesce` -/

theorem coalesce_alone {s : State} {b : Nat}
    (hp : GET_PREV_ALLOC s.mem (HEADER_PAYLOAD b) ≠ 0)
    (hn : GET_ALLOC s.mem (HEADER_PAYLOAD (NEXT_PAY s.mem b)) ≠ 0) :
    coalesce s b = (b, add_free s b) := by
  unfold coalesce
  simp only []
  rw [if_pos ⟨hp, hn⟩]

theorem coalesce_next {s : State} {b : Nat}
    (hp : GET_PREV_ALLOC s.mem (HEADER_PAYLOAD b) ≠ 0)
    (hn : GET_ALLOC s.mem (HEADER_PAYLOAD (NEXT_PAY s.mem b)) = 0) :
    coalesce s b =
      let s3 := remove_free s (NEXT_PAY s.mem b)
      let size := uadd (GET_SIZE s.mem (HEADER_PAYLOAD b))
        (GET_SIZE s3.mem (HEADER_PAYLOAD (NEXT_PAY s3.mem b)))
      let s4 := s3.put (HEADER_PAYLOAD b) (SET_BITS size 0 2)
      let s5 := s4.put (FOOTER_PAYLOAD s4.mem b) (SET_BITS size 0 2)
      (b, add_free s5 b) := by
  unfold coalesce
  simp only []
  rw [if_neg (fun hh => hh.2 hn), if_pos ⟨hp, hn⟩]

theorem coalesce_prev {s : State} {b : Nat}
    (hp : GET_PREV_ALLOC s.mem (HEADER_PAYLOAD b) = 0)
    (hn : GET_ALLOC s.mem (HEADER_PAYLOAD (NEXT_PAY s.mem b)) ≠ 0) :
    coalesce s b =
      let s3 := remove_free s (PREV_BLKP s.mem b)
      let size := uadd (GET_SIZE s.mem (HEADER_PAYLOAD b)) (GET_SIZE s3.mem (PREV_FT b))
      let s4 := s3.put (FOOTER_PAYLOAD s3.mem b) (SET_BITS size 0 2)
      let s5 := s4.put (HEADER_PAYLOAD (PREV_BLKP s4.mem b)) (SET_BITS size 0 2)
      (PREV_BLKP s5.mem b, add_free s5 (PREV_BLKP s5.mem b)) := by
  unfold coalesce
  simp only []
  rw [if_neg (fun hh => hh.1 hp), if_neg (fun hh => hh.1 hp), if_pos ⟨hp, hn⟩]

theorem coalesce_both {s : State} {b : Nat}
    (hp : GET_PREV_ALLOC s.mem (HEADER_PAYLOAD b) = 0)
    (hn : GET_ALLOC s.mem (HEADER_PAYLOAD (NEXT_PAY s.mem b)) = 0) :
    coalesce s b =
      let s3 := remove_free s (PREV_BLKP s.mem b)
      let s4 := remove_free s3 (NEXT_PAY s3.mem b)
      let size := uadd (GET_SIZE s.mem (HEADER_PAYLOAD b))
        (uadd (GET_SIZE s4.mem (HEADER_PAYLOAD (NEXT_PAY s4.mem b))) (GET_SIZE s4.mem (PREV_FT b)))
      let s5 := s4.put (HEADER_PAYLOAD (PREV_BLKP s4.mem b)) (SET_BITS size 0 2)
      let s6 := s5.put (FOOTER_PAYLOAD s5.mem (NEXT_PAY s5.mem b)) (SET_BITS size 0 2)
      (PREV_BLKP s6.mem b, add_free s6 (PREV_BLKP s6.mem b)) := by
  unfold coalesce
  simp only []
  rw [if_neg (fun hh => hh.1 hp), if_neg (fun hh => hh.1 hp), if_neg (fun hh => hh.2 hn),
    if_pos ⟨hp, hn⟩]

theorem GET_PREV_ALLOC_cases (m : Mem) (p : Nat) :
    GET_PREV_ALLOC m p = 0 ∨ GET_PREV_ALLOC m p = 2 := by
  unfold GET_PREV_ALLOC
  rw [and_two_eq]
  have : GET m p / 2 % 2 < 2 := Nat.mod_lt _ (by decide)
  omega

theorem GET_ALLOC_cases (m : Mem) (p : Nat) : GET_ALLOC m p = 0 ∨ GET_ALLOC m p = 1 := by
  unfold GET_ALLOC
  rw [Nat.and_one_is_mod]
  omega

/-! ## The phases of `mm_free` -/

/-- `mm_free` is its three phases in sequence. -/
theorem mm_free_eq (s : State) (b : Nat) :
    mm_free s b = free_finish (coalesce (free_mark s b) b).2 (coalesce (free_mark s b) b).1 :=
  rfl

theorem free_finish_spec {s : State} {b sz : Nat} (h16 : 16 ≤ b) (hlt : b + sz < two64)
    (hsz : 16 ≤ sz) (hs : GET_SIZE s.mem (b - 16) = sz) :
    free_finish s b = s.put (b + sz - 16) (SET_BITS (GET_SIZE s.mem (b + sz - 16)) 1 0) := by
  have n1 : NEXT_PAY s.mem b = b + sz := NEXT_PAY_val h16 hlt hs
  have e1 : HEADER_PAYLOAD (b + sz) = b + sz - 16 := HEADER_PAYLOAD_val (by omega) hlt
  unfold free_finish
  simp only [n1, e1]
  rw [if_neg (fun hh => and_two_ne_three _ hh.2)]

/-! ## Freeing two adjacent blocks -/

/-- When the head of the free list is free and large enough, `mm_malloc`
commits it without looking further. -/
theorem mm_malloc_head (ar : Arena) (s : State) (n fuel : Nat)
    (h0 : s.last_freed ≠ 0) (ha : GET_ALLOC s.mem (HEADER_PAYLOAD s.last_freed) = 0)
    (hs : GET_SIZE s.mem (HEADER_PAYLOAD s.last_freed) ≥ sext (needed_size n)) :
    mm_malloc ar (fuel + 1) s n
      = some (s.last_freed, allocate_mem s s.last_freed (sext (needed_size n))) := by
  unfold mm_malloc
  simp only []
  rw [if_pos h0]
  unfold find_fit
  rw [if_pos ⟨ha, hs⟩]

/-- A free block of size `sz` at the head of the free list, with header and
footer agreeing, serves a request whose needed size is `sz` without a new
page. -/
theorem merged_block_serves {ar : Arena} {s t : State} {A sz n : Nat} (fuel : Nat)
    (hA : 16 ≤ A) (hlt : A + sz < two64) (hsz : 32 ≤ sz) (hsz16 : sz % 16 = 0)
    (hf : Frame s t) (hl : t.last_freed = A)
    (hh : read t.mem (A - 16) = SET_BITS sz 0 2)
    (hft : read t.mem (A + sz - 32) = SET_BITS sz 0 2)
    (hn : sext (needed_size n) = sz) :
    t.last_freed = A ∧
    GET_SIZE t.mem (HEADER_PAYLOAD A) = sz ∧ GET_ALLOC t.mem (HEADER_PAYLOAD A) = 0 ∧
    GET_SIZE t.mem (FOOTER_PAYLOAD t.mem A) = sz ∧
    ∃ t1, mm_malloc ar (fuel + 1) t n = some (A, t1) ∧ t1.maps = s.maps := by
  have e0 : HEADER_PAYLOAD A = A - 16 := HEADER_PAYLOAD_val hA (by omega)
  have g : GET_SIZE t.mem (A - 16) = sz :=
    GET_SIZE_of_read hh hsz16 (by omega) (by decide) (Or.inr rfl)
  have a : GET_ALLOC t.mem (A - 16) = 0 :=
    GET_ALLOC_of_read hh hsz16 (by decide) (Or.inr rfl)
  have f : FOOTER_PAYLOAD t.mem A = A + sz - 32 := FOOTER_PAYLOAD_val hA hsz hlt g
  have gf : GET_SIZE t.mem (A + sz - 32) = sz :=
    GET_SIZE_of_read hft hsz16 (by omega) (by decide) (Or.inr rfl)
  refine ⟨hl, by rw [e0]; exact g, by rw [e0]; exact a, by rw [f]; exact gf, ?_⟩
  have hm := mm_malloc_head ar t n fuel (by rw [hl]; omega)
    (by rw [hl, e0]; exact a) (by rw [hl, e0, g, hn])
  rw [hl] at hm
  exact ⟨_, hm, (allocate_mem_frame hf _ _).maps⟩

theorem Frame.trans {s t u : State} (h1 : Frame s t) (h2 : Frame t u) : Frame s u :=
  ⟨h2.maps.trans h1.maps, h2.unmaps.trans h1.unmaps, h2.min_page_size.trans h1.min_page_size,
    h2.first_page.trans h1.first_page⟩

/-! ## Evaluations on `arena4k` -/

theorem arena4k_aligned16 : arena4k.Aligned16 :=
  ⟨by decide, fun k size => by show 65536 * (k + 1) % 16 = 0; omega⟩

theorem run_three_live :
    run arena4k 1 (start arena4k) [.malloc 16, .malloc 16, .malloc 16] = some three_live := by
  decide!

/-- Witness of `malloc_returns_aligned`: after three calls of
`mm_malloc(16)`, `mm_malloc(100)` returns `65680`. -/
theorem malloc_returns_aligned_witness :
    run arena4k 1 (start arena4k) [.malloc 16, .malloc 16, .malloc 16] = some three_live ∧
    mm_malloc arena4k 1 three_live.st 100 = some (65680, three_live_next) ∧
    65680 % 16 = 0 :=
  ⟨run_three_live, by decide!,
    malloc_returns_aligned arena4k 12 (by decide) (by decide)
      (fun i size => by show 65536 * (i + 1) % 4096 = 0; omega)
      1 [.malloc 16, .malloc 16, .malloc 16] three_live run_three_live
      100 1 65680 three_live_next (by decide!)⟩

/-- For requests well inside `int` range the needed size is the request plus
the 16-byte header, rounded up to a multiple of 16. -/
theorem needed_size_small (n : Nat) (h : n + 31 < 2147483648) :
    sext (needed_size n) = round_up 16 (n + 16) := by
  have h1 : uadd n BLOCK_OVERHEAD = n + 16 := by
    simp only [uadd, BLOCK_OVERHEAD, two64]; omega
  have h2 : uadd (n + 16) (ALIGNMENT - 1) = n + 31 := by
    simp only [uadd, ALIGNMENT, two64]; omega
  have h3 : two64 - ALIGNMENT = 2 ^ 64 - 2 ^ 4 := by
    rw [two64_eq]; simp [ALIGNMENT]
  have h4 : n + 31 < 2 ^ 64 := by
    have e : (2 : Nat) ^ 64 = 18446744073709551616 := by norm_num
    omega
  have h5 : ALIGN (n + 16) = n + 31 - (n + 31) % 16 := by
    unfold ALIGN
    rw [h2, h3, and_mask_of_lt _ 4 64 (by decide) h4]
    norm_num
  have h6 : round_up 16 (n + 16) = n + 31 - (n + 31) % 16 := by
    unfold round_up
    have := Nat.div_add_mod (n + 16 + 16 - 1) 16
    have e : n + 16 + 16 - 1 = n + 31 := by omega
    rw [e] at this ⊢
    omega
  unfold needed_size
  rw [h1, h5, h6]
  have h7 : toInt (n + 31 - (n + 31) % 16) = n + 31 - (n + 31) % 16 := by
    simp only [toInt, two32]; omega
  rw [h7]
  unfold sext
  rw [if_pos (by omega)]

/-- C9, the failing request.  For `n = 2^32` the needed size that
`mm_malloc` computes is 16, not `2^32 + 16`, and the block committed for the
request has size 16: no payload byte after its 16-byte header. -/
theorem needed_size_truncates :
    needed_size 4294967296 = 16 ∧ round_up 16 (4294967296 + 16) = 4294967312 ∧
    (run arena4k 1 (start arena4k) [.malloc 4294967296]).map
        (fun σ => (σ.live, GET_SIZE σ.st.mem (HEADER_PAYLOAD 65584)))
      = some ([(65584, 4294967296)], 16) := by
  decide!

/-- C1, a failing run.  Two requests of `2^32` bytes right after `mm_init`
are served 16 bytes apart: the payload ranges overlap. -/
theorem no_overlap_fails :
    (run arena4k 1 (start arena4k) [.malloc 4294967296, .malloc 4294967296]).map (fun σ => σ.live)
      = some [(65600, 4294967296), (65584, 4294967296)] ∧
    ¬ NoOverlap [(65600, 4294967296), (65584, 4294967296)] := by
  refine ⟨by decide!, ?_⟩
  unfold NoOverlap
  decide

/-- With requests of at most 40 bytes: after `stale_entry_calls` the
address `65696` is live although it lies inside the live 40-byte allocation
at `65664`. -/
theorem no_overlap_fails_small_requests :
    (run arena4k 1 (start arena4k) stale_entry_calls).map (fun σ => σ.live)
      = some [(65696, 1), (65584, 1), (65664, 40), (65728, 1), (65632, 1)] ∧
    ¬ NoOverlap [(65696, 1), (65584, 1), (65664, 40), (65728, 1), (65632, 1)] := by
  refine ⟨by decide!, ?_⟩
  unfold NoOverlap
  decide

/-- C3, a failing run.  `p = mm_malloc(30000)` needs a second page (32768
bytes at `131072`); after `mm_free(p)` that page holds one free block of
`32768 - 64` bytes followed by the zero-size end block, and `mem_unmap` has
not been called (`32704 = 32768 - 64`). -/
theorem full_page_not_reclaimed :
    (run arena4k 1 (start arena4k) [.malloc 30000, .free 131120]).map
        (fun σ => (σ.st.maps, σ.st.unmaps))
      = some ([(131072, 32768), (65536, 28672)], []) ∧
    (run arena4k 1 (start arena4k) [.malloc 30000, .free 131120]).map
        (fun σ => (page_blocks 4 σ.st.mem (PAGE_FIRST_PAY 131072),
          GET_ALLOC σ.st.mem (HEADER_PAYLOAD 131120), GET_SIZE σ.st.mem (HEADER_PAYLOAD 131120),
          GET_SIZE σ.st.mem (HEADER_PAYLOAD (NEXT_PAY σ.st.mem 131120))))
      = some ([131120], 0, 32704, 0) := by
  decide!

/-- C5, a failing run.  After three calls of `mm_malloc(0)` (blocks at
`65584`, `65600`, `65616`) and `mm_free` of the first two, the block at
`65584` is free with header and footer size 32, yet the header of its
physical successor at `65616` still has the prev-allocated bit set. -/
theorem boundary_tags_inconsistent :
    (run arena4k 1 (start arena4k)
        [.malloc 0, .malloc 0, .malloc 0, .free 65584, .free 65600]).map
        (fun σ => (σ.live, page_blocks 8 σ.st.mem σ.st.first_pay,
          GET_ALLOC σ.st.mem (HEADER_PAYLOAD 65584), GET_SIZE σ.st.mem (HEADER_PAYLOAD 65584)))
      = some ([(65616, 0)], [65584, 65616, 65632], 0, 32) ∧
    (run arena4k 1 (start arena4k)
        [.malloc 0, .malloc 0, .malloc 0, .free 65584, .free 65600]).map
        (fun σ => (GET_SIZE σ.st.mem (FOOTER_PAYLOAD σ.st.mem 65584), NEXT_PAY σ.st.mem 65584,
          GET_PREV_ALLOC σ.st.mem (HEADER_PAYLOAD (NEXT_PAY σ.st.mem 65584))))
      = some (32, 65616, 2) := by
  decide!

/-- C6, a failing run.  `mm_malloc(0)` right after `mm_init` commits a
block whose header records size 16. -/
theorem zero_request_block :
    (run arena4k 1 (start arena4k) [.malloc 0]).map
        (fun σ => (σ.live, page_blocks 4 σ.st.mem σ.st.first_pay,
          GET_SIZE σ.st.mem (HEADER_PAYLOAD 65584), GET_ALLOC σ.st.mem (HEADER_PAYLOAD 65584)))
      = some ([(65584, 0)], [65584, 65600], 16, 1) := by
  decide!

/-- C7, a failing run.  After `p = mm_malloc(0)`, `mm_malloc(1)`,
`mm_free(p)` the walk from `last_freed` meets `65584` only, while the blocks
of the page with a clear allocation bit are `65584` and `65632`. -/
theorem free_list_incomplete :
    (run arena4k 1 (start arena4k) [.malloc 0, .malloc 1, .free 65584]).map
        (fun σ => (free_list 8 σ.st.mem σ.st.last_freed,
          (page_blocks 8 σ.st.mem σ.st.first_pay).filter
            (fun b => GET_ALLOC σ.st.mem (HEADER_PAYLOAD b) == 0)))
      = some (some [65584], [65584, 65632]) := by
  decide!

theorem find_fit_cyclic (fuel : Nat) :
    find_fit fuel cyclic.st.mem 131152 (needed_size 30000) = none ∧
    find_fit fuel cyclic.st.mem 65584 (needed_size 30000) = none := by
  induction fuel with
  | zero => exact ⟨rfl, rfl⟩
  | succ k ih =>
    have e1 : NEXT_FREE cyclic.st.mem 131152 = 65584 := by decide!
    have e2 : NEXT_FREE cyclic.st.mem 65584 = 131152 := by decide!
    constructor
    · rw [find_fit, if_neg (by decide!), e1, if_pos (by decide)]
      exact ih.2
    · rw [find_fit, if_neg (by decide!), e2, if_pos (by decide)]
      exact ih.1

/-- C8, a failing run.  After `p = mm_malloc(0)`, `mm_malloc(1)`,
`mm_free(p)`, `mm_malloc(1)` the forward links run in a cycle
`131152 → 65584 → 131152`, and `mm_malloc(30000)`, which fits neither
block, never leaves its walk: it returns for no amount of fuel. -/
theorem malloc_walk_never_ends :
    run arena4k 1 (start arena4k) [.malloc 0, .malloc 1, .free 65584, .malloc 1] = some cyclic ∧
    cyclic.st.last_freed = 131152 ∧ NEXT_FREE cyclic.st.mem 131152 = 65584 ∧
    NEXT_FREE cyclic.st.mem 65584 = 131152 ∧
    (∀ fuel, find_fit fuel cyclic.st.mem cyclic.st.last_freed (needed_size 30000) = none) ∧
    ∀ fuel, mm_malloc arena4k fuel cyclic.st 30000 = none := by
  refine ⟨by decide!, rfl, by decide!, by decide!, fun fuel => (find_fit_cyclic fuel).1, ?_⟩
  intro fuel
  unfold mm_malloc
  simp only []
  rw [if_pos (by decide)]
  have : find_fit fuel cyclic.st.mem cyclic.st.last_freed (needed_size 30000) = none :=
    (find_fit_cyclic fuel).1
  rw [this]

/-! ## Header words: encode and decode -/

theorem and_three_eq (x : Nat) : x &&& 3 = x % 4 := by
  have h := Nat.and_pow_two_sub_one_eq_mod x 2
  norm_num at h
  exact h

theorem decode_encode (w : Nat) (hw : w < two64) :
    SET_BITS (w &&& (two64 - 16)) (w &&& 1) (w &&& 2) = clear_bits_2_3 w := by
  have h16 : two64 - 16 = 2 ^ 64 - 2 ^ 4 := by rw [two64_eq]; norm_num
  have hx : w < 2 ^ 64 := by rw [← two64_eq]; exact hw
  have e1 : w &&& (two64 - 16) = w - w % 16 := by
    rw [h16, and_mask_of_lt w 4 64 (by norm_num) hx]; norm_num
  have e2 : (w &&& 1) ||| (w &&& 2) = w % 4 := by
    rw [← Nat.and_or_distrib_left]
    exact and_three_eq w
  have e3 : w - w % 16 = 2 ^ 4 * (w / 16) := by
    have := Nat.div_add_mod w 16
    omega
  have e4 : w % 4 < 2 ^ 4 := by omega
  unfold SET_BITS clear_bits_2_3
  rw [Nat.or_assoc, e2, e1, e3, ← Nat.mul_add_lt_is_or e4]
  omega

/-- C12 (header encode/decode round trip): a header word built by
SET_BITS from a size that is a multiple of 16 below 2^64, an allocation bit
in {0, 1} and a prev-allocated bit in {0, 2}, stored at any address p, decodes
through GET_SIZE, GET_ALLOC and GET_PREV_ALLOC to the three values it was
built from; and every 64-bit word w stored at p, decoded and encoded again,
gives w with bits 2 and 3 cleared. -/
theorem header_round_trip (m : Mem) (p size alloc prev_alloc w : Nat)
    (hs : size % 16 = 0) (hlt : size < two64) (ha : alloc = 0 ∨ alloc = 1)
    (hp : prev_alloc = 0 ∨ prev_alloc = 2) (hw : w < two64) :
    (GET_SIZE (INSERT m p (SET_BITS size alloc prev_alloc)) p = size ∧
      GET_ALLOC (INSERT m p (SET_BITS size alloc prev_alloc)) p = alloc ∧
      GET_PREV_ALLOC (INSERT m p (SET_BITS size alloc prev_alloc)) p = prev_alloc) ∧
    SET_BITS (GET_SIZE (INSERT m p w) p) (GET_ALLOC (INSERT m p w) p)
      (GET_PREV_ALLOC (INSERT m p w) p) = clear_bits_2_3 w := by
  have ha2 : alloc < 2 := by omega
  have hr : ∀ v, read (INSERT m p v) p = v := by
    intro v; unfold INSERT; rw [read_write]; simp
  refine ⟨⟨GET_SIZE_of_read (hr _) hs hlt ha2 hp, GET_ALLOC_of_read (hr _) hs ha2 hp,
    GET_PREV_ALLOC_of_read (hr _) hs ha2 hp⟩, ?_⟩
  unfold GET_SIZE GET_ALLOC GET_PREV_ALLOC GET
  rw [hr]
  exact decode_encode w hw

/-- Witness of `header_round_trip`: size 48, allocated, prev-allocated, and the
word 63, at address 65568. -/
theorem header_round_trip_witness :
    (GET_SIZE (INSERT [] 65568 (SET_BITS 48 1 2)) 65568 = 48 ∧
      GET_ALLOC (INSERT [] 65568 (SET_BITS 48 1 2)) 65568 = 1 ∧
      GET_PREV_ALLOC (INSERT [] 65568 (SET_BITS 48 1 2)) 65568 = 2) ∧
    SET_BITS (GET_SIZE (INSERT [] 65568 63) 65568) (GET_ALLOC (INSERT [] 65568 63) 65568)
      (GET_PREV_ALLOC (INSERT [] 65568 63) 65568) = clear_bits_2_3 63 :=
  header_round_trip [] 65568 48 1 2 63 (by decide) (by decide!) (Or.inr rfl) (Or.inr rfl)
    (by decide!)

/-! ## First fit -/

theorem first_split {α : Type} (P : α → Prop) :
    ∀ L : List α, (∃ b ∈ L, P b) →
      ∃ L1 r L2, L = L1 ++ r :: L2 ∧ (∀ x ∈ L1, ¬ P x) ∧ P r := by
  intro L
  induction L with
  | nil => rintro ⟨b, hb, _⟩; simp at hb
  | cons a L ih =>
    rintro ⟨b, hb, hP⟩
    by_cases ha : P a
    · exact ⟨[], a, L, rfl, by simp, ha⟩
    · have hbL : b ∈ L := by
        rcases List.mem_cons.mp hb with rfl | h
        · exact absurd hP ha
        · exact h
      obtain ⟨L1, r, L2, e, h1, h2⟩ := ih ⟨b, hbL, hP⟩
      refine ⟨a :: L1, r, L2, by rw [e]; rfl, ?_, h2⟩
      intro x hx
      rcases List.mem_cons.mp hx with rfl | h
      · exact ha
      · exact h1 x h

theorem free_list_cons {fuel : Nat} {m : Mem} {b a : Nat} {L : List Nat}
    (h : free_list fuel m b = some (a :: L)) :
    ∃ k, fuel = k + 1 ∧ b = a ∧ b ≠ 0 ∧ free_list k m (NEXT_FREE m b) = some L := by
  cases fuel with
  | zero => simp [free_list] at h
  | succ k =>
    refine ⟨k, rfl, ?_⟩
    unfold free_list at h
    by_cases hb : b = 0
    · rw [if_pos hb] at h; simp at h
    · rw [if_neg hb] at h
      cases hn : free_list k m (NEXT_FREE m b) with
      | none => rw [hn] at h; simp at h
      | some l =>
        rw [hn] at h
        simp only [Option.map_some', Option.some.injEq, List.cons.injEq] at h
        exact ⟨h.1, hb, by rw [h.2]⟩

theorem free_list_head_ne_zero {fuel : Nat} {m : Mem} {b a : Nat} {L : List Nat}
    (h : free_list fuel m b = some (a :: L)) : b ≠ 0 := by
  obtain ⟨_, _, _, h0, _⟩ := free_list_cons h
  exact h0

theorem find_fit_first (m : Mem) (new_size : Nat) :
    ∀ (L1 : List Nat) (fuel b r : Nat) (L2 : List Nat),
      free_list fuel m b = some (L1 ++ r :: L2) →
      (∀ x ∈ L1, ¬ fits m (sext new_size) x) → fits m (sext new_size) r →
      find_fit fuel m b new_size = some (some r) := by
  intro L1
  induction L1 with
  | nil =>
    intro fuel b r L2 hL _ hr
    obtain ⟨k, rfl, rfl, _, _⟩ := free_list_cons hL
    unfold find_fit
    exact if_pos hr
  | cons a L1 ih =>
    intro fuel b r L2 hL h1 hr
    obtain ⟨k, rfl, rfl, _, hk⟩ := free_list_cons hL
    have hn : NEXT_FREE m b ≠ 0 := by
      cases L1 with
      | nil => exact free_list_head_ne_zero hk
      | cons c L1 => exact free_list_head_ne_zero hk
    unfold find_fit
    have hb : ¬ (GET_ALLOC m (HEADER_PAYLOAD b) = 0 ∧
        GET_SIZE m (HEADER_PAYLOAD b) ≥ sext new_size) := h1 b (List.mem_cons_self _ _)
    rw [if_neg hb, if_pos hn]
    exact ih k _ r L2 hk (fun x hx => h1 x (List.mem_cons_of_mem _ hx)) hr

/-- The walk of the free list: when the free list of the state is a
null-terminated chain L and some block of L has its allocation bit clear and
a size of at least the needed size, mm_malloc returns the first such block r
of L in head-to-tail order (no block before r in L passes the test), passes
it to allocate_mem, and makes no call of mem_map. -/
theorem first_fit (ar : Arena) (fuel : Nat) (s : State) (n : Nat) (L : List Nat)
    (hL : free_list fuel s.mem s.last_freed = some L)
    (hfit : ∃ b ∈ L, fits s.mem (sext (needed_size n)) b) :
    ∃ L1 r L2, L = L1 ++ r :: L2 ∧ (∀ x ∈ L1, ¬ fits s.mem (sext (needed_size n)) x) ∧
      fits s.mem (sext (needed_size n)) r ∧
      mm_malloc ar fuel s n = some (r, allocate_mem s r (sext (needed_size n))) ∧
      (allocate_mem s r (sext (needed_size n))).maps = s.maps := by
  obtain ⟨L1, r, L2, e, h1, h2⟩ := first_split _ L hfit
  refine ⟨L1, r, L2, e, h1, h2, ?_, (allocate_mem_frame (Frame.refl s) r _).maps⟩
  rw [e] at hL
  have h0 : s.last_freed ≠ 0 := by
    cases L1 with
    | nil => exact free_list_head_ne_zero hL
    | cons c L1 => exact free_list_head_ne_zero hL
  unfold mm_malloc
  simp only []
  rw [if_pos h0, find_fit_first s.mem (needed_size n) L1 fuel s.last_freed r L2 hL h1 h2]

/-- Witness of `first_fit`: after `mm_free(65584)` in `three_live` the free
list is `65584` (32 bytes) then `65680`; `mm_malloc(100)` needs 128 bytes. -/
theorem first_fit_witness :
    ∃ L1 r L2, [65584, 65680] = L1 ++ r :: L2 ∧
      (∀ x ∈ L1, ¬ fits (mm_free three_live.st 65584).mem (sext (needed_size 100)) x) ∧
      fits (mm_free three_live.st 65584).mem (sext (needed_size 100)) r ∧
      mm_malloc arena4k 3 (mm_free three_live.st 65584) 100
        = some (r, allocate_mem (mm_free three_live.st 65584) r (sext (needed_size 100))) ∧
      (allocate_mem (mm_free three_live.st 65584) r (sext (needed_size 100))).maps
        = (mm_free three_live.st 65584).maps :=
  first_fit arena4k 3 (mm_free three_live.st 65584) 100 [65584, 65680] (by decide!)
    ⟨65680, by simp, by unfold fits; decide!⟩

/-! ## Page requests -/

theorem full_first_page_reached :
    mm_malloc arena4k 1 (mm_init arena4k boot) 28592 = some (65584, full_first_page) := by
  decide!

/-- Insertion at the head of the free list stores into link fields only, as
soon as the old head is 16-byte aligned. -/
theorem add_free_read_tag_head {s : State} (hl : s.last_freed % 16 = 0) {b : Nat}
    (hb : b % 16 = 0) {a : Nat} (ha : a % 16 = 0) :
    read (add_free s b).mem a = read s.mem a := by
  unfold add_free
  split
  · show read ((s.put _ 0).put _ 0).mem a = _
    rw [read_put_link (PREV_FREE_ADDR_mod hb) _ ha, read_put_link (NEXT_FREE_ADDR_mod _ hb) _ ha]
  · show read (((s.put _ _).put _ 0).put _ b).mem a = _
    refine Eq.trans (read_put_link ?_ _ ha) ?_
    · exact PREV_FREE_ADDR_mod hl
    · rw [read_put_link (PREV_FREE_ADDR_mod hb) _ ha, read_put_link (NEXT_FREE_ADDR_mod _ hb) _ ha]

/-- C14 (page list is doubly linked) fails on the previous-page links.
On `arena4k`: after `mm_init` the first page's previous-page link holds
`35`, the prolog word `SET_BITS(32, 1, 3)`, not null.  The page list then
has the single page `65536`, which is its tail; after `new_page(30016)`
(the call `mm_malloc(30000)` makes) the new page is `131072`, the former
tail's next-page link is the new page and the new page's next-page link is
null, but the new page's previous-page link holds `35`, not `65536`. -/
theorem page_prev_link_overwritten :
    (mm_init arena4k boot).first_page = 65536 ∧
    PAGE_PREV (mm_init arena4k boot).mem 65536 = 35 ∧ SET_BITS 32 1 3 = 35 ∧
    last_page 1 (mm_init arena4k boot).mem 65536 = some 65536 ∧
    (new_page arena4k 1 (mm_init arena4k boot) 30016).map
        (fun r => (r.1, r.2.maps.head?, PAGE_NEXT r.2.mem 65536, PAGE_NEXT r.2.mem 131072,
          PAGE_PREV r.2.mem 131072))
      = some (131120, some (131072, 32768), 131072, 0, 35) := by
  decide!

/-- C19 (prolog records the page size) fails.  On `arena4k`, `mm_init`
records 28672 in the first page's prolog; `new_page(30016)` maps 32768 bytes
at `131072`, leaves the `page_size` field of that page's prolog at `0`, and
overwrites the first page's with 32768. -/
theorem prolog_size_on_first_page :
    read (mm_init arena4k boot).mem (PROLOG_PAGE_SIZE_ADDR 65536) = 28672 ∧
    (new_page arena4k 1 (mm_init arena4k boot) 30016).map
        (fun r => (r.2.maps, read r.2.mem (PROLOG_PAGE_SIZE_ADDR 131072),
          read r.2.mem (PROLOG_PAGE_SIZE_ADDR 65536)))
      = some ([(131072, 32768), (65536, 28672)], 0, 32768) := by
  decide!

/-! ## Releasing a page -/

/-- C13, a failing run: the heap of `mm_init`, `mm_malloc(30000)` on
`arena4k`.  The page at `65536` was mapped with 28672 bytes and is
`first_page`.  Its previous-page link holds the prolog word `35` and its
next-page link `131072`, so `remove_page(65584)` takes its last branch, whose
first store, of `131072`, goes through the previous-page link to address
`35 + 8 = 43`.  That address lies in no mapped region: the C program faults
there, before any page is unlinked or unmapped.  The byte size that line 418
reads for `mem_unmap` is the `page_size` field of the prolog of `first_page`;
it holds 32768, the size of the other page, and the prolog of that other page
records 0.  In the heap of `mm_init` alone the only page has links `35` and
null, and the store of the third branch, of `0`, goes to address `43` as
well. -/
theorem page_release_wild_store :
    mm_malloc arena4k 1 (mm_init arena4k boot) 30000 = some (131120, two_pages_reached) ∧
    two_pages_reached.maps = [(131072, 32768), (65536, 28672)] ∧
    two_pages_reached.first_page = 65536 ∧
    PAGE_PREV two_pages_reached.mem 65536 = 35 ∧
    PAGE_NEXT two_pages_reached.mem 65536 = 131072 ∧
    PAGE_NEXT_ADDR (PAGE_PREV two_pages_reached.mem 65536) = 43 ∧
    ¬ mapped two_pages_reached 43 ∧
    read (remove_page two_pages_reached 65584).mem 43 = 131072 ∧
    read two_pages_reached.mem (PROLOG_PAGE_SIZE_ADDR two_pages_reached.first_page) = 32768 ∧
    read two_pages_reached.mem (PROLOG_PAGE_SIZE_ADDR 131072) = 0 ∧
    PAGE_PREV (mm_init arena4k boot).mem 65536 = 35 ∧
    PAGE_NEXT (mm_init arena4k boot).mem 65536 = 0 ∧
    ¬ mapped (mm_init arena4k boot) 43 ∧
    (remove_page (mm_init arena4k boot) 65584).mem.head? = some (43, 0) := by
  refine ⟨by decide!, by decide!, by decide!, by decide!, by decide!, by decide!, ?_,
    by decide!, by decide!, by decide!, by decide!, by decide!, ?_, by decide!⟩
  · unfold mapped; decide!
  · unfold mapped; decide!

/-! ## The free list as a sequence of blocks -/

theorem Block.header {m : Mem} {b : Nat} (h : Block m b) : HEADER_PAYLOAD b = b - 16 :=
  HEADER_PAYLOAD_val h.low (by have := h.high; omega)

theorem Block.prev_addr {m : Mem} {b : Nat} (h : Block m b) : PREV_FREE_ADDR b = b - 8 := by
  have h1 := h.low
  have h2 := h.high
  unfold PREV_FREE_ADDR
  rw [h.header]
  simp only [uadd, two64] at h2 ⊢
  omega

theorem Block.next_addr {m : Mem} {b : Nat} (h : Block m b) :
    NEXT_FREE_ADDR m b = b + GET_SIZE m (HEADER_PAYLOAD b) - 24 := by
  have h1 := h.low
  have h2 := h.high
  have h3 := h.size
  have h4 := h.header
  unfold NEXT_FREE_ADDR
  rw [FOOTER_PAYLOAD_val h1 h3 h2 (by rw [← h4])]
  simp only [uadd, two64] at h2 ⊢
  omega

theorem Block.next_addr_mod {m : Mem} {b : Nat} (h : Block m b) : NEXT_FREE_ADDR m b % 16 = 8 :=
  NEXT_FREE_ADDR_mod m h.align

theorem Block.prev_addr_mod {m : Mem} {b : Nat} (h : Block m b) : PREV_FREE_ADDR b % 16 = 8 :=
  PREV_FREE_ADDR_mod h.align

/-- A store that is not to the header of the aligned block `b` leaves its
size. -/
theorem size_write {m : Mem} {a v b : Nat} (ha : a ≠ HEADER_PAYLOAD b) :
    GET_SIZE (write m a v) (HEADER_PAYLOAD b) = GET_SIZE m (HEADER_PAYLOAD b) := by
  unfold GET_SIZE GET
  rw [read_write, if_neg (Ne.symm ha)]

theorem size_write_link {m : Mem} {a v b : Nat} (ha : a % 16 = 8) (hb : b % 16 = 0) :
    GET_SIZE (write m a v) (HEADER_PAYLOAD b) = GET_SIZE m (HEADER_PAYLOAD b) :=
  size_write (fun e => by have := HEADER_PAYLOAD_mod hb; omega)

theorem next_addr_write {m : Mem} {a v b : Nat} (ha : a ≠ HEADER_PAYLOAD b) :
    NEXT_FREE_ADDR (write m a v) b = NEXT_FREE_ADDR m b := by
  unfold NEXT_FREE_ADDR FOOTER_PAYLOAD
  rw [size_write ha]

theorem Block.block_store {m : Mem} {a v b : Nat} (h : Block m b) (ha : a ≠ HEADER_PAYLOAD b) :
    Block (write m a v) b :=
  ⟨h.align, h.low, by rw [size_write ha]; exact h.size, by rw [size_write ha]; exact h.high⟩

theorem Apart.apart_store {m : Mem} {a v x y : Nat} (h : Apart m x y) (hx : a ≠ HEADER_PAYLOAD x)
    (hy : a ≠ HEADER_PAYLOAD y) : Apart (write m a v) x y := by
  unfold Apart
  rw [size_write hx, size_write hy]
  exact h

theorem Apart.symm {m : Mem} {x y : Nat} (h : Apart m x y) : Apart m y x := Or.symm h

theorem NEXT_FREE_write {m : Mem} {a v b : Nat} (ha : a ≠ HEADER_PAYLOAD b) :
    NEXT_FREE (write m a v) b = if NEXT_FREE_ADDR m b = a then v else NEXT_FREE m b := by
  unfold NEXT_FREE
  rw [next_addr_write ha, read_write]

theorem PREV_FREE_write {m : Mem} {a v b : Nat} :
    PREV_FREE (write m a v) b = if PREV_FREE_ADDR b = a then v else PREV_FREE m b := by
  unfold PREV_FREE
  rw [read_write]

/-- The three fields of two disjoint blocks are at different addresses. -/
theorem Apart.fields {m : Mem} {x y : Nat} (hx : Block m x) (hy : Block m y) (h : Apart m x y) :
    x ≠ y ∧ NEXT_FREE_ADDR m x ≠ NEXT_FREE_ADDR m y ∧ NEXT_FREE_ADDR m x ≠ PREV_FREE_ADDR y ∧
    PREV_FREE_ADDR x ≠ NEXT_FREE_ADDR m y := by
  rw [hx.next_addr, hy.next_addr, hx.prev_addr, hy.prev_addr]
  have h1 := hx.size
  have h2 := hy.size
  have h3 := hx.low
  have h4 := hy.low
  unfold Apart at h
  omega

theorem Block.own_fields {m : Mem} {x : Nat} (hx : Block m x) :
    NEXT_FREE_ADDR m x ≠ PREV_FREE_ADDR x := by
  rw [hx.next_addr, hx.prev_addr]
  have h1 := hx.size
  have h3 := hx.low
  omega

theorem seg_frame {m m1 : Mem} :
    ∀ (L : List Nat) (q h e : Nat),
      (∀ x ∈ L, PREV_FREE m1 x = PREV_FREE m x ∧ NEXT_FREE m1 x = NEXT_FREE m x) →
      Seg m q h L e → Seg m1 q h L e := by
  intro L
  induction L with
  | nil => intro q h e _ hs; exact hs
  | cons a L ih =>
    intro q h e hf hs
    obtain ⟨h1, h2, h3, h4⟩ := hs
    have ha := hf a (List.mem_cons_self _ _)
    refine ⟨h1, h2, by rw [ha.1]; exact h3, ?_⟩
    rw [ha.2]
    exact ih _ _ _ (fun x hx => hf x (List.mem_cons_of_mem _ hx)) h4

theorem seg_head {m : Mem} {q h e : Nat} {L : List Nat} (hs : Seg m q h L e) :
    h = e ∨ h ∈ L := by
  cases L with
  | nil => exact Or.inl hs
  | cons a L => exact Or.inr (by rw [hs.1]; exact List.mem_cons_self _ _)

theorem last_of_mem (q : Nat) : ∀ (L : List Nat), L ≠ [] → last_of q L ∈ L := by
  intro L
  induction L generalizing q with
  | nil => intro h; exact absurd rfl h
  | cons a L ih =>
    intro _
    cases L with
    | nil => exact List.mem_cons_self _ _
    | cons c L => exact List.mem_cons_of_mem _ (ih a (by simp))

theorem seg_mid {m : Mem} {b e : Nat} {L2 : List Nat} :
    ∀ (L1 : List Nat) (q h : Nat), Seg m q h (L1 ++ b :: L2) e →
      PREV_FREE m b = last_of q L1 ∧ Seg m b (NEXT_FREE m b) L2 e := by
  intro L1
  induction L1 with
  | nil => intro q h hs; exact ⟨hs.2.2.1, hs.2.2.2⟩
  | cons a L1 ih => intro q h hs; exact ih a _ hs.2.2.2

/-- Unlinking `b` from a run: when every other block's forward link is
redirected from `b`'s predecessor to `b`'s successor and every other block's
backward link from `b`'s successor to `b`'s predecessor, the run without `b`
is linked up. -/
theorem seg_unlink {m m1 : Mem} {b : Nat} {La L2 : List Nat}
    (hN : ∀ x ∈ La, x ≠ b →
      NEXT_FREE m1 x = if x = PREV_FREE m b then NEXT_FREE m b else NEXT_FREE m x)
    (hP : ∀ x ∈ La, x ≠ b →
      PREV_FREE m1 x = if x = NEXT_FREE m b then PREV_FREE m b else PREV_FREE m x)
    (h2 : ∀ x ∈ L2, x ∈ La) :
    ∀ (L1 : List Nat) (q h : Nat), (∀ x ∈ L1, x ∈ La) → (L1 ++ b :: L2).Nodup →
      q ∉ L1 ++ b :: L2 → Seg m q h (L1 ++ b :: L2) 0 →
      Seg m1 q (if L1 = [] then NEXT_FREE m b else h) (L1 ++ L2) 0 := by
  intro L1
  induction L1 with
  | nil =>
    intro q h _ hnd hq hs
    simp only [List.nil_append, if_true] at hnd hq hs ⊢
    obtain ⟨_, _, hp, hs2⟩ := hs
    have hbL2 : b ∉ L2 := (List.nodup_cons.mp hnd).1
    have hnd2 : L2.Nodup := (List.nodup_cons.mp hnd).2
    cases L2 with
    | nil => exact hs2
    | cons y L2 =>
      obtain ⟨e1, e2, e3, e4⟩ := hs2
      have hyb : y ≠ b := fun e => hbL2 (by rw [← e]; exact List.mem_cons_self _ _)
      have hyq : y ≠ q := fun e => hq (by rw [← e]; simp)
      have hyL : y ∉ L2 := (List.nodup_cons.mp hnd2).1
      have hy := h2 y (List.mem_cons_self _ _)
      refine ⟨e1, e2, ?_, ?_⟩
      · rw [hP y hy hyb, if_pos e1.symm, hp]
      · rw [hN y hy hyb, if_neg (by rw [hp]; exact hyq)]
        refine seg_frame _ _ _ _ (fun x hx => ?_) e4
        have hxa := h2 x (List.mem_cons_of_mem _ hx)
        have hxb : x ≠ b := fun e => hbL2 (by rw [← e]; exact List.mem_cons_of_mem _ hx)
        have hxq : x ≠ q := fun e => hq (by rw [← e]; simp [hx])
        have hxy : x ≠ y := fun e => hyL (by rw [← e]; exact hx)
        rw [hP x hxa hxb, hN x hxa hxb, if_neg (by rw [e1]; exact hxy),
          if_neg (by rw [hp]; exact hxq)]
        exact ⟨rfl, rfl⟩
  | cons a L1 ih =>
    intro q h h1 hnd hq hs
    obtain ⟨e1, e2, e3, e4⟩ := hs
    have hnd1 : (L1 ++ b :: L2).Nodup := (List.nodup_cons.mp hnd).2
    have haL : a ∉ L1 ++ b :: L2 := (List.nodup_cons.mp hnd).1
    have hab : a ≠ b := fun e => haL (by rw [e]; simp)
    have haa := h1 a (List.mem_cons_self _ _)
    obtain ⟨hpb, hs2⟩ := seg_mid L1 a _ e4
    have han : a ≠ NEXT_FREE m b := by
      rcases seg_head hs2 with h0 | hmem
      · rw [h0]; exact e2
      · intro e; exact haL (by rw [e]; simp [hmem])
    have ih1 := ih a (NEXT_FREE m a) (fun x hx => h1 x (List.mem_cons_of_mem _ hx)) hnd1 haL e4
    simp only [List.cons_append, if_neg (List.cons_ne_nil a L1)]
    refine ⟨e1, e2, ?_, ?_⟩
    · rw [hP a haa hab, if_neg han]; exact e3
    · rw [hN a haa hab]
      by_cases hL1 : L1 = []
      · subst hL1
        simp only [if_true] at ih1
        rw [if_pos (by rw [hpb]; rfl)]
        exact ih1
      · rw [if_neg hL1] at ih1
        have : a ≠ PREV_FREE m b := by
          rw [hpb]
          intro e
          exact haL (List.mem_append_left _ (by rw [e]; exact last_of_mem a L1 hL1))
        rw [if_neg this]
        exact ih1

theorem FreeList.apart_of_ne {m : Mem} {head : Nat} {L : List Nat} (h : FreeList m head L)
    {x y : Nat} (hx : x ∈ L) (hy : y ∈ L) (hne : x ≠ y) : Apart m x y :=
  List.Pairwise.forall (fun _ _ hab => Apart.symm hab) h.apart hx hy hne

theorem FreeList.nodup {m : Mem} {head : Nat} {L : List Nat} (h : FreeList m head L) :
    L.Nodup := by
  refine List.Pairwise.imp_of_mem ?_ h.apart
  intro a b ha _ hab e
  subst e
  have := (h.block a ha).size
  unfold Apart at hab
  omega

theorem FreeList.ne_zero {m : Mem} {head : Nat} {L : List Nat} (h : FreeList m head L)
    {x : Nat} (hx : x ∈ L) : x ≠ 0 := by
  have := (h.block x hx).low
  omega

/-- Effect of storing into the forward link of block `y` on the links of a
block `x` that is `y` or disjoint from it. -/
theorem write_next_links {m : Mem} {y v x : Nat} (hy : Block m y) (hx : Block m x)
    (hxy : x ≠ y → Apart m x y) :
    NEXT_FREE (write m (NEXT_FREE_ADDR m y) v) x = (if x = y then v else NEXT_FREE m x) ∧
    PREV_FREE (write m (NEXT_FREE_ADDR m y) v) x = PREV_FREE m x := by
  have hne : NEXT_FREE_ADDR m y ≠ HEADER_PAYLOAD x := by
    have h1 := hy.next_addr_mod
    have h2 := HEADER_PAYLOAD_mod hx.align
    omega
  rw [NEXT_FREE_write hne, PREV_FREE_write]
  by_cases e : x = y
  · subst e
    rw [if_pos rfl, if_pos rfl, if_neg (Ne.symm hx.own_fields)]
    exact ⟨rfl, rfl⟩
  · have hf := Apart.fields hx hy (hxy e)
    rw [if_neg hf.2.1, if_neg e, if_neg hf.2.2.2]
    exact ⟨rfl, rfl⟩

/-- Effect of storing into the backward link of block `y` on the links of a
block `x` that is `y` or disjoint from it. -/
theorem write_prev_links {m : Mem} {y v x : Nat} (hy : Block m y) (hx : Block m x)
    (hxy : x ≠ y → Apart m x y) :
    NEXT_FREE (write m (PREV_FREE_ADDR y) v) x = NEXT_FREE m x ∧
    PREV_FREE (write m (PREV_FREE_ADDR y) v) x = (if x = y then v else PREV_FREE m x) := by
  have hne : PREV_FREE_ADDR y ≠ HEADER_PAYLOAD x := by
    have h1 := hy.prev_addr_mod
    have h2 := HEADER_PAYLOAD_mod hx.align
    omega
  rw [NEXT_FREE_write hne, PREV_FREE_write]
  by_cases e : x = y
  · subst e
    rw [if_pos rfl, if_pos rfl, if_neg hx.own_fields]
    exact ⟨rfl, rfl⟩
  · have hf := Apart.fields hx hy (hxy e)
    have h3 : PREV_FREE_ADDR x ≠ PREV_FREE_ADDR y := by
      rw [hx.prev_addr, hy.prev_addr]
      have := hx.low
      have := hy.low
      omega
    rw [if_neg hf.2.2.1, if_neg e, if_neg h3]
    exact ⟨rfl, rfl⟩

theorem Block.block_store_link {m : Mem} {a v b : Nat} (h : Block m b) (ha : a % 16 = 8) :
    Block (write m a v) b :=
  h.block_store (fun e => by have := HEADER_PAYLOAD_mod h.align; omega)

theorem Apart.apart_store_link {m : Mem} {a v x y : Nat} (h : Apart m x y) (ha : a % 16 = 8)
    (hx : x % 16 = 0) (hy : y % 16 = 0) : Apart (write m a v) x y :=
  h.apart_store (fun e => by have := HEADER_PAYLOAD_mod hx; omega)
    (fun e => by have := HEADER_PAYLOAD_mod hy; omega)

theorem remove_free_links {s : State} {L : List Nat} {b : Nat}
    (h : FreeList s.mem s.last_freed L) (hb : b ∈ L)
    (hp : PREV_FREE s.mem b = 0 ∨ (PREV_FREE s.mem b ∈ L ∧ PREV_FREE s.mem b ≠ b))
    (hn : NEXT_FREE s.mem b = 0 ∨ (NEXT_FREE s.mem b ∈ L ∧ NEXT_FREE s.mem b ≠ b)) :
    (∀ a, a % 16 = 0 → read (remove_free s b).mem a = read s.mem a) ∧
    (∀ x ∈ L, x ≠ b → NEXT_FREE (remove_free s b).mem x
        = if x = PREV_FREE s.mem b then NEXT_FREE s.mem b else NEXT_FREE s.mem x) ∧
    (∀ x ∈ L, x ≠ b → PREV_FREE (remove_free s b).mem x
        = if x = NEXT_FREE s.mem b then PREV_FREE s.mem b else PREV_FREE s.mem x) ∧
    (remove_free s b).last_freed
        = if PREV_FREE s.mem b = 0 then NEXT_FREE s.mem b else s.last_freed := by
  have hBb := h.block b hb
  unfold remove_free
  by_cases p0 : PREV_FREE s.mem b = 0
  · by_cases n0 : NEXT_FREE s.mem b = 0
    · rw [if_pos ⟨p0, n0⟩]
      refine ⟨fun _ _ => rfl, fun x hx _ => ?_, fun x hx _ => ?_, ?_⟩
      · rw [if_neg (by rw [p0]; exact h.ne_zero hx)]
      · rw [if_neg (by rw [n0]; exact h.ne_zero hx)]
      · rw [if_pos p0, n0]
    · rw [if_neg (fun hc => n0 hc.2), if_pos p0]
      obtain ⟨hnL, hnb⟩ := hn.resolve_left n0
      have hBn := h.block _ hnL
      have hbn := write_prev_links (v := 0) hBn hBb (fun e => h.apart_of_ne hb hnL e)
      refine ⟨fun x hx => ?_, fun x hx hxb => ?_, fun x hx hxb => ?_, ?_⟩
      · exact read_put_link hBn.prev_addr_mod _ hx
      · have := write_prev_links (v := 0) hBn (h.block x hx) (fun e => h.apart_of_ne hx hnL e)
        rw [if_neg (by rw [p0]; exact h.ne_zero hx)]
        exact this.1
      · have := write_prev_links (v := 0) hBn (h.block x hx) (fun e => h.apart_of_ne hx hnL e)
        rw [p0]
        exact this.2
      · rw [if_pos p0]
        exact hbn.1
  · obtain ⟨hpL, hpb⟩ := hp.resolve_left p0
    have hBp := h.block _ hpL
    rw [if_neg (fun hc => p0 hc.1), if_neg p0]
    by_cases n0 : NEXT_FREE s.mem b = 0
    · rw [if_pos n0]
      refine ⟨fun x hx => ?_, fun x hx hxb => ?_, fun x hx hxb => ?_, ?_⟩
      · exact read_put_link hBp.next_addr_mod _ hx
      · have := write_next_links (v := 0) hBp (h.block x hx) (fun e => h.apart_of_ne hx hpL e)
        rw [n0]
        exact this.1
      · have := write_next_links (v := 0) hBp (h.block x hx) (fun e => h.apart_of_ne hx hpL e)
        rw [if_neg (by rw [n0]; exact h.ne_zero hx)]
        exact this.2
      · rw [if_neg p0]; rfl
    · rw [if_neg n0]
      obtain ⟨hnL, hnb⟩ := hn.resolve_left n0
      have hBn := h.block _ hnL
      have hA := hBp.next_addr_mod
      have hb1 := write_next_links (v := NEXT_FREE s.mem b) hBp hBb
        (fun e => h.apart_of_ne hb hpL e)
      rw [if_neg (Ne.symm hpb)] at hb1
      show (∀ a, a % 16 = 0 →
          read (write (write s.mem (NEXT_FREE_ADDR s.mem (PREV_FREE s.mem b)) (NEXT_FREE s.mem b))
            (PREV_FREE_ADDR (NEXT_FREE (write s.mem (NEXT_FREE_ADDR s.mem (PREV_FREE s.mem b))
              (NEXT_FREE s.mem b)) b))
            (PREV_FREE (write s.mem (NEXT_FREE_ADDR s.mem (PREV_FREE s.mem b))
              (NEXT_FREE s.mem b)) b)) a = _) ∧
        (∀ x ∈ L, x ≠ b →
          NEXT_FREE (write (write s.mem (NEXT_FREE_ADDR s.mem (PREV_FREE s.mem b)) (NEXT_FREE s.mem b))
            (PREV_FREE_ADDR (NEXT_FREE (write s.mem (NEXT_FREE_ADDR s.mem (PREV_FREE s.mem b))
              (NEXT_FREE s.mem b)) b))
            (PREV_FREE (write s.mem (NEXT_FREE_ADDR s.mem (PREV_FREE s.mem b))
              (NEXT_FREE s.mem b)) b)) x = _) ∧
        (∀ x ∈ L, x ≠ b →
          PREV_FREE (write (write s.mem (NEXT_FREE_ADDR s.mem (PREV_FREE s.mem b)) (NEXT_FREE s.mem b))
            (PREV_FREE_ADDR (NEXT_FREE (write s.mem (NEXT_FREE_ADDR s.mem (PREV_FREE s.mem b))
              (NEXT_FREE s.mem b)) b))
            (PREV_FREE (write s.mem (NEXT_FREE_ADDR s.mem (PREV_FREE s.mem b))
              (NEXT_FREE s.mem b)) b)) x = _) ∧ _
      rw [hb1.1, hb1.2]
      have hBn1 : Block (write s.mem (NEXT_FREE_ADDR s.mem (PREV_FREE s.mem b)) (NEXT_FREE s.mem b))
          (NEXT_FREE s.mem b) := hBn.block_store_link hA
      have key : ∀ x ∈ L,
          NEXT_FREE (write (write s.mem (NEXT_FREE_ADDR s.mem (PREV_FREE s.mem b)) (NEXT_FREE s.mem b))
            (PREV_FREE_ADDR (NEXT_FREE s.mem b)) (PREV_FREE s.mem b)) x
            = (if x = PREV_FREE s.mem b then NEXT_FREE s.mem b else NEXT_FREE s.mem x) ∧
          PREV_FREE (write (write s.mem (NEXT_FREE_ADDR s.mem (PREV_FREE s.mem b)) (NEXT_FREE s.mem b))
            (PREV_FREE_ADDR (NEXT_FREE s.mem b)) (PREV_FREE s.mem b)) x
            = (if x = NEXT_FREE s.mem b then PREV_FREE s.mem b else PREV_FREE s.mem x) := by
        intro x hx
        have hBx := h.block x hx
        have w1 := write_next_links (v := NEXT_FREE s.mem b) hBp hBx
          (fun e => h.apart_of_ne hx hpL e)
        have w2 := write_prev_links (v := PREV_FREE s.mem b) hBn1 (hBx.block_store_link hA)
          (fun e => (h.apart_of_ne hx hnL e).apart_store_link hA hBx.align hBn.align)
        rw [w2.1, w2.2, w1.1, w1.2]
        exact ⟨rfl, rfl⟩
      refine ⟨fun x hx => ?_, fun x hx _ => (key x hx).1, fun x hx _ => (key x hx).2, ?_⟩
      · have h8 := hBn.prev_addr_mod
        rw [read_write, if_neg (by omega), read_write, if_neg (by omega)]
      · rw [if_neg p0]; rfl

theorem Block.block_congr {m m1 : Mem} {b : Nat}
    (hs : GET_SIZE m1 (HEADER_PAYLOAD b) = GET_SIZE m (HEADER_PAYLOAD b)) (h : Block m b) :
    Block m1 b :=
  ⟨h.align, h.low, by rw [hs]; exact h.size, by rw [hs]; exact h.high⟩

theorem Apart.apart_congr {m m1 : Mem} {x y : Nat}
    (hx : GET_SIZE m1 (HEADER_PAYLOAD x) = GET_SIZE m (HEADER_PAYLOAD x))
    (hy : GET_SIZE m1 (HEADER_PAYLOAD y) = GET_SIZE m (HEADER_PAYLOAD y)) (h : Apart m x y) :
    Apart m1 x y := by
  unfold Apart
  rw [hx, hy]
  exact h

theorem size_of_tags {m m1 : Mem} (ht : ∀ a, a % 16 = 0 → read m1 a = read m a) {x : Nat}
    (hx : x % 16 = 0) : GET_SIZE m1 (HEADER_PAYLOAD x) = GET_SIZE m (HEADER_PAYLOAD x) :=
  GET_SIZE_congr (ht _ (HEADER_PAYLOAD_mod hx))

theorem FreeList.head_eq_zero_iff {m : Mem} {head : Nat} {L : List Nat}
    (h : FreeList m head L) : head = 0 ↔ L = [] := by
  cases L with
  | nil => exact ⟨fun _ => rfl, fun _ => h.chain⟩
  | cons a L =>
    have h1 := h.chain.1
    have h2 := h.chain.2.1
    constructor
    · intro e; exact absurd (h1 ▸ e) h2
    · intro e; exact absurd e (List.cons_ne_nil _ _)

/-- Removal from a well-formed free list: the list walked from `last_freed`
afterwards is `L` with `b` erased and is well formed; no size word
changes. -/
theorem remove_free_spec {s : State} {L : List Nat} {b : Nat}
    (h : FreeList s.mem s.last_freed L) (hb : b ∈ L) :
    FreeList (remove_free s b).mem (remove_free s b).last_freed (L.erase b) ∧
    (∀ a, a % 16 = 0 → read (remove_free s b).mem a = read s.mem a) := by
  have hnd := h.nodup
  obtain ⟨L1, L2, rfl⟩ := List.append_of_mem hb
  have hbL1 : b ∉ L1 := fun hc =>
    (List.disjoint_of_nodup_append hnd) hc (List.mem_cons_self _ _)
  have hbL2 : b ∉ L2 := (List.nodup_cons.mp (List.Nodup.of_append_right hnd)).1
  obtain ⟨hpb, hs2⟩ := seg_mid L1 0 _ h.chain
  have hp : PREV_FREE s.mem b = 0 ∨
      (PREV_FREE s.mem b ∈ L1 ++ b :: L2 ∧ PREV_FREE s.mem b ≠ b) := by
    by_cases e : L1 = []
    · subst e; exact Or.inl hpb
    · have := last_of_mem 0 L1 e
      rw [← hpb] at this
      exact Or.inr ⟨List.mem_append_left _ this, fun hc => hbL1 (hc ▸ this)⟩
  have hn : NEXT_FREE s.mem b = 0 ∨
      (NEXT_FREE s.mem b ∈ L1 ++ b :: L2 ∧ NEXT_FREE s.mem b ≠ b) := by
    rcases seg_head hs2 with e | e
    · exact Or.inl e
    · exact Or.inr ⟨List.mem_append_right _ (List.mem_cons_of_mem _ e),
        fun hc => hbL2 (hc ▸ e)⟩
  obtain ⟨hT, hN, hP, hlf⟩ := remove_free_links h hb hp hn
  have hz : (0 : Nat) ∉ L1 ++ b :: L2 := fun hc => h.ne_zero hc rfl
  have hch := seg_unlink hN hP (fun x hx => List.mem_append_right _ (List.mem_cons_of_mem _ hx))
    L1 0 s.last_freed (fun x hx => List.mem_append_left _ hx) hnd hz h.chain
  have he : (L1 ++ b :: L2).erase b = L1 ++ L2 := by
    rw [List.erase_append_right _ hbL1, List.erase_cons_head]
  have hsub : ∀ x ∈ L1 ++ L2, x ∈ L1 ++ b :: L2 := by
    intro x hx
    rcases List.mem_append.mp hx with h1 | h1
    · exact List.mem_append_left _ h1
    · exact List.mem_append_right _ (List.mem_cons_of_mem _ h1)
  have hp0 : PREV_FREE s.mem b = 0 ↔ L1 = [] := by
    constructor
    · intro e0
      by_contra hc
      have := last_of_mem 0 L1 hc
      rw [← hpb, e0] at this
      exact hz (List.mem_append_left _ this)
    · intro e; subst e; exact hpb
  refine ⟨?_, hT⟩
  rw [he, hlf]
  refine ⟨?_, fun x hx => (h.block x (hsub x hx)).block_congr (size_of_tags hT (h.block x (hsub x hx)).align), ?_⟩
  · by_cases e : L1 = []
    · rw [if_pos (hp0.mpr e)]; rw [if_pos e] at hch; exact hch
    · rw [if_neg (fun hc => e (hp0.mp hc))]; rw [if_neg e] at hch; exact hch
  · have hpw : (L1 ++ L2).Pairwise (Apart s.mem) := by
      have := h.apart
      rw [List.pairwise_append] at this ⊢
      exact ⟨this.1, (List.pairwise_cons.mp this.2.1).2,
        fun a ha c hc => this.2.2 a ha c (List.mem_cons_of_mem _ hc)⟩
    refine List.Pairwise.imp_of_mem ?_ hpw
    intro x y hx hy hxy
    exact hxy.apart_congr (size_of_tags hT (h.block x (hsub x hx)).align)
      (size_of_tags hT (h.block y (hsub y hy)).align)

theorem three_free_reached :
    (run arena4k 1 (start arena4k) [.malloc 16, .malloc 16, .malloc 16, .malloc 16,
      .malloc 16, .malloc 16, .free 65584, .free 65648, .free 65712]).map (fun σ => σ.st)
      = some three_free := by
  decide!

theorem three_free_list : FreeList three_free.mem three_free.last_freed
    [65712, 65648, 65584, 65776] := by
  refine ⟨?_, ?_, ?_⟩
  · simp only [Seg]
    decide!
  · intro x hx
    simp only [List.mem_cons, List.mem_singleton, List.not_mem_nil, or_false] at hx
    rcases hx with rfl | rfl | rfl | rfl <;>
      exact ⟨by decide, by decide, by decide!, by decide!⟩
  · simp only [List.pairwise_cons, List.mem_cons, List.mem_singleton, List.not_mem_nil,
      forall_eq_or_imp, forall_eq, Apart, List.Pairwise.nil, and_true, false_imp_iff,
      imp_true_iff, implies_true]
    decide!

theorem seg_walk {m : Mem} :
    ∀ (L : List Nat) (q h : Nat), Seg m q h L 0 → free_list (L.length + 1) m h = some L := by
  intro L
  induction L with
  | nil =>
    intro q h hs
    have h0 : h = 0 := hs
    unfold free_list
    rw [if_pos h0]
  | cons a L ih =>
    intro q h hs
    obtain ⟨e1, e2, _, e4⟩ := hs
    subst e1
    unfold free_list
    rw [if_neg e2, List.length_cons, ih _ _ e4]
    rfl

/-- C17 (free-list removal): for a well-formed free list that represents the
sequence L and a block b of L, after remove_free(b) the free list is again
well formed and represents L with b erased (the walk from last_freed along
the forward links visits exactly the remaining blocks, in their old order,
and ends at null), and last_freed is null exactly when L was [b]. -/
theorem free_list_removal (s : State) (L : List Nat) (b : Nat)
    (h : FreeList s.mem s.last_freed L) (hb : b ∈ L) :
    FreeList (remove_free s b).mem (remove_free s b).last_freed (L.erase b) ∧
    free_list ((L.erase b).length + 1) (remove_free s b).mem (remove_free s b).last_freed
      = some (L.erase b) ∧
    ((remove_free s b).last_freed = 0 ↔ L = [b]) := by
  have h1 := (remove_free_spec h hb).1
  refine ⟨h1, seg_walk _ _ _ h1.chain, ?_⟩
  rw [h1.head_eq_zero_iff]
  constructor
  · intro e
    have hl := List.length_erase_of_mem hb
    rw [e] at hl
    cases L with
    | nil => simp at hb
    | cons a L =>
      cases L with
      | nil =>
        simp only [List.mem_singleton] at hb
        rw [hb]
      | cons c L => simp at hl
  · intro e
    subst e
    simp

/-- Witness of `free_list_removal`: interior removal of `65648` in
`three_free`. -/
theorem free_list_removal_witness :
    FreeList (remove_free three_free 65648).mem (remove_free three_free 65648).last_freed
      ([65712, 65648, 65584, 65776].erase 65648) ∧
    free_list (([65712, 65648, 65584, 65776].erase 65648).length + 1)
      (remove_free three_free 65648).mem (remove_free three_free 65648).last_freed
      = some ([65712, 65648, 65584, 65776].erase 65648) ∧
    ((remove_free three_free 65648).last_freed = 0 ↔ [65712, 65648, 65584, 65776] = [65648]) :=
  free_list_removal three_free [65712, 65648, 65584, 65776] 65648 three_free_list (by decide)

/-! ## Stores that keep the free list -/

theorem FreeList.list_congr {m m1 : Mem} {head : Nat} {L : List Nat} (h : FreeList m head L)
    (hs : ∀ x ∈ L, GET_SIZE m1 (HEADER_PAYLOAD x) = GET_SIZE m (HEADER_PAYLOAD x))
    (hl : ∀ x ∈ L, PREV_FREE m1 x = PREV_FREE m x ∧ NEXT_FREE m1 x = NEXT_FREE m x) :
    FreeList m1 head L := by
  refine ⟨seg_frame _ _ _ _ hl h.chain, fun x hx => (h.block x hx).block_congr (hs x hx), ?_⟩
  refine List.Pairwise.imp_of_mem ?_ h.apart
  intro x y hx hy hxy
  exact hxy.apart_congr (hs x hx) (hs y hy)

/-- A store to a size word that leaves the sizes of the listed blocks keeps
the free list. -/
theorem FreeList.store_tag {m : Mem} {head : Nat} {L : List Nat} (h : FreeList m head L)
    {a v : Nat} (ha : a % 16 = 0)
    (hs : ∀ x ∈ L, GET_SIZE (write m a v) (HEADER_PAYLOAD x) = GET_SIZE m (HEADER_PAYLOAD x)) :
    FreeList (write m a v) head L := by
  refine h.list_congr hs (fun x hx => ?_)
  have hB := h.block x hx
  have e1 : PREV_FREE (write m a v) x = PREV_FREE m x := by
    rw [PREV_FREE_write, if_neg]
    have := hB.prev_addr_mod
    omega
  have e2 : NEXT_FREE (write m a v) x = NEXT_FREE m x := by
    unfold NEXT_FREE NEXT_FREE_ADDR FOOTER_PAYLOAD
    rw [hs x hx, read_write, if_neg]
    have := hB.next_addr_mod
    unfold NEXT_FREE_ADDR FOOTER_PAYLOAD at this
    omega
  exact ⟨e1, e2⟩

theorem Outside.header_ne {m : Mem} {lo hi x a : Nat} (h : Outside m lo hi x) (hx : Block m x)
    (h1 : lo ≤ a + 16) (h2 : a + 16 < hi) : a ≠ HEADER_PAYLOAD x := by
  rw [hx.header]
  have := hx.size
  have := hx.low
  unfold Outside at h
  omega

/-- A store to a size word inside a block that is disjoint from every listed
block keeps the free list. -/
theorem FreeList.store_inside {m : Mem} {head : Nat} {L : List Nat} (h : FreeList m head L)
    {lo hi : Nat} (ho : ∀ x ∈ L, Outside m lo hi x) {a : Nat} (v : Nat) (ha : a % 16 = 0)
    (h1 : lo ≤ a + 16) (h2 : a + 16 < hi) :
    FreeList (write m a v) head L ∧ (∀ x ∈ L, Outside (write m a v) lo hi x) ∧
    ∀ x ∈ L, GET_SIZE (write m a v) (HEADER_PAYLOAD x) = GET_SIZE m (HEADER_PAYLOAD x) := by
  have hs : ∀ x ∈ L,
      GET_SIZE (write m a v) (HEADER_PAYLOAD x) = GET_SIZE m (HEADER_PAYLOAD x) :=
    fun x hx => size_write ((ho x hx).header_ne (h.block x hx) h1 h2)
  refine ⟨h.store_tag ha hs, fun x hx => ?_, hs⟩
  unfold Outside
  rw [hs x hx]
  exact ho x hx

/-- Insertion at the head of a well-formed free list. -/
theorem add_free_spec {s : State} {L : List Nat} {b : Nat}
    (h : FreeList s.mem s.last_freed L) (hb : Block s.mem b) (ha : ∀ x ∈ L, Apart s.mem b x) :
    FreeList (add_free s b).mem (add_free s b).last_freed (b :: L) ∧
    (∀ a, a % 16 = 0 → read (add_free s b).mem a = read s.mem a) := by
  have hA := hb.next_addr_mod
  have hP := hb.prev_addr_mod
  have hb1 : Block (write s.mem (NEXT_FREE_ADDR s.mem b) s.last_freed) b := hb.block_store_link hA
  have hbL : ∀ x ∈ L, x ≠ b := by
    intro x hx e
    subst e
    have := ha x hx
    have := hb.size
    unfold Apart at *
    omega
  -- links of the blocks after the first two stores
  have w12 : ∀ x, Block s.mem x → (x ≠ b → Apart s.mem x b) →
      NEXT_FREE (write (write s.mem (NEXT_FREE_ADDR s.mem b) s.last_freed) (PREV_FREE_ADDR b) 0) x
        = (if x = b then s.last_freed else NEXT_FREE s.mem x) ∧
      PREV_FREE (write (write s.mem (NEXT_FREE_ADDR s.mem b) s.last_freed) (PREV_FREE_ADDR b) 0) x
        = (if x = b then 0 else PREV_FREE s.mem x) := by
    intro x hx hxb
    have w1 := write_next_links (v := s.last_freed) hb hx hxb
    have w2 := write_prev_links (v := 0) hb1 (hx.block_store_link hA)
      (fun e => (hxb e).apart_store_link hA hx.align hb.align)
    rw [w2.1, w2.2, w1.1, w1.2]
    exact ⟨rfl, rfl⟩
  unfold add_free
  by_cases h0 : s.last_freed = 0
  · rw [if_pos h0]
    have hL : L = [] := h.head_eq_zero_iff.mp h0
    subst hL
    have wb := w12 b hb (fun e => absurd rfl e)
    rw [if_pos rfl, if_pos rfl, h0] at wb
    refine ⟨⟨⟨rfl, by have := hb.low; omega, wb.2, wb.1⟩, ?_, ?_⟩, fun a ha0 => ?_⟩
    · intro x hx
      rw [List.mem_singleton] at hx
      subst hx
      exact (hb.block_store_link hA).block_store_link hP
    · exact List.pairwise_singleton _ _
    · show read (write (write s.mem _ 0) _ 0) a = _
      rw [read_write, if_neg (by omega), read_write, if_neg (by omega)]
  · rw [if_neg h0]
    cases L with
    | nil => exact absurd h.chain h0
    | cons y L =>
      obtain ⟨e1, e2, e3, e4⟩ := h.chain
      have hyL : y ∈ y :: L := List.mem_cons_self _ _
      have hBy := h.block y hyL
      have hyb : y ≠ b := hbL y hyL
      have hnd := h.nodup
      have hP2 : PREV_FREE_ADDR y % 16 = 8 := hBy.prev_addr_mod
      show FreeList (write (write (write s.mem (NEXT_FREE_ADDR s.mem b) s.last_freed)
          (PREV_FREE_ADDR b) 0) (PREV_FREE_ADDR s.last_freed) b) b (b :: y :: L) ∧
        ∀ a, a % 16 = 0 → read (write (write (write s.mem (NEXT_FREE_ADDR s.mem b) s.last_freed)
          (PREV_FREE_ADDR b) 0) (PREV_FREE_ADDR s.last_freed) b) a = read s.mem a
      rw [e1] at w12 ⊢
      have hsz : ∀ x, x % 16 = 0 →
          GET_SIZE (write (write (write s.mem (NEXT_FREE_ADDR s.mem b) y)
            (PREV_FREE_ADDR b) 0) (PREV_FREE_ADDR y) b) (HEADER_PAYLOAD x)
            = GET_SIZE s.mem (HEADER_PAYLOAD x) := by
        intro x hx
        rw [size_write_link hP2 hx, size_write_link hP hx, size_write_link hA hx]
      have w3 : ∀ x, Block s.mem x → (x ≠ b → Apart s.mem x b) → (x ≠ y → Apart s.mem x y) →
          NEXT_FREE (write (write (write s.mem (NEXT_FREE_ADDR s.mem b) y)
            (PREV_FREE_ADDR b) 0) (PREV_FREE_ADDR y) b) x
            = (if x = b then y else NEXT_FREE s.mem x) ∧
          PREV_FREE (write (write (write s.mem (NEXT_FREE_ADDR s.mem b) y)
            (PREV_FREE_ADDR b) 0) (PREV_FREE_ADDR y) b) x
            = (if x = y then b else if x = b then 0 else PREV_FREE s.mem x) := by
        intro x hx hxb hxy
        have w := w12 x hx hxb
        have w2 := write_prev_links (v := b)
          (m := write (write s.mem (NEXT_FREE_ADDR s.mem b) y) (PREV_FREE_ADDR b) 0)
          ((hBy.block_store_link hA).block_store_link hP)
          ((hx.block_store_link hA).block_store_link hP)
          (fun e => ((hxy e).apart_store_link hA hx.align hBy.align).apart_store_link hP hx.align hBy.align)
        rw [w2.1, w2.2, w.1, w.2]
        exact ⟨rfl, rfl⟩
      have wb := w3 b hb (fun e => absurd rfl e) (fun _ => ha y hyL)
      rw [if_pos rfl, if_neg (Ne.symm hyb), if_pos rfl] at wb
      have wy := w3 y hBy (fun _ => (ha y hyL).symm) (fun e => absurd rfl e)
      rw [if_neg hyb, if_pos rfl] at wy
      refine ⟨⟨⟨rfl, by have := hb.low; omega, wb.2, ?_⟩, ?_, ?_⟩, fun a ha0 => ?_⟩
      · rw [wb.1]
        refine ⟨rfl, e2, wy.2, ?_⟩
        rw [wy.1]
        refine seg_frame _ _ _ _ (fun x hx => ?_) e4
        have hxL : x ∈ y :: L := List.mem_cons_of_mem _ hx
        have hxy : x ≠ y := fun e => (List.nodup_cons.mp hnd).1 (e ▸ hx)
        have wx := w3 x (h.block x hxL) (fun _ => (ha x hxL).symm)
          (fun e => h.apart_of_ne hxL hyL e)
        rw [if_neg (hbL x hxL), if_neg hxy, if_neg (hbL x hxL)] at wx
        exact ⟨wx.2, wx.1⟩
      · intro x hx
        rcases List.mem_cons.mp hx with rfl | hx
        · exact hb.block_congr (hsz _ hb.align)
        · exact (h.block x hx).block_congr (hsz _ (h.block x hx).align)
      · rw [List.pairwise_cons]
        refine ⟨fun x hx => (ha x hx).apart_congr (hsz _ hb.align) (hsz _ (h.block x hx).align), ?_⟩
        refine List.Pairwise.imp_of_mem ?_ h.apart
        intro x z hx hz hxz
        exact hxz.apart_congr (hsz _ (h.block x hx).align) (hsz _ (h.block z hz).align)
      · rw [read_write, if_neg (by omega), read_write, if_neg (by omega), read_write,
          if_neg (by omega)]

/-! ## Commit and split -/

theorem ALIGN_min_block : ALIGN (1 + BLOCK_OVERHEAD) = 32 := by decide!

theorem FreeList.outside_of_mem {m : Mem} {head : Nat} {L : List Nat} (h : FreeList m head L)
    {b : Nat} (hb : b ∈ L) :
    ∀ x ∈ L.erase b, x ∈ L ∧ x ≠ b ∧ Outside m b (b + GET_SIZE m (HEADER_PAYLOAD b)) x := by
  intro x hx
  have hx2 := (List.Nodup.mem_erase_iff h.nodup).mp hx
  have := h.apart_of_ne hb hx2.2 (Ne.symm hx2.1)
  exact ⟨hx2.2, hx2.1, Or.symm this⟩

theorem Outside.outside_congr {m m1 : Mem} {lo hi x : Nat}
    (hs : GET_SIZE m1 (HEADER_PAYLOAD x) = GET_SIZE m (HEADER_PAYLOAD x))
    (h : Outside m lo hi x) : Outside m1 lo hi x := by
  unfold Outside
  rw [hs]
  exact h

theorem allocate_mem_split_eq {s : State} {b B size : Nat} (hblk : Block s.mem b)
    (hB : GET_SIZE s.mem (HEADER_PAYLOAD b) = B) (h16 : size % 16 = 0) (h32 : 32 ≤ size)
    (hgt : size + 32 < B) :
    allocate_mem s b size
      = add_free ((((remove_free s b).put (b - 16) (SET_BITS size 1 2)).put (b + size - 16)
          (SET_BITS (B - size) 0 2)).put (b + B - 32) (SET_BITS (B - size) 0 2)) (b + size) := by
  have hlow := hblk.low
  have hhigh := hblk.high
  have hal := hblk.align
  rw [hB] at hhigh
  have hB16 : B % 16 = 0 := by rw [← hB]; exact GET_SIZE_mod _ _
  have e0 : HEADER_PAYLOAD b = b - 16 := hblk.header
  have e1 : HEADER_PAYLOAD (b + size) = b + size - 16 :=
    HEADER_PAYLOAD_val (by omega) (by omega)
  have hu : usub B size = B - size := by
    simp only [usub, two64] at hhigh ⊢
    omega
  have g2 : GET_SIZE ((remove_free s b).put (b - 16) (SET_BITS size 1 2)).mem (b - 16) = size :=
    GET_SIZE_of_read (by rw [read_put, if_pos rfl]) h16 (by omega) (by decide) (Or.inr rfl)
  have n2 : NEXT_PAY ((remove_free s b).put (b - 16) (SET_BITS size 1 2)).mem b = b + size :=
    NEXT_PAY_val hlow (by omega) g2
  have g3 : GET_SIZE (((remove_free s b).put (b - 16) (SET_BITS size 1 2)).put (b + size - 16)
      (SET_BITS (B - size) 0 2)).mem (b - 16) = size := by
    rw [GET_SIZE_congr (m := ((remove_free s b).put (b - 16) (SET_BITS size 1 2)).mem)]
    · exact g2
    · rw [read_put, if_neg (by omega)]
  have n3 : NEXT_PAY (((remove_free s b).put (b - 16) (SET_BITS size 1 2)).put (b + size - 16)
      (SET_BITS (B - size) 0 2)).mem b = b + size := NEXT_PAY_val hlow (by omega) g3
  have gx3 : GET_SIZE (((remove_free s b).put (b - 16) (SET_BITS size 1 2)).put (b + size - 16)
      (SET_BITS (B - size) 0 2)).mem (b + size - 16) = B - size :=
    GET_SIZE_of_read (by rw [read_put, if_pos rfl]) (by omega) (by omega) (by decide)
      (Or.inr rfl)
  have f3 : FOOTER_PAYLOAD (((remove_free s b).put (b - 16) (SET_BITS size 1 2)).put
      (b + size - 16) (SET_BITS (B - size) 0 2)).mem (b + size) = b + B - 32 := by
    rw [@FOOTER_PAYLOAD_val _ _ (B - size) (by omega) (by omega) (by omega)
      (by rw [show b + size - 16 = b + size - 16 from rfl]; exact gx3)]
    omega
  have g4 : GET_SIZE ((((remove_free s b).put (b - 16) (SET_BITS size 1 2)).put (b + size - 16)
      (SET_BITS (B - size) 0 2)).put (b + B - 32) (SET_BITS (B - size) 0 2)).mem (b - 16)
      = size := by
    rw [GET_SIZE_congr (m := (((remove_free s b).put (b - 16) (SET_BITS size 1 2)).put
      (b + size - 16) (SET_BITS (B - size) 0 2)).mem)]
    · exact g3
    · rw [read_put, if_neg (by omega)]
  have n4 : NEXT_PAY ((((remove_free s b).put (b - 16) (SET_BITS size 1 2)).put (b + size - 16)
      (SET_BITS (B - size) 0 2)).put (b + B - 32) (SET_BITS (B - size) 0 2)).mem b
      = b + size := NEXT_PAY_val hlow (by omega) g4
  have hB1 : GET_SIZE s.mem (b - 16) = B := by rw [← e0]; exact hB
  unfold allocate_mem
  simp only [e0, hB1, hu, ALIGN_min_block]
  rw [if_pos (by omega)]
  simp only [n2, e1, n3, f3, n4]

theorem allocate_mem_split {s : State} {L : List Nat} {b B size : Nat}
    (h : FreeList s.mem s.last_freed L) (hb : b ∈ L)
    (hB : GET_SIZE s.mem (HEADER_PAYLOAD b) = B) (h16 : size % 16 = 0) (h32 : 32 ≤ size)
    (hgt : size + 32 < B) :
    FreeList (allocate_mem s b size).mem (allocate_mem s b size).last_freed
      ((b + size) :: L.erase b) ∧
    read (allocate_mem s b size).mem (b - 16) = SET_BITS size 1 2 ∧
    read (allocate_mem s b size).mem (b + size - 16) = SET_BITS (B - size) 0 2 ∧
    read (allocate_mem s b size).mem (b + B - 32) = SET_BITS (B - size) 0 2 := by
  have hblk := h.block b hb
  have hlow := hblk.low
  have hhigh := hblk.high
  have hal := hblk.align
  rw [hB] at hhigh
  have hB16 : B % 16 = 0 := by rw [← hB]; exact GET_SIZE_mod _ _
  obtain ⟨h1, hT⟩ := remove_free_spec h hb
  have ho := h.outside_of_mem hb
  rw [hB] at ho
  have ho1 : ∀ x ∈ L.erase b, Outside (remove_free s b).mem b (b + B) x :=
    fun x hx => (ho x hx).2.2.outside_congr (size_of_tags hT (h.block x (ho x hx).1).align)
  obtain ⟨h2, ho2, _⟩ := h1.store_inside ho1 (a := b - 16) (SET_BITS size 1 2) (by omega)
    (by omega) (by omega)
  obtain ⟨h3, ho3, _⟩ := h2.store_inside ho2 (a := b + size - 16) (SET_BITS (B - size) 0 2)
    (by omega) (by omega) (by omega)
  obtain ⟨h4, ho4, _⟩ := h3.store_inside ho3 (a := b + B - 32) (SET_BITS (B - size) 0 2)
    (by omega) (by omega) (by omega)
  have r4 : ∀ a, read ((((remove_free s b).put (b - 16) (SET_BITS size 1 2)).put (b + size - 16)
      (SET_BITS (B - size) 0 2)).put (b + B - 32) (SET_BITS (B - size) 0 2)).mem a
      = if a = b + B - 32 then SET_BITS (B - size) 0 2
        else if a = b + size - 16 then SET_BITS (B - size) 0 2
        else if a = b - 16 then SET_BITS size 1 2 else read (remove_free s b).mem a := by
    intro a
    rw [read_put, read_put, read_put]
  have e1 : HEADER_PAYLOAD (b + size) = b + size - 16 :=
    HEADER_PAYLOAD_val (by omega) (by omega)
  have g4 : GET_SIZE ((((remove_free s b).put (b - 16) (SET_BITS size 1 2)).put (b + size - 16)
      (SET_BITS (B - size) 0 2)).put (b + B - 32) (SET_BITS (B - size) 0 2)).mem
      (HEADER_PAYLOAD (b + size)) = B - size := by
    rw [e1]
    exact GET_SIZE_of_read (by rw [r4, if_neg (by omega), if_pos rfl]) (by omega) (by omega)
      (by decide) (Or.inr rfl)
  have hnew : Block ((((remove_free s b).put (b - 16) (SET_BITS size 1 2)).put (b + size - 16)
      (SET_BITS (B - size) 0 2)).put (b + B - 32) (SET_BITS (B - size) 0 2)).mem (b + size) :=
    ⟨by omega, by omega, by rw [g4]; omega, by rw [g4]; omega⟩
  have hap : ∀ x ∈ L.erase b, Apart ((((remove_free s b).put (b - 16) (SET_BITS size 1 2)).put
      (b + size - 16) (SET_BITS (B - size) 0 2)).put (b + B - 32)
      (SET_BITS (B - size) 0 2)).mem (b + size) x := by
    intro x hx
    have := ho4 x hx
    unfold Outside at this
    unfold Apart
    rw [g4]
    show _ ∨ x + GET_SIZE (write (write (write (remove_free s b).mem _ _) _ _) _ _) _ ≤ _
    omega
  obtain ⟨h5, hT5⟩ := add_free_spec (s := (((remove_free s b).put (b - 16) (SET_BITS size 1 2)).put
    (b + size - 16) (SET_BITS (B - size) 0 2)).put (b + B - 32) (SET_BITS (B - size) 0 2))
    h4 hnew hap
  rw [allocate_mem_split_eq hblk hB h16 h32 hgt]
  refine ⟨h5, ?_, ?_, ?_⟩
  · rw [hT5 _ (by omega), r4, if_neg (by omega), if_neg (by omega), if_pos rfl]
  · rw [hT5 _ (by omega), r4, if_neg (by omega), if_pos rfl]
  · rw [hT5 _ (by omega), r4, if_pos rfl]

/-- Rewriting a header with its own size keeps every size word. -/
theorem size_write_same {m : Mem} {a p al pa : Nat} (hal : al < 2) (hpa : pa = 0 ∨ pa = 2) :
    GET_SIZE (write m a (SET_BITS (GET_SIZE m a) al pa)) p = GET_SIZE m p := by
  by_cases e : p = a
  · subst e
    exact GET_SIZE_of_read (by rw [read_write, if_pos rfl]) (GET_SIZE_mod _ _) (GET_SIZE_lt _ _)
      hal hpa
  · unfold GET_SIZE GET
    rw [read_write, if_neg e]

theorem allocate_mem_keep {s : State} {L : List Nat} {b B size : Nat}
    (h : FreeList s.mem s.last_freed L) (hb : b ∈ L)
    (hB : GET_SIZE s.mem (HEADER_PAYLOAD b) = B) (hle : size ≤ B) (hgt : B ≤ size + 32) :
    FreeList (allocate_mem s b size).mem (allocate_mem s b size).last_freed (L.erase b) ∧
    read (allocate_mem s b size).mem (b - 16) = SET_BITS B 1 2 ∧
    read (allocate_mem s b size).mem (b + B - 16)
      = SET_BITS (GET_SIZE s.mem (b + B - 16)) 1 2 := by
  have hblk := h.block b hb
  have hlow := hblk.low
  have hhigh := hblk.high
  have hal := hblk.align
  have hsz := hblk.size
  rw [hB] at hhigh hsz
  have hB16 : B % 16 = 0 := by rw [← hB]; exact GET_SIZE_mod _ _
  have e0 : HEADER_PAYLOAD b = b - 16 := hblk.header
  have hB1 : GET_SIZE s.mem (b - 16) = B := by rw [← e0]; exact hB
  have e1 : HEADER_PAYLOAD (b + B) = b + B - 16 := HEADER_PAYLOAD_val (by omega) hhigh
  obtain ⟨h1, hT⟩ := remove_free_spec h hb
  have ho := h.outside_of_mem hb
  rw [hB] at ho
  have ho1 : ∀ x ∈ L.erase b, Outside (remove_free s b).mem b (b + B) x :=
    fun x hx => (ho x hx).2.2.outside_congr (size_of_tags hT (h.block x (ho x hx).1).align)
  have g1 : GET_SIZE (remove_free s b).mem (b - 16) = B := by
    rw [GET_SIZE_congr (hT _ (by omega))]; exact hB1
  obtain ⟨h2, _, _⟩ := h1.store_inside ho1 (a := b - 16) (SET_BITS B 1 2) (by omega)
    (by omega) (by omega)
  have g2 : GET_SIZE ((remove_free s b).put (b - 16) (SET_BITS B 1 2)).mem (b - 16) = B :=
    GET_SIZE_of_read (by rw [read_put, if_pos rfl]) hB16 (by omega) (by decide) (Or.inr rfl)
  have n2 : NEXT_PAY ((remove_free s b).put (b - 16) (SET_BITS B 1 2)).mem b = b + B :=
    NEXT_PAY_val hlow hhigh g2
  have gn2 : GET_SIZE ((remove_free s b).put (b - 16) (SET_BITS B 1 2)).mem (b + B - 16)
      = GET_SIZE s.mem (b + B - 16) := by
    apply GET_SIZE_congr
    rw [read_put, if_neg (by omega), hT _ (by omega)]
  have hu : usub B size = B - size := by
    simp only [usub, two64] at hhigh ⊢
    omega
  have key : allocate_mem s b size
      = ((remove_free s b).put (b - 16) (SET_BITS B 1 2)).put (b + B - 16)
          (SET_BITS (GET_SIZE ((remove_free s b).put (b - 16) (SET_BITS B 1 2)).mem
            (b + B - 16)) 1 2) := by
    unfold allocate_mem
    simp only [e0, hB1, hu, ALIGN_min_block]
    rw [if_neg (by omega)]
    simp only [g1, n2, e1]
  rw [key]
  refine ⟨h2.store_tag (by omega) (fun x _ => size_write_same (by decide) (Or.inr rfl)), ?_, ?_⟩
  · rw [read_put, if_neg (by omega), read_put, if_pos rfl]
  · rw [read_put, if_pos rfl, gn2]

/-- C16 (commit and split): for a block b of size B on a well-formed free
list that represents L and a needed size that is a multiple of 16 with
32 <= size <= B, allocate_mem(b, size) takes b off the free list.  If
B - size > 32, b's header then records size and the allocated bit, the free
block at b + size has header and footer recording B - size with the
allocated bit clear, it is the head of the free list (which is well formed
and represents (b + size) :: L without b), and the two sizes sum to B.
Otherwise b's header records B and the allocated bit, the header of the next
physical block b + B keeps its size and has its prev-allocated bit set, and
the free list is well formed and represents L without b. -/
theorem commit_and_split (s : State) (L : List Nat) (b B size : Nat)
    (h : FreeList s.mem s.last_freed L) (hb : b ∈ L)
    (hB : GET_SIZE s.mem (HEADER_PAYLOAD b) = B) (h16 : size % 16 = 0) (h32 : 32 ≤ size)
    (hle : size ≤ B) :
    (32 < B - size →
      FreeList (allocate_mem s b size).mem (allocate_mem s b size).last_freed
        ((b + size) :: L.erase b) ∧
      b ∉ (b + size) :: L.erase b ∧
      (allocate_mem s b size).last_freed = b + size ∧
      GET_SIZE (allocate_mem s b size).mem (HEADER_PAYLOAD b) = size ∧
      GET_ALLOC (allocate_mem s b size).mem (HEADER_PAYLOAD b) = 1 ∧
      GET_SIZE (allocate_mem s b size).mem (HEADER_PAYLOAD (b + size)) = B - size ∧
      GET_ALLOC (allocate_mem s b size).mem (HEADER_PAYLOAD (b + size)) = 0 ∧
      GET_SIZE (allocate_mem s b size).mem (FOOTER_PAYLOAD (allocate_mem s b size).mem (b + size))
        = B - size ∧
      GET_ALLOC (allocate_mem s b size).mem (FOOTER_PAYLOAD (allocate_mem s b size).mem (b + size))
        = 0 ∧
      GET_SIZE (allocate_mem s b size).mem (HEADER_PAYLOAD b)
        + GET_SIZE (allocate_mem s b size).mem (HEADER_PAYLOAD (b + size)) = B) ∧
    (B - size ≤ 32 →
      FreeList (allocate_mem s b size).mem (allocate_mem s b size).last_freed (L.erase b) ∧
      b ∉ L.erase b ∧
      GET_SIZE (allocate_mem s b size).mem (HEADER_PAYLOAD b) = B ∧
      GET_ALLOC (allocate_mem s b size).mem (HEADER_PAYLOAD b) = 1 ∧
      GET_SIZE (allocate_mem s b size).mem (HEADER_PAYLOAD (b + B))
        = GET_SIZE s.mem (HEADER_PAYLOAD (b + B)) ∧
      GET_PREV_ALLOC (allocate_mem s b size).mem (HEADER_PAYLOAD (b + B)) = 2) := by
  have hblk := h.block b hb
  have hlow := hblk.low
  have hhigh := hblk.high
  have hal := hblk.align
  rw [hB] at hhigh
  have hB16 : B % 16 = 0 := by rw [← hB]; exact GET_SIZE_mod _ _
  have e0 : HEADER_PAYLOAD b = b - 16 := hblk.header
  have hnb : b ∉ L.erase b := fun hc => ((List.Nodup.mem_erase_iff h.nodup).mp hc).1 rfl
  constructor
  · intro hgt
    obtain ⟨hF, r1, r2, r3⟩ := allocate_mem_split h hb hB h16 h32 (by omega)
    have e1 : HEADER_PAYLOAD (b + size) = b + size - 16 :=
      HEADER_PAYLOAD_val (by omega) (by omega)
    have gs : GET_SIZE (allocate_mem s b size).mem (b + size - 16) = B - size :=
      GET_SIZE_of_read r2 (by omega) (by omega) (by decide) (Or.inr rfl)
    have ef : FOOTER_PAYLOAD (allocate_mem s b size).mem (b + size) = b + B - 32 := by
      rw [@FOOTER_PAYLOAD_val _ _ (B - size) (by omega) (by omega) (by omega) gs]
      omega
    rw [e0, e1, ef]
    have gb : GET_SIZE (allocate_mem s b size).mem (b - 16) = size :=
      GET_SIZE_of_read r1 h16 (by omega) (by decide) (Or.inr rfl)
    refine ⟨hF, ?_, hF.chain.1, gb, GET_ALLOC_of_read r1 h16 (by decide) (Or.inr rfl), gs,
      GET_ALLOC_of_read r2 (by omega) (by decide) (Or.inr rfl),
      GET_SIZE_of_read r3 (by omega) (by omega) (by decide) (Or.inr rfl),
      GET_ALLOC_of_read r3 (by omega) (by decide) (Or.inr rfl), by rw [gb, gs]; omega⟩
    intro hc
    rcases List.mem_cons.mp hc with e | e
    · omega
    · exact hnb e
  · intro hgt
    obtain ⟨hF, r1, r2⟩ := allocate_mem_keep h hb hB hle (by omega)
    have e1 : HEADER_PAYLOAD (b + B) = b + B - 16 := HEADER_PAYLOAD_val (by omega) hhigh
    rw [e0, e1]
    exact ⟨hF, hnb, GET_SIZE_of_read r1 hB16 (by omega) (by decide) (Or.inr rfl),
      GET_ALLOC_of_read r1 hB16 (by decide) (Or.inr rfl),
      GET_SIZE_of_read r2 (GET_SIZE_mod _ _) (GET_SIZE_lt _ _) (by decide) (Or.inr rfl),
      GET_PREV_ALLOC_of_read r2 (GET_SIZE_mod _ _) (by decide) (Or.inr rfl)⟩

/-- Witness of `commit_and_split`: the 28416-byte block `65776` of
`three_free` with needed size 48 is split. -/
theorem commit_and_split_witness :
    FreeList (allocate_mem three_free 65776 48).mem (allocate_mem three_free 65776 48).last_freed
        ((65776 + 48) :: [65712, 65648, 65584, 65776].erase 65776) ∧
      65776 ∉ (65776 + 48) :: [65712, 65648, 65584, 65776].erase 65776 ∧
      (allocate_mem three_free 65776 48).last_freed = 65776 + 48 ∧
      GET_SIZE (allocate_mem three_free 65776 48).mem (HEADER_PAYLOAD 65776) = 48 ∧
      GET_ALLOC (allocate_mem three_free 65776 48).mem (HEADER_PAYLOAD 65776) = 1 ∧
      GET_SIZE (allocate_mem three_free 65776 48).mem (HEADER_PAYLOAD (65776 + 48))
        = 28416 - 48 ∧
      GET_ALLOC (allocate_mem three_free 65776 48).mem (HEADER_PAYLOAD (65776 + 48)) = 0 ∧
      GET_SIZE (allocate_mem three_free 65776 48).mem
          (FOOTER_PAYLOAD (allocate_mem three_free 65776 48).mem (65776 + 48)) = 28416 - 48 ∧
      GET_ALLOC (allocate_mem three_free 65776 48).mem
          (FOOTER_PAYLOAD (allocate_mem three_free 65776 48).mem (65776 + 48)) = 0 ∧
      GET_SIZE (allocate_mem three_free 65776 48).mem (HEADER_PAYLOAD 65776)
        + GET_SIZE (allocate_mem three_free 65776 48).mem (HEADER_PAYLOAD (65776 + 48))
        = 28416 :=
  (commit_and_split three_free [65712, 65648, 65584, 65776] 65776 28416 48 three_free_list
    (by decide) (by decide!) (by decide) (by decide) (by decide)).1 (by decide)

/-! ## Coalescing and the free list -/

/-- The last steps of every merging branch of `coalesce`: header and footer
of the merged block `r` are stored (in either order), then `r` is put on the
free list. -/
theorem merge_finish {s : State} {L : List Nat} {r total a c : Nat}
    (h : FreeList s.mem s.last_freed L) (ho : ∀ x ∈ L, Outside s.mem r (r + total) x)
    (hr : r % 16 = 0) (hlow : 16 ≤ r) (ht16 : total % 16 = 0) (ht : 32 ≤ total)
    (hhi : r + total < two64)
    (haa : (a = r - 16 ∧ c = r + total - 32) ∨ (a = r + total - 32 ∧ c = r - 16)) :
    Coalesced (add_free ((s.put a (SET_BITS total 0 2)).put c (SET_BITS total 0 2)) r)
      r r total L := by
  have ha : a % 16 = 0 ∧ r ≤ a + 16 ∧ a + 16 < r + total ∧
      c % 16 = 0 ∧ r ≤ c + 16 ∧ c + 16 < r + total := by
    rcases haa with ⟨e1, e2⟩ | ⟨e1, e2⟩ <;> subst e1 <;> subst e2 <;> omega
  obtain ⟨h2, ho2, _⟩ := h.store_inside ho (a := a) (SET_BITS total 0 2) ha.1 ha.2.1 ha.2.2.1
  obtain ⟨h3, ho3, _⟩ := h2.store_inside ho2 (a := c) (SET_BITS total 0 2) ha.2.2.2.1
    ha.2.2.2.2.1 ha.2.2.2.2.2
  have rH : read ((s.put a (SET_BITS total 0 2)).put c (SET_BITS total 0 2)).mem (r - 16)
      = SET_BITS total 0 2 := by
    rw [read_put, read_put]
    rcases haa with ⟨e1, e2⟩ | ⟨e1, e2⟩
    · rw [if_neg (by omega), if_pos e1.symm]
    · rw [if_pos e2.symm]
  have rF : read ((s.put a (SET_BITS total 0 2)).put c (SET_BITS total 0 2)).mem
      (r + total - 32) = SET_BITS total 0 2 := by
    rw [read_put, read_put]
    rcases haa with ⟨e1, e2⟩ | ⟨e1, e2⟩
    · rw [if_pos e2.symm]
    · rw [if_neg (by omega), if_pos e1.symm]
  have e0 : HEADER_PAYLOAD r = r - 16 := HEADER_PAYLOAD_val hlow (by omega)
  have g3 : GET_SIZE ((s.put a (SET_BITS total 0 2)).put c (SET_BITS total 0 2)).mem
      (HEADER_PAYLOAD r) = total := by
    rw [e0]
    exact GET_SIZE_of_read rH ht16 (by omega) (by decide) (Or.inr rfl)
  have hblk : Block ((s.put a (SET_BITS total 0 2)).put c (SET_BITS total 0 2)).mem r :=
    ⟨hr, hlow, by rw [g3]; exact ht, by rw [g3]; exact hhi⟩
  have hap : ∀ x ∈ L,
      Apart ((s.put a (SET_BITS total 0 2)).put c (SET_BITS total 0 2)).mem r x := by
    intro x hx
    have := ho3 x hx
    unfold Outside at this
    unfold Apart
    rw [g3]
    show _ ∨ x + GET_SIZE (write (write s.mem _ _) _ _) _ ≤ _
    omega
  obtain ⟨h5, hT5⟩ := add_free_spec (s := (s.put a (SET_BITS total 0 2)).put c
    (SET_BITS total 0 2)) h3 hblk hap
  have rH5 := (hT5 (r - 16) (by omega)).trans rH
  have rF5 := (hT5 (r + total - 32) (by omega)).trans rF
  have gH : GET_SIZE (add_free ((s.put a (SET_BITS total 0 2)).put c (SET_BITS total 0 2)) r).mem
      (r - 16) = total := GET_SIZE_of_read rH5 ht16 (by omega) (by decide) (Or.inr rfl)
  have ef : FOOTER_PAYLOAD (add_free ((s.put a (SET_BITS total 0 2)).put c
      (SET_BITS total 0 2)) r).mem r = r + total - 32 := FOOTER_PAYLOAD_val hlow ht hhi gH
  refine ⟨rfl, ?_, ?_, ?_, ?_, h5, h5.chain.1⟩
  · rw [e0]; exact gH
  · rw [e0]; exact GET_ALLOC_of_read rH5 ht16 (by decide) (Or.inr rfl)
  · rw [ef]; exact GET_SIZE_of_read rF5 ht16 (by omega) (by decide) (Or.inr rfl)
  · rw [ef]; exact GET_ALLOC_of_read rF5 ht16 (by decide) (Or.inr rfl)

theorem coalesce_next_eq {s : State} {b sz sn : Nat} (hb : b % 16 = 0) (h16 : 16 ≤ b)
    (hlt : b + sz + sn < two64) (hsz : 16 ≤ sz) (hsn : 32 ≤ sn)
    (hs : GET_SIZE s.mem (b - 16) = sz) (hpa : GET_PREV_ALLOC s.mem (b - 16) ≠ 0)
    (hna : GET_ALLOC s.mem (b + sz - 16) = 0) (hns : GET_SIZE s.mem (b + sz - 16) = sn)
    (hT : ∀ a, a % 16 = 0 → read (remove_free s (b + sz)).mem a = read s.mem a) :
    coalesce s b = (b, add_free (((remove_free s (b + sz)).put (b - 16)
      (SET_BITS (sz + sn) 0 2)).put (b + (sz + sn) - 32) (SET_BITS (sz + sn) 0 2)) b) := by
  have hsz16 : sz % 16 = 0 := by rw [← hs]; exact GET_SIZE_mod _ _
  have hsn16 : sn % 16 = 0 := by rw [← hns]; exact GET_SIZE_mod _ _
  have e0 : HEADER_PAYLOAD b = b - 16 := HEADER_PAYLOAD_val h16 (by omega)
  have n1 : NEXT_PAY s.mem b = b + sz := NEXT_PAY_val h16 (by omega) hs
  have e1 : HEADER_PAYLOAD (b + sz) = b + sz - 16 := HEADER_PAYLOAD_val (by omega) (by omega)
  have g3 : GET_SIZE (remove_free s (b + sz)).mem (b - 16) = sz := by
    rw [GET_SIZE_congr (hT _ (by omega))]; exact hs
  have n3 : NEXT_PAY (remove_free s (b + sz)).mem b = b + sz := NEXT_PAY_val h16 (by omega) g3
  have gn3 : GET_SIZE (remove_free s (b + sz)).mem (b + sz - 16) = sn := by
    rw [GET_SIZE_congr (hT _ (by omega))]; exact hns
  have u3 : uadd sz sn = sz + sn := by
    simp only [uadd, two64] at hlt ⊢; omega
  have g4 : GET_SIZE ((remove_free s (b + sz)).put (b - 16) (SET_BITS (sz + sn) 0 2)).mem (b - 16)
      = sz + sn :=
    GET_SIZE_of_read (by rw [read_put, if_pos rfl]) (by omega) (by omega) (by decide) (Or.inr rfl)
  have f4 : FOOTER_PAYLOAD ((remove_free s (b + sz)).put (b - 16) (SET_BITS (sz + sn) 0 2)).mem b
      = b + (sz + sn) - 32 :=
    FOOTER_PAYLOAD_val h16 (by omega) (by omega) g4
  rw [coalesce_next (by rw [e0]; exact hpa) (by rw [n1, e1]; exact hna)]
  simp only [e0, hs, n1, n3, e1, gn3, u3, f4]

theorem coalesce_prev_eq {s : State} {b sz sp : Nat} (hb : b % 16 = 0)
    (hlt : b + sz < two64) (hsz : 32 ≤ sz) (hsp : 32 ≤ sp) (hle : sp + 16 ≤ b)
    (hs : GET_SIZE s.mem (b - 16) = sz) (hpa : GET_PREV_ALLOC s.mem (b - 16) = 0)
    (hna : GET_ALLOC s.mem (b + sz - 16) ≠ 0) (hps : GET_SIZE s.mem (b - 32) = sp)
    (hT : ∀ a, a % 16 = 0 → read (remove_free s (b - sp)).mem a = read s.mem a) :
    coalesce s b = (b - sp, add_free (((remove_free s (b - sp)).put (b + sz - 32)
      (SET_BITS (sp + sz) 0 2)).put (b - sp - 16) (SET_BITS (sp + sz) 0 2)) (b - sp)) := by
  have hsz16 : sz % 16 = 0 := by rw [← hs]; exact GET_SIZE_mod _ _
  have hsp16 : sp % 16 = 0 := by rw [← hps]; exact GET_SIZE_mod _ _
  have hb64 : b < two64 := by omega
  have h16 : 16 ≤ b := by omega
  have e0 : HEADER_PAYLOAD b = b - 16 := HEADER_PAYLOAD_val h16 hb64
  have n1 : NEXT_PAY s.mem b = b + sz := NEXT_PAY_val h16 hlt hs
  have e1 : HEADER_PAYLOAD (b + sz) = b + sz - 16 := HEADER_PAYLOAD_val (by omega) hlt
  have e0p : HEADER_PAYLOAD (b - sp) = b - sp - 16 := HEADER_PAYLOAD_val (by omega) (by omega)
  have epf : PREV_FT b = b - 32 := PREV_FT_val (by omega) hb64
  have pb1 : PREV_BLKP s.mem b = b - sp := PREV_BLKP_val (by omega) hb64 hps (by omega)
  have g3 : GET_SIZE (remove_free s (b - sp)).mem (b - 16) = sz := by
    rw [GET_SIZE_congr (hT _ (by omega))]; exact hs
  have gp3 : GET_SIZE (remove_free s (b - sp)).mem (b - 32) = sp := by
    rw [GET_SIZE_congr (hT _ (by omega))]; exact hps
  have f3 : FOOTER_PAYLOAD (remove_free s (b - sp)).mem b = b + sz - 32 :=
    FOOTER_PAYLOAD_val h16 hsz hlt g3
  have u3 : uadd sz sp = sp + sz := by
    simp only [uadd, two64] at hlt ⊢; omega
  have gp4 : GET_SIZE ((remove_free s (b - sp)).put (b + sz - 32) (SET_BITS (sp + sz) 0 2)).mem
      (b - 32) = sp := by
    rw [GET_SIZE_congr (show read _ (b - 32) = read (remove_free s (b - sp)).mem (b - 32) by
      rw [read_put, if_neg (by omega)])]
    exact gp3
  have pb4 : PREV_BLKP ((remove_free s (b - sp)).put (b + sz - 32) (SET_BITS (sp + sz) 0 2)).mem b
      = b - sp := PREV_BLKP_val (by omega) hb64 gp4 (by omega)
  have gp5 : GET_SIZE (((remove_free s (b - sp)).put (b + sz - 32) (SET_BITS (sp + sz) 0 2)).put
      (b - sp - 16) (SET_BITS (sp + sz) 0 2)).mem (b - 32) = sp := by
    rw [GET_SIZE_congr (show read _ (b - 32)
      = read ((remove_free s (b - sp)).put (b + sz - 32) (SET_BITS (sp + sz) 0 2)).mem (b - 32) by
      rw [read_put, if_neg (by omega)])]
    exact gp4
  have pb5 : PREV_BLKP (((remove_free s (b - sp)).put (b + sz - 32) (SET_BITS (sp + sz) 0 2)).put
      (b - sp - 16) (SET_BITS (sp + sz) 0 2)).mem b = b - sp :=
    PREV_BLKP_val (by omega) hb64 gp5 (by omega)
  rw [coalesce_prev (by rw [e0]; exact hpa) (by rw [n1, e1]; exact hna)]
  simp only [e0, hs, pb1, epf, gp3, u3, f3, pb4, e0p, pb5]

theorem coalesce_both_eq {s : State} {b sz sp sn : Nat} (hb : b % 16 = 0)
    (hlt : b + sz + sn < two64) (hsz : 32 ≤ sz) (hsp : 32 ≤ sp) (hsn : 32 ≤ sn)
    (hle : sp + 16 ≤ b)
    (hs : GET_SIZE s.mem (b - 16) = sz) (hpa : GET_PREV_ALLOC s.mem (b - 16) = 0)
    (hna : GET_ALLOC s.mem (b + sz - 16) = 0) (hps : GET_SIZE s.mem (b - 32) = sp)
    (hns : GET_SIZE s.mem (b + sz - 16) = sn)
    (hT1 : ∀ a, a % 16 = 0 → read (remove_free s (b - sp)).mem a = read s.mem a)
    (hT2 : ∀ a, a % 16 = 0 → read (remove_free (remove_free s (b - sp)) (b + sz)).mem a
      = read (remove_free s (b - sp)).mem a) :
    coalesce s b = (b - sp, add_free (((remove_free (remove_free s (b - sp)) (b + sz)).put
      (b - sp - 16) (SET_BITS (sz + (sn + sp)) 0 2)).put (b + sz + sn - 32)
      (SET_BITS (sz + (sn + sp)) 0 2)) (b - sp)) := by
  have hsz16 : sz % 16 = 0 := by rw [← hs]; exact GET_SIZE_mod _ _
  have hsp16 : sp % 16 = 0 := by rw [← hps]; exact GET_SIZE_mod _ _
  have hsn16 : sn % 16 = 0 := by rw [← hns]; exact GET_SIZE_mod _ _
  have hb64 : b < two64 := by omega
  have h16 : 16 ≤ b := by omega
  have e0 : HEADER_PAYLOAD b = b - 16 := HEADER_PAYLOAD_val h16 hb64
  have n1 : NEXT_PAY s.mem b = b + sz := NEXT_PAY_val h16 (by omega) hs
  have e1 : HEADER_PAYLOAD (b + sz) = b + sz - 16 := HEADER_PAYLOAD_val (by omega) (by omega)
  have e0p : HEADER_PAYLOAD (b - sp) = b - sp - 16 := HEADER_PAYLOAD_val (by omega) (by omega)
  have epf : PREV_FT b = b - 32 := PREV_FT_val (by omega) hb64
  have pb1 : PREV_BLKP s.mem b = b - sp := PREV_BLKP_val (by omega) hb64 hps (by omega)
  have hT : ∀ a, a % 16 = 0 → read (remove_free (remove_free s (b - sp)) (b + sz)).mem a
      = read s.mem a := fun a ha => (hT2 a ha).trans (hT1 a ha)
  have g3 : GET_SIZE (remove_free s (b - sp)).mem (b - 16) = sz := by
    rw [GET_SIZE_congr (hT1 _ (by omega))]; exact hs
  have n3 : NEXT_PAY (remove_free s (b - sp)).mem b = b + sz := NEXT_PAY_val h16 (by omega) g3
  have g4 : GET_SIZE (remove_free (remove_free s (b - sp)) (b + sz)).mem (b - 16) = sz := by
    rw [GET_SIZE_congr (hT _ (by omega))]; exact hs
  have n4 : NEXT_PAY (remove_free (remove_free s (b - sp)) (b + sz)).mem b = b + sz :=
    NEXT_PAY_val h16 (by omega) g4
  have gn4 : GET_SIZE (remove_free (remove_free s (b - sp)) (b + sz)).mem (b + sz - 16) = sn := by
    rw [GET_SIZE_congr (hT _ (by omega))]; exact hns
  have gp4 : GET_SIZE (remove_free (remove_free s (b - sp)) (b + sz)).mem (b - 32) = sp := by
    rw [GET_SIZE_congr (hT _ (by omega))]; exact hps
  have pb4 : PREV_BLKP (remove_free (remove_free s (b - sp)) (b + sz)).mem b = b - sp :=
    PREV_BLKP_val (by omega) hb64 gp4 (by omega)
  have u4 : uadd sz (uadd sn sp) = sz + (sn + sp) := by
    simp only [uadd, two64] at hlt ⊢; omega
  have g5 : GET_SIZE ((remove_free (remove_free s (b - sp)) (b + sz)).put (b - sp - 16)
      (SET_BITS (sz + (sn + sp)) 0 2)).mem (b - 16) = sz := by
    rw [GET_SIZE_congr (show read _ (b - 16)
      = read (remove_free (remove_free s (b - sp)) (b + sz)).mem (b - 16) by
      rw [read_put, if_neg (by omega)])]
    exact g4
  have n5 : NEXT_PAY ((remove_free (remove_free s (b - sp)) (b + sz)).put (b - sp - 16)
      (SET_BITS (sz + (sn + sp)) 0 2)).mem b = b + sz := NEXT_PAY_val h16 (by omega) g5
  have gn5 : GET_SIZE ((remove_free (remove_free s (b - sp)) (b + sz)).put (b - sp - 16)
      (SET_BITS (sz + (sn + sp)) 0 2)).mem (b + sz - 16) = sn := by
    rw [GET_SIZE_congr (show read _ (b + sz - 16)
      = read (remove_free (remove_free s (b - sp)) (b + sz)).mem (b + sz - 16) by
      rw [read_put, if_neg (by omega)])]
    exact gn4
  have f5 : FOOTER_PAYLOAD ((remove_free (remove_free s (b - sp)) (b + sz)).put (b - sp - 16)
      (SET_BITS (sz + (sn + sp)) 0 2)).mem (b + sz) = b + sz + sn - 32 :=
    FOOTER_PAYLOAD_val (by omega) hsn hlt (by rw [show b + sz - 16 = b + sz - 16 from rfl]; exact gn5)
  have gp6 : GET_SIZE (((remove_free (remove_free s (b - sp)) (b + sz)).put (b - sp - 16)
      (SET_BITS (sz + (sn + sp)) 0 2)).put (b + sz + sn - 32)
      (SET_BITS (sz + (sn + sp)) 0 2)).mem (b - 32) = sp := by
    rw [GET_SIZE_congr (show read _ (b - 32)
      = read (remove_free (remove_free s (b - sp)) (b + sz)).mem (b - 32) by
      rw [read_put, if_neg (by omega), read_put, if_neg (by omega)])]
    exact gp4
  have pb6 : PREV_BLKP (((remove_free (remove_free s (b - sp)) (b + sz)).put (b - sp - 16)
      (SET_BITS (sz + (sn + sp)) 0 2)).put (b + sz + sn - 32)
      (SET_BITS (sz + (sn + sp)) 0 2)).mem b = b - sp :=
    PREV_BLKP_val (by omega) hb64 gp6 (by omega)
  rw [coalesce_both (by rw [e0]; exact hpa) (by rw [n1, e1]; exact hna)]
  simp only [e0, hs, pb1, n3, n4, e1, gn4, epf, gp4, u4, pb4, e0p, n5, f5, pb6]

theorem mem_erase_of_ne_of_mem {L : List Nat} {x y : Nat} (hx : x ∈ L) (hxy : x ≠ y) :
    x ∈ L.erase y := (List.mem_erase_of_ne hxy).mpr hx

theorem FreeList.of_mem_erase {m : Mem} {head : Nat} {L : List Nat} (h : FreeList m head L)
    {x y : Nat} (hx : x ∈ L.erase y) : x ∈ L ∧ x ≠ y :=
  ⟨List.mem_of_mem_erase hx, ((List.Nodup.mem_erase_iff h.nodup).mp hx).1⟩

theorem FreeList.head_mod {m : Mem} {head : Nat} {L : List Nat} (h : FreeList m head L) :
    head % 16 = 0 := by
  cases L with
  | nil =>
    have := h.chain
    simp only [Seg] at this
    omega
  | cons x L =>
    have := h.chain.1
    rw [this]
    exact (h.block x (List.mem_cons_self _ _)).align

/-- The branch of `coalesce` without a free neighbour, on a well-formed free
list; size words are left as they were. -/
theorem coalesce_list_alone {s : State} {L : List Nat} {b sz : Nat}
    (hfl : FreeList s.mem s.last_freed L) (hblk : Block s.mem b)
    (hs : GET_SIZE s.mem (HEADER_PAYLOAD b) = sz)
    (hfree : GET_ALLOC s.mem (HEADER_PAYLOAD b) = 0)
    (hfs : GET_SIZE s.mem (FOOTER_PAYLOAD s.mem b) = sz)
    (hfa : GET_ALLOC s.mem (FOOTER_PAYLOAD s.mem b) = 0)
    (hap : ∀ x ∈ L, Apart s.mem b x)
    (hpa : GET_PREV_ALLOC s.mem (HEADER_PAYLOAD b) ≠ 0)
    (hna : GET_ALLOC s.mem (HEADER_PAYLOAD (b + sz)) ≠ 0) :
    Coalesced (coalesce s b).2 (coalesce s b).1 b sz L ∧
    ∀ a, a % 16 = 0 → read (coalesce s b).2.mem a = read s.mem a := by
  have hal := hblk.align
  have hlow := hblk.low
  have hhigh := hblk.high
  rw [hs] at hhigh
  have e0 : HEADER_PAYLOAD b = b - 16 := hblk.header
  have hs1 : GET_SIZE s.mem (b - 16) = sz := by rw [← e0]; exact hs
  have n1 : NEXT_PAY s.mem b = b + sz := NEXT_PAY_val hlow hhigh hs1
  obtain ⟨h5, hT5⟩ := add_free_spec hfl hblk hap
  rw [coalesce_alone hpa (by rw [n1]; exact hna)]
  have gH : GET_SIZE (add_free s b).mem (HEADER_PAYLOAD b) = sz := by
    rw [size_of_tags hT5 hal]; exact hs
  have eF : FOOTER_PAYLOAD (add_free s b).mem b = FOOTER_PAYLOAD s.mem b := by
    unfold FOOTER_PAYLOAD
    rw [gH, hs]
  have hF16 := FOOTER_PAYLOAD_mod s.mem hal
  refine ⟨⟨rfl, gH, ?_, ?_, ?_, h5, h5.chain.1⟩, hT5⟩
  · rw [GET_ALLOC_congr (hT5 _ (HEADER_PAYLOAD_mod hal))]; exact hfree
  · rw [eF, GET_SIZE_congr (hT5 _ hF16)]; exact hfs
  · rw [eF, GET_ALLOC_congr (hT5 _ hF16)]; exact hfa

/-- The branch of `coalesce` that absorbs the free block after `b`, on a
well-formed free list; the only size words that change are the header and the
footer of the merged block. -/
theorem coalesce_list_next {s : State} {L : List Nat} {b sz sn : Nat}
    (hfl : FreeList s.mem s.last_freed L) (hblk : Block s.mem b)
    (hs : GET_SIZE s.mem (HEADER_PAYLOAD b) = sz)
    (hap : ∀ x ∈ L, Apart s.mem b x)
    (hns : GET_SIZE s.mem (HEADER_PAYLOAD (b + sz)) = sn)
    (hN : b + sz ∈ L)
    (hpa : GET_PREV_ALLOC s.mem (HEADER_PAYLOAD b) ≠ 0)
    (hna : GET_ALLOC s.mem (HEADER_PAYLOAD (b + sz)) = 0) :
    Coalesced (coalesce s b).2 (coalesce s b).1 b (sz + sn) (L.erase (b + sz)) ∧
    ∀ a, a % 16 = 0 → read (coalesce s b).2.mem a =
      if a = b + (sz + sn) - 32 then SET_BITS (sz + sn) 0 2
      else if a = b - 16 then SET_BITS (sz + sn) 0 2
      else read s.mem a := by
  have hal := hblk.align
  have hlow := hblk.low
  have hhigh := hblk.high
  have hsize := hblk.size
  rw [hs] at hhigh hsize
  have hsz16 : sz % 16 = 0 := by rw [← hs]; exact GET_SIZE_mod _ _
  have e0 : HEADER_PAYLOAD b = b - 16 := hblk.header
  have e1 : HEADER_PAYLOAD (b + sz) = b + sz - 16 := HEADER_PAYLOAD_val (by omega) hhigh
  have hs1 : GET_SIZE s.mem (b - 16) = sz := by rw [← e0]; exact hs
  have hap1 : ∀ x ∈ L, b + sz ≤ x ∨ x + GET_SIZE s.mem (HEADER_PAYLOAD x) ≤ b := by
    intro x hx
    have := hap x hx
    unfold Apart at this
    rw [hs] at this
    exact this
  have hBN := hfl.block _ hN
  have hNs := hBN.size
  have hNh := hBN.high
  rw [hns] at hNs hNh
  obtain ⟨h1, hT⟩ := remove_free_spec hfl hN
  have ho1 : ∀ x ∈ L.erase (b + sz), Outside (remove_free s (b + sz)).mem b (b + (sz + sn)) x := by
    intro x hx
    obtain ⟨hxL, hxN⟩ := hfl.of_mem_erase hx
    have hBx := hfl.block x hxL
    refine Outside.outside_congr (m := s.mem) (size_of_tags hT hBx.align) ?_
    have a1 := hap1 x hxL
    have a2 := hfl.apart_of_ne hN hxL (Ne.symm hxN)
    have := hBx.size
    unfold Apart at a2
    rw [hns] at a2
    unfold Outside
    omega
  have hm := merge_finish (a := b - 16) (c := b + (sz + sn) - 32) h1 ho1 hal hlow
    (by have := GET_SIZE_mod s.mem (HEADER_PAYLOAD (b + sz)); rw [hns] at this; omega)
    (by omega) (by omega) (Or.inl ⟨rfl, rfl⟩)
  rw [coalesce_next_eq hal hlow (by omega) (by omega) hNs hs1 (by rw [← e0]; exact hpa)
    (by rw [← e1]; exact hna) (by rw [← e1]; exact hns) hT]
  refine ⟨hm, fun a ha => ?_⟩
  show read (add_free _ b).mem a = _
  rw [add_free_read_tag_head (show (((remove_free s (b + sz)).put _ _).put _ _).last_freed % 16 = 0
    from h1.head_mod) hal ha, read_put, read_put, hT a ha]

/-- The branch of `coalesce` that merges `b` into the free block before it,
on a well-formed free list; the only size words that change are the header
and the footer of the merged block. -/
theorem coalesce_list_prev {s : State} {L : List Nat} {b sz sp : Nat}
    (hfl : FreeList s.mem s.last_freed L) (hblk : Block s.mem b)
    (hs : GET_SIZE s.mem (HEADER_PAYLOAD b) = sz)
    (hap : ∀ x ∈ L, Apart s.mem b x)
    (hps : GET_SIZE s.mem (PREV_FT b) = sp)
    (hle : sp ≤ b) (hP : b - sp ∈ L) (hPs : GET_SIZE s.mem (HEADER_PAYLOAD (b - sp)) = sp)
    (hpa : GET_PREV_ALLOC s.mem (HEADER_PAYLOAD b) = 0)
    (hna : GET_ALLOC s.mem (HEADER_PAYLOAD (b + sz)) ≠ 0) :
    Coalesced (coalesce s b).2 (coalesce s b).1 (b - sp) (sp + sz) (L.erase (b - sp)) ∧
    ∀ a, a % 16 = 0 → read (coalesce s b).2.mem a =
      if a = b - sp - 16 then SET_BITS (sp + sz) 0 2
      else if a = b + sz - 32 then SET_BITS (sp + sz) 0 2
      else read s.mem a := by
  have hal := hblk.align
  have hlow := hblk.low
  have hhigh := hblk.high
  have hsize := hblk.size
  rw [hs] at hhigh hsize
  have hsz16 : sz % 16 = 0 := by rw [← hs]; exact GET_SIZE_mod _ _
  have e0 : HEADER_PAYLOAD b = b - 16 := hblk.header
  have e1 : HEADER_PAYLOAD (b + sz) = b + sz - 16 := HEADER_PAYLOAD_val (by omega) hhigh
  have hs1 : GET_SIZE s.mem (b - 16) = sz := by rw [← e0]; exact hs
  have hap1 : ∀ x ∈ L, b + sz ≤ x ∨ x + GET_SIZE s.mem (HEADER_PAYLOAD x) ≤ b := by
    intro x hx
    have := hap x hx
    unfold Apart at this
    rw [hs] at this
    exact this
  have hBP := hfl.block _ hP
  have hPl := hBP.low
  have hPa := hBP.align
  have hPz := hBP.size
  rw [hPs] at hPz
  have hps1 : GET_SIZE s.mem (b - 32) = sp := by
    rw [← PREV_FT_val (b := b) (by omega) (by omega)]; exact hps
  obtain ⟨h1, hT⟩ := remove_free_spec hfl hP
  have ho1 : ∀ x ∈ L.erase (b - sp),
      Outside (remove_free s (b - sp)).mem (b - sp) (b - sp + (sp + sz)) x := by
    intro x hx
    obtain ⟨hxL, hxP⟩ := hfl.of_mem_erase hx
    have hBx := hfl.block x hxL
    refine Outside.outside_congr (m := s.mem) (size_of_tags hT hBx.align) ?_
    have a1 := hap1 x hxL
    have a2 := hfl.apart_of_ne hP hxL (Ne.symm hxP)
    have := hBx.size
    unfold Apart at a2
    rw [hPs] at a2
    unfold Outside
    omega
  have hm := merge_finish (a := b + sz - 32) (c := b - sp - 16) h1 ho1 hPa hPl
    (by omega) (by omega) (by omega) (Or.inr ⟨by omega, rfl⟩)
  rw [coalesce_prev_eq hal hhigh hsize hPz (by omega) hs1 (by rw [← e0]; exact hpa)
    (by rw [← e1]; exact hna) hps1 hT]
  refine ⟨hm, fun a ha => ?_⟩
  show read (add_free _ (b - sp)).mem a = _
  rw [add_free_read_tag_head (show (((remove_free s (b - sp)).put _ _).put _ _).last_freed % 16 = 0
    from h1.head_mod) hPa ha, read_put, read_put, hT a ha]

/-- C15 (four-way coalescing).  A well-formed free list that represents L; a
just-freed block b of size sz (a multiple of 16, at least 32) whose header and
footer record sz with the allocation bit clear and whose extent is disjoint
from every block of L; sp the size in the footer before b and sn the size in
the header after b; when b's prev-allocated bit is clear, the previous block
b - sp is on the free list with header size sp; when the allocation bit of
the next block b + sz is clear, that block is on the free list.  Then, in
each of the four cases, coalesce(b) returns the lowest-addressed block r among
b and its free neighbours (b - sp when the previous block is free, b
otherwise), header and footer of r record the sum of the sizes of b and of the
free neighbours with the allocation bit clear, and the free list is well
formed and represents r followed by L without the absorbed neighbours. -/
theorem four_way_coalescing (s : State) (L : List Nat) (b sz sp sn : Nat)
    (hfl : FreeList s.mem s.last_freed L) (hblk : Block s.mem b)
    (hs : GET_SIZE s.mem (HEADER_PAYLOAD b) = sz)
    (hfree : GET_ALLOC s.mem (HEADER_PAYLOAD b) = 0)
    (hfs : GET_SIZE s.mem (FOOTER_PAYLOAD s.mem b) = sz)
    (hfa : GET_ALLOC s.mem (FOOTER_PAYLOAD s.mem b) = 0)
    (hap : ∀ x ∈ L, Apart s.mem b x)
    (hps : GET_SIZE s.mem (PREV_FT b) = sp)
    (hns : GET_SIZE s.mem (HEADER_PAYLOAD (b + sz)) = sn)
    (hprev : GET_PREV_ALLOC s.mem (HEADER_PAYLOAD b) = 0 →
      sp ≤ b ∧ b - sp ∈ L ∧ GET_SIZE s.mem (HEADER_PAYLOAD (b - sp)) = sp)
    (hnext : GET_ALLOC s.mem (HEADER_PAYLOAD (b + sz)) = 0 → b + sz ∈ L) :
    (GET_PREV_ALLOC s.mem (HEADER_PAYLOAD b) ≠ 0 →
      GET_ALLOC s.mem (HEADER_PAYLOAD (b + sz)) ≠ 0 →
      Coalesced (coalesce s b).2 (coalesce s b).1 b sz L) ∧
    (GET_PREV_ALLOC s.mem (HEADER_PAYLOAD b) ≠ 0 →
      GET_ALLOC s.mem (HEADER_PAYLOAD (b + sz)) = 0 →
      Coalesced (coalesce s b).2 (coalesce s b).1 b (sz + sn) (L.erase (b + sz))) ∧
    (GET_PREV_ALLOC s.mem (HEADER_PAYLOAD b) = 0 →
      GET_ALLOC s.mem (HEADER_PAYLOAD (b + sz)) ≠ 0 →
      Coalesced (coalesce s b).2 (coalesce s b).1 (b - sp) (sp + sz) (L.erase (b - sp))) ∧
    (GET_PREV_ALLOC s.mem (HEADER_PAYLOAD b) = 0 →
      GET_ALLOC s.mem (HEADER_PAYLOAD (b + sz)) = 0 →
      Coalesced (coalesce s b).2 (coalesce s b).1 (b - sp) (sp + sz + sn)
        ((L.erase (b - sp)).erase (b + sz))) := by
  have hal := hblk.align
  have hlow := hblk.low
  have hhigh := hblk.high
  have hsize := hblk.size
  rw [hs] at hhigh hsize
  have hsz16 : sz % 16 = 0 := by rw [← hs]; exact GET_SIZE_mod _ _
  have e0 : HEADER_PAYLOAD b = b - 16 := hblk.header
  have e1 : HEADER_PAYLOAD (b + sz) = b + sz - 16 := HEADER_PAYLOAD_val (by omega) hhigh
  have hs1 : GET_SIZE s.mem (b - 16) = sz := by rw [← e0]; exact hs
  have n1 : NEXT_PAY s.mem b = b + sz := NEXT_PAY_val hlow hhigh hs1
  have hap1 : ∀ x ∈ L, b + sz ≤ x ∨ x + GET_SIZE s.mem (HEADER_PAYLOAD x) ≤ b := by
    intro x hx
    have := hap x hx
    unfold Apart at this
    rw [hs] at this
    exact this
  refine ⟨fun hpa hna => ?_, fun hpa hna => ?_, fun hpa hna => ?_, fun hpa hna => ?_⟩
  · -- no free neighbour
    exact (coalesce_list_alone hfl hblk hs hfree hfs hfa hap hpa hna).1
  · -- next block free
    exact (coalesce_list_next hfl hblk hs hap hns (hnext hna) hpa hna).1
  · -- previous block free
    obtain ⟨hle, hP, hPs⟩ := hprev hpa
    exact (coalesce_list_prev hfl hblk hs hap hps hle hP hPs hpa hna).1
  · -- both neighbours free
    obtain ⟨hle, hP, hPs⟩ := hprev hpa
    have hBP := hfl.block _ hP
    have hPl := hBP.low
    have hPa := hBP.align
    have hPz := hBP.size
    rw [hPs] at hPz
    have hps1 : GET_SIZE s.mem (b - 32) = sp := by
      rw [← PREV_FT_val (b := b) (by omega) (by omega)]; exact hps
    have hN := hnext hna
    have hBN := hfl.block _ hN
    have hNs := hBN.size
    have hNh := hBN.high
    rw [hns] at hNs hNh
    obtain ⟨h1, hT1⟩ := remove_free_spec hfl hP
    have hN1 : b + sz ∈ L.erase (b - sp) := mem_erase_of_ne_of_mem hN (by omega)
    obtain ⟨h2, hT2⟩ := remove_free_spec (s := remove_free s (b - sp)) h1 hN1
    have ho2 : ∀ x ∈ (L.erase (b - sp)).erase (b + sz),
        Outside (remove_free (remove_free s (b - sp)) (b + sz)).mem (b - sp)
          (b - sp + (sz + (sn + sp))) x := by
      intro x hx
      obtain ⟨hx1, hxN⟩ := h1.of_mem_erase hx
      obtain ⟨hxL, hxP⟩ := hfl.of_mem_erase hx1
      have hBx := hfl.block x hxL
      refine Outside.outside_congr (m := s.mem)
        ((size_of_tags hT2 hBx.align).trans (size_of_tags hT1 hBx.align)) ?_
      have a1 := hap1 x hxL
      have a2 := hfl.apart_of_ne hP hxL (Ne.symm hxP)
      have a3 := hfl.apart_of_ne hN hxL (Ne.symm hxN)
      have := hBx.size
      unfold Apart at a2 a3
      rw [hPs] at a2
      rw [hns] at a3
      unfold Outside
      omega
    have hsn16 : sn % 16 = 0 := by rw [← hns]; exact GET_SIZE_mod _ _
    have hm := merge_finish (a := b - sp - 16) (c := b + sz + sn - 32) h2 ho2 hPa hPl
      (by omega) (by omega) (by omega) (Or.inl ⟨rfl, by omega⟩)
    rw [coalesce_both_eq hal (by omega) hsize hPz hNs (by omega) hs1 (by rw [← e0]; exact hpa)
      (by rw [← e1]; exact hna) hps1 (by rw [← e1]; exact hns) hT1 hT2]
    have e : sz + (sn + sp) = sp + sz + sn := by omega
    rw [← e]
    exact hm

theorem marked_free_list : FreeList marked_free.mem marked_free.last_freed
    [65712, 65648, 65584, 65776] := by
  refine ⟨?_, ?_, ?_⟩
  · simp only [Seg]
    decide!
  · intro x hx
    simp only [List.mem_cons, List.mem_singleton, List.not_mem_nil, or_false] at hx
    rcases hx with rfl | rfl | rfl | rfl <;>
      exact ⟨by decide, by decide, by decide!, by decide!⟩
  · simp only [List.pairwise_cons, List.mem_cons, List.mem_singleton, List.not_mem_nil,
      forall_eq_or_imp, forall_eq, Apart, List.Pairwise.nil, and_true, false_imp_iff,
      imp_true_iff, implies_true]
    decide!

/-- Witness of `four_way_coalescing`: in `marked_free` both neighbours of
`65616` are free; the merged block is `65584` with 96 bytes. -/
theorem four_way_coalescing_witness :
    Coalesced (coalesce marked_free 65616).2 (coalesce marked_free 65616).1 (65616 - 32)
      (32 + 32 + 32) (([65712, 65648, 65584, 65776].erase (65616 - 32)).erase (65616 + 32)) :=
  (four_way_coalescing marked_free [65712, 65648, 65584, 65776] 65616 32 32 32
    marked_free_list ⟨by decide, by decide, by decide!, by decide!⟩ (by decide!) (by decide!)
    (by decide!) (by decide!)
    (by
      intro x hx
      simp only [List.mem_cons, List.mem_singleton, List.not_mem_nil, or_false] at hx
      rcases hx with rfl | rfl | rfl | rfl <;> unfold Apart <;> decide!)
    (by decide!) (by decide!) (fun _ => ⟨by decide, by decide, by decide!⟩)
    (fun _ => by decide)).2.2.2 (by decide!) (by decide!)

/-! ## `mm_free` and the free list -/

/-- Lines 275-276 of `mm_free` on a block `b` of size `sz` whose extent is
disjoint from every block of the free list: the free list is kept, and `b`
is a block marked free in header and footer. -/
theorem free_mark_list {s : State} {L : List Nat} {b sz pa : Nat}
    (hfl : FreeList s.mem s.last_freed L) (ho : ∀ x ∈ L, Outside s.mem b (b + sz) x)
    (hb : b % 16 = 0) (h16 : 16 ≤ b) (hlt : b + sz < two64) (hsz : 32 ≤ sz)
    (hs : GET_SIZE s.mem (b - 16) = sz) (hpa : GET_PREV_ALLOC s.mem (b - 16) = pa) :
    FreeList (free_mark s b).mem (free_mark s b).last_freed L ∧
    (∀ x ∈ L, Apart (free_mark s b).mem b x) ∧
    Block (free_mark s b).mem b ∧
    FOOTER_PAYLOAD (free_mark s b).mem b = b + sz - 32 ∧
    ∀ a, read (free_mark s b).mem a =
      if a = b + sz - 32 then SET_BITS sz 0 pa
      else if a = b - 16 then SET_BITS sz 0 pa
      else read s.mem a := by
  have e0 : HEADER_PAYLOAD b = b - 16 := HEADER_PAYLOAD_val h16 (by omega)
  have hsz16 : sz % 16 = 0 := by rw [← hs]; exact GET_SIZE_mod _ _
  have hpc : pa = 0 ∨ pa = 2 := by rw [← hpa]; exact GET_PREV_ALLOC_cases _ _
  have r1 := read_put s (b - 16) (SET_BITS sz 0 pa)
  have g1 : GET_SIZE (s.put (b - 16) (SET_BITS sz 0 pa)).mem (b - 16) = sz :=
    GET_SIZE_of_read (by rw [r1, if_pos rfl]) hsz16 (by omega) (by decide) hpc
  have p1 : GET_PREV_ALLOC (s.put (b - 16) (SET_BITS sz 0 pa)).mem (b - 16) = pa :=
    GET_PREV_ALLOC_of_read (by rw [r1, if_pos rfl]) hsz16 (by decide) hpc
  have f1 : FOOTER_PAYLOAD (s.put (b - 16) (SET_BITS sz 0 pa)).mem b = b + sz - 32 :=
    FOOTER_PAYLOAD_val h16 hsz hlt g1
  have key : free_mark s b
      = (s.put (b - 16) (SET_BITS sz 0 pa)).put (b + sz - 32) (SET_BITS sz 0 pa) := by
    unfold free_mark
    simp only [e0, hs, hpa, f1, g1, p1]
  rw [key]
  obtain ⟨h2, ho2, _⟩ := hfl.store_inside ho (a := b - 16) (SET_BITS sz 0 pa) (by omega)
    (by omega) (by omega)
  obtain ⟨h3, ho3, _⟩ := h2.store_inside ho2 (a := b + sz - 32) (SET_BITS sz 0 pa) (by omega)
    (by omega) (by omega)
  have rH : read ((s.put (b - 16) (SET_BITS sz 0 pa)).put (b + sz - 32) (SET_BITS sz 0 pa)).mem
      (b - 16) = SET_BITS sz 0 pa := by
    rw [read_put, read_put, if_neg (by omega), if_pos rfl]
  have g3 : GET_SIZE ((s.put (b - 16) (SET_BITS sz 0 pa)).put (b + sz - 32)
      (SET_BITS sz 0 pa)).mem (b - 16) = sz :=
    GET_SIZE_of_read rH hsz16 (by omega) (by decide) hpc
  refine ⟨h3, fun x hx => ?_, ⟨hb, h16, ?_, ?_⟩, FOOTER_PAYLOAD_val h16 hsz hlt g3, fun a => ?_⟩
  · have := ho3 x hx
    unfold Outside at this
    unfold Apart
    rw [e0, g3]
    show _ ∨ x + GET_SIZE (write (write s.mem _ _) _ _) _ ≤ _
    omega
  · rw [e0, g3]; exact hsz
  · rw [e0, g3]; exact hlt
  · rw [read_put, read_put]

/-- Lines 280-286 of `mm_free` after `coalesce`: the header after the merged
block gets its prev-allocated bit cleared; the free list is kept. -/
theorem free_finish_list {t : State} {L : List Nat} {res r total : Nat}
    (hc : Coalesced t res r total L) :
    FreeList (free_finish t res).mem (free_finish t res).last_freed (r :: L) ∧
    (free_finish t res).last_freed = r ∧
    ∀ a, read (free_finish t res).mem a =
      if a = r + total - 16 then SET_BITS (GET_SIZE t.mem (r + total - 16)) 1 0
      else read t.mem a := by
  have hB := hc.list.block r (List.mem_cons_self _ _)
  have hlow := hB.low
  have hsize := hB.size
  have hhigh := hB.high
  have hal := hB.align
  have ht16 : total % 16 = 0 := by rw [← hc.header_size]; exact GET_SIZE_mod _ _
  rw [hc.header_size] at hsize hhigh
  have hs : GET_SIZE t.mem (r - 16) = total := by rw [← hB.header]; exact hc.header_size
  rw [hc.result, free_finish_spec hlow hhigh (by omega) hs]
  refine ⟨?_, hc.head, fun a => ?_⟩
  · exact hc.list.store_tag (a := r + total - 16) (by omega)
      (fun x _ => size_write_same (by decide) (Or.inl rfl))
  · rw [read_put]

/-- `mm_free` of a block between two allocated neighbours, on a well-formed
free list whose blocks are disjoint from it: the block becomes the head of
the free list, and every listed block keeps its size. -/
theorem mm_free_list_alone {s : State} {L : List Nat} {b sz : Nat}
    (hfl : FreeList s.mem s.last_freed L) (ho : ∀ x ∈ L, Outside s.mem b (b + sz) x)
    (hb : b % 16 = 0) (h16 : 16 ≤ b) (hlt : b + sz < two64) (hsz : 32 ≤ sz)
    (hs : GET_SIZE s.mem (b - 16) = sz)
    (hpa : GET_PREV_ALLOC s.mem (b - 16) ≠ 0) (hna : GET_ALLOC s.mem (b + sz - 16) ≠ 0) :
    FreeList (mm_free s b).mem (mm_free s b).last_freed (b :: L) ∧
    (mm_free s b).last_freed = b ∧
    (∀ a, a % 16 = 0 → read (mm_free s b).mem a =
      if a = b + sz - 16 then SET_BITS (GET_SIZE s.mem (b + sz - 16)) 1 0
      else if a = b + sz - 32 then SET_BITS sz 0 2
      else if a = b - 16 then SET_BITS sz 0 2
      else read s.mem a) ∧
    ∀ x ∈ L, GET_SIZE (mm_free s b).mem (HEADER_PAYLOAD x) = GET_SIZE s.mem (HEADER_PAYLOAD x) := by
  have hpa2 : GET_PREV_ALLOC s.mem (b - 16) = 2 := by
    rcases GET_PREV_ALLOC_cases s.mem (b - 16) with h0 | h2
    · exact absurd h0 hpa
    · exact h2
  have hsz16 : sz % 16 = 0 := by rw [← hs]; exact GET_SIZE_mod _ _
  have e0 : HEADER_PAYLOAD b = b - 16 := HEADER_PAYLOAD_val h16 (by omega)
  have e1 : HEADER_PAYLOAD (b + sz) = b + sz - 16 := HEADER_PAYLOAD_val (by omega) hlt
  obtain ⟨hF, hA, hBk, fm, rm⟩ := free_mark_list hfl ho hb h16 hlt hsz hs hpa2
  have rh : read (free_mark s b).mem (b - 16) = SET_BITS sz 0 2 := by
    rw [rm, if_neg (by omega), if_pos rfl]
  have rf : read (free_mark s b).mem (b + sz - 32) = SET_BITS sz 0 2 := by
    rw [rm, if_pos rfl]
  have rn : read (free_mark s b).mem (b + sz - 16) = read s.mem (b + sz - 16) := by
    rw [rm, if_neg (by omega), if_neg (by omega)]
  obtain ⟨hc, rc⟩ := @coalesce_list_alone _ _ _ sz hF hBk
    (by rw [e0]; exact GET_SIZE_of_read rh hsz16 (by omega) (by decide) (Or.inr rfl))
    (by rw [e0]; exact GET_ALLOC_of_read rh hsz16 (by decide) (Or.inr rfl))
    (by rw [fm]; exact GET_SIZE_of_read rf hsz16 (by omega) (by decide) (Or.inr rfl))
    (by rw [fm]; exact GET_ALLOC_of_read rf hsz16 (by decide) (Or.inr rfl))
    hA
    (by rw [e0, GET_PREV_ALLOC_of_read rh hsz16 (by decide) (Or.inr rfl)]; decide)
    (by rw [e1, GET_ALLOC_congr rn]; exact hna)
  obtain ⟨l1, l2, rfin⟩ := free_finish_list hc
  rw [mm_free_eq]
  have gn : GET_SIZE (coalesce (free_mark s b) b).2.mem (b + sz - 16)
      = GET_SIZE s.mem (b + sz - 16) :=
    GET_SIZE_congr ((rc _ (by omega)).trans rn)
  have rall : ∀ a, a % 16 = 0 →
      read (free_finish (coalesce (free_mark s b) b).2 (coalesce (free_mark s b) b).1).mem a =
      if a = b + sz - 16 then SET_BITS (GET_SIZE s.mem (b + sz - 16)) 1 0
      else if a = b + sz - 32 then SET_BITS sz 0 2
      else if a = b - 16 then SET_BITS sz 0 2
      else read s.mem a := by
    intro a ha
    rw [rfin a, gn]
    split
    · rfl
    · rw [rc a ha, rm]
  refine ⟨l1, l2, rall, fun x hx => ?_⟩
  have hBx := hfl.block x hx
  have hx16 := hBx.align
  have hxl := hBx.low
  have hxs := hBx.size
  have hox := ho x hx
  unfold Outside at hox
  rw [hBx.header] at hxs hox ⊢
  by_cases e : x - 16 = b + sz - 16
  · have := rall (x - 16) (by omega)
    rw [if_pos e, ← e] at this
    exact GET_SIZE_of_read this (GET_SIZE_mod _ _) (GET_SIZE_lt _ _) (by decide) (Or.inl rfl)
  · refine GET_SIZE_congr ?_
    rw [rall (x - 16) (by omega), if_neg e, if_neg (by omega), if_neg (by omega)]

/-- `mm_free` of a block whose previous neighbour is allocated and whose next
neighbour is on the free list: the two are merged into one free block at the
freed block's address, which replaces the neighbour on the free list and is
its head. -/
theorem mm_free_list_next {s : State} {L : List Nat} {b sz sn : Nat}
    (hfl : FreeList s.mem s.last_freed L) (ho : ∀ x ∈ L, Outside s.mem b (b + sz) x)
    (hb : b % 16 = 0) (h16 : 16 ≤ b) (hlt : b + sz + sn < two64) (hsz : 32 ≤ sz)
    (hs : GET_SIZE s.mem (b - 16) = sz) (hpa : GET_PREV_ALLOC s.mem (b - 16) ≠ 0)
    (hna : GET_ALLOC s.mem (b + sz - 16) = 0) (hns : GET_SIZE s.mem (b + sz - 16) = sn)
    (hN : b + sz ∈ L) :
    FreeList (mm_free s b).mem (mm_free s b).last_freed (b :: L.erase (b + sz)) ∧
    (mm_free s b).last_freed = b ∧
    read (mm_free s b).mem (b - 16) = SET_BITS (sz + sn) 0 2 ∧
    read (mm_free s b).mem (b + (sz + sn) - 32) = SET_BITS (sz + sn) 0 2 := by
  have hpa2 : GET_PREV_ALLOC s.mem (b - 16) = 2 := by
    rcases GET_PREV_ALLOC_cases s.mem (b - 16) with h0 | h2
    · exact absurd h0 hpa
    · exact h2
  have hsz16 : sz % 16 = 0 := by rw [← hs]; exact GET_SIZE_mod _ _
  have hsn16 : sn % 16 = 0 := by rw [← hns]; exact GET_SIZE_mod _ _
  have e0 : HEADER_PAYLOAD b = b - 16 := HEADER_PAYLOAD_val h16 (by omega)
  have e1 : HEADER_PAYLOAD (b + sz) = b + sz - 16 := HEADER_PAYLOAD_val (by omega) (by omega)
  have hsn : 32 ≤ sn := by
    have := (hfl.block _ hN).size
    rw [e1, hns] at this
    exact this
  obtain ⟨hF, hA, hBk, fm, rm⟩ := free_mark_list hfl ho hb h16 (by omega) hsz hs hpa2
  have rh : read (free_mark s b).mem (b - 16) = SET_BITS sz 0 2 := by
    rw [rm, if_neg (by omega), if_pos rfl]
  have rn : read (free_mark s b).mem (b + sz - 16) = read s.mem (b + sz - 16) := by
    rw [rm, if_neg (by omega), if_neg (by omega)]
  obtain ⟨hc, rc⟩ := @coalesce_list_next _ _ _ sz sn hF hBk
    (by rw [e0]; exact GET_SIZE_of_read rh hsz16 (by omega) (by decide) (Or.inr rfl))
    hA
    (by rw [e1, GET_SIZE_congr rn]; exact hns)
    hN
    (by rw [e0, GET_PREV_ALLOC_of_read rh hsz16 (by decide) (Or.inr rfl)]; decide)
    (by rw [e1, GET_ALLOC_congr rn]; exact hna)
  obtain ⟨l1, l2, rfin⟩ := free_finish_list hc
  rw [mm_free_eq]
  refine ⟨l1, l2, ?_, ?_⟩
  · rw [rfin, if_neg (by omega), rc _ (by omega), if_neg (by omega), if_pos rfl]
  · rw [rfin, if_neg (by omega), rc _ (by omega), if_pos rfl]

/-- `mm_free` of a block whose previous neighbour is on the free list and
whose next neighbour is allocated: the two are merged into one free block at
the neighbour's address, which becomes the head of the free list. -/
theorem mm_free_list_prev {s : State} {L : List Nat} {b sz sp : Nat}
    (hfl : FreeList s.mem s.last_freed L) (ho : ∀ x ∈ L, Outside s.mem b (b + sz) x)
    (hb : b % 16 = 0) (hlt : b + sz < two64) (hsz : 32 ≤ sz)
    (hs : GET_SIZE s.mem (b - 16) = sz) (hpa : GET_PREV_ALLOC s.mem (b - 16) = 0)
    (hna : GET_ALLOC s.mem (b + sz - 16) ≠ 0) (hps : GET_SIZE s.mem (b - 32) = sp)
    (hle : sp ≤ b) (hP : b - sp ∈ L) (hPs : GET_SIZE s.mem (b - sp - 16) = sp) :
    FreeList (mm_free s b).mem (mm_free s b).last_freed ((b - sp) :: L.erase (b - sp)) ∧
    (mm_free s b).last_freed = b - sp ∧
    read (mm_free s b).mem (b - sp - 16) = SET_BITS (sp + sz) 0 2 ∧
    read (mm_free s b).mem (b + sz - 32) = SET_BITS (sp + sz) 0 2 := by
  have hsz16 : sz % 16 = 0 := by rw [← hs]; exact GET_SIZE_mod _ _
  have hsp16 : sp % 16 = 0 := by rw [← hps]; exact GET_SIZE_mod _ _
  have hBP := hfl.block _ hP
  have hPl := hBP.low
  have hPz := hBP.size
  have e0p : HEADER_PAYLOAD (b - sp) = b - sp - 16 := hBP.header
  rw [e0p, hPs] at hPz
  have h16 : 16 ≤ b := by omega
  have e0 : HEADER_PAYLOAD b = b - 16 := HEADER_PAYLOAD_val h16 (by omega)
  have e1 : HEADER_PAYLOAD (b + sz) = b + sz - 16 := HEADER_PAYLOAD_val (by omega) (by omega)
  have epf : PREV_FT b = b - 32 := PREV_FT_val (by omega) (by omega)
  obtain ⟨hF, hA, hBk, fm, rm⟩ := free_mark_list hfl ho hb h16 hlt hsz hs hpa
  have rh : read (free_mark s b).mem (b - 16) = SET_BITS sz 0 0 := by
    rw [rm, if_neg (by omega), if_pos rfl]
  have rn : read (free_mark s b).mem (b + sz - 16) = read s.mem (b + sz - 16) := by
    rw [rm, if_neg (by omega), if_neg (by omega)]
  have rp : read (free_mark s b).mem (b - 32) = read s.mem (b - 32) := by
    rw [rm, if_neg (by omega), if_neg (by omega)]
  have rq : read (free_mark s b).mem (b - sp - 16) = read s.mem (b - sp - 16) := by
    rw [rm, if_neg (by omega), if_neg (by omega)]
  obtain ⟨hc, rc⟩ := @coalesce_list_prev _ _ _ sz sp hF hBk
    (by rw [e0]; exact GET_SIZE_of_read rh hsz16 (by omega) (by decide) (Or.inl rfl))
    hA
    (by rw [epf, GET_SIZE_congr rp]; exact hps)
    hle hP
    (by rw [e0p, GET_SIZE_congr rq]; exact hPs)
    (by rw [e0]; exact GET_PREV_ALLOC_of_read rh hsz16 (by decide) (Or.inl rfl))
    (by rw [e1, GET_ALLOC_congr rn]; exact hna)
  obtain ⟨l1, l2, rfin⟩ := free_finish_list hc
  rw [mm_free_eq]
  refine ⟨l1, l2, ?_, ?_⟩
  · rw [rfin, if_neg (by omega), rc _ (by omega), if_pos rfl]
  · rw [rfin, if_neg (by omega), rc _ (by omega), if_neg (by omega), if_pos rfl]

/-! ## Freeing two adjacent live blocks -/

/-- C4 (coalescing completeness).  For two physically adjacent live blocks
`A` and `B = A + sA` of a well-formed heap whose outer neighbours are
allocated and whose free list represents `L`, `mm_free` on both, in either
order, leaves one free block at `A` whose header and footer size is
`sA + sB` and which is the head of the free list, the free list being well
formed and representing `A` followed by `L`; a following `mm_malloc` whose
needed size equals `sA + sB` returns `A` and maps no new page. -/
theorem coalescing_completeness (ar : Arena) (s : State) (L : List Nat) (A sA sB n fuel : Nat)
    (hwf : AdjacentLive s L A sA sB) (hn : sext (needed_size n) = sA + sB) (t : State)
    (ht : t = mm_free (mm_free s A) (A + sA) ∨ t = mm_free (mm_free s (A + sA)) A) :
    t.last_freed = A ∧
    GET_SIZE t.mem (HEADER_PAYLOAD A) = sA + sB ∧ GET_ALLOC t.mem (HEADER_PAYLOAD A) = 0 ∧
    GET_SIZE t.mem (FOOTER_PAYLOAD t.mem A) = sA + sB ∧
    FreeList t.mem t.last_freed (A :: L) ∧
    ∃ t1, mm_malloc ar (fuel + 1) t n = some (A, t1) ∧ t1.maps = s.maps := by
  obtain ⟨hfl, ho, hA16, hlo, hhi, hsA, hsB, gA, aA, pA, gB, aB, pB, aC⟩ := hwf
  have eA : HEADER_PAYLOAD A = A - 16 := HEADER_PAYLOAD_val hlo (by omega)
  have eB : HEADER_PAYLOAD (A + sA) = A + sA - 16 := HEADER_PAYLOAD_val (by omega) (by omega)
  have eC : HEADER_PAYLOAD (A + sA + sB) = A + sA + sB - 16 :=
    HEADER_PAYLOAD_val (by omega) (by omega)
  rw [eA] at gA aA pA
  rw [eB] at gB aB pB
  rw [eC] at aC
  have hsA16 : sA % 16 = 0 := by rw [← gA]; exact GET_SIZE_mod _ _
  have hsB16 : sB % 16 = 0 := by rw [← gB]; exact GET_SIZE_mod _ _
  rcases ht with rfl | rfl
  · -- `A` first, then `B`
    have hoA : ∀ x ∈ L, Outside s.mem A (A + sA) x := by
      intro x hx
      have := ho x hx
      unfold Outside at this ⊢
      omega
    obtain ⟨f1, _, r1, z1⟩ := mm_free_list_alone hfl hoA hA16 hlo (by omega) hsA gA
      (by rw [pA]; decide) (by rw [aB]; decide)
    have rH : read (mm_free s A).mem (A - 16) = SET_BITS sA 0 2 := by
      rw [r1 _ (by omega), if_neg (by omega), if_neg (by omega), if_pos rfl]
    have rB : read (mm_free s A).mem (A + sA - 16) = SET_BITS sB 1 0 := by
      rw [r1 _ (by omega), if_pos rfl, gB]
    have rF : read (mm_free s A).mem (A + sA - 32) = SET_BITS sA 0 2 := by
      rw [r1 _ (by omega), if_neg (by omega), if_pos rfl]
    have rC : read (mm_free s A).mem (A + sA + sB - 16) = read s.mem (A + sA + sB - 16) := by
      rw [r1 _ (by omega), if_neg (by omega), if_neg (by omega), if_neg (by omega)]
    have gH : GET_SIZE (mm_free s A).mem (A - 16) = sA :=
      GET_SIZE_of_read rH hsA16 (by omega) (by decide) (Or.inr rfl)
    have e1 : A + sA - sA = A := by omega
    have ho1 : ∀ x ∈ A :: L, Outside (mm_free s A).mem (A + sA) (A + sA + sB) x := by
      intro x hx
      rcases List.mem_cons.mp hx with rfl | hxL
      · unfold Outside
        rw [eA, gH]
        omega
      · refine Outside.outside_congr (m := s.mem) (z1 x hxL) ?_
        have := ho x hxL
        unfold Outside at this ⊢
        omega
    obtain ⟨f2, l2, rh2, rf2⟩ := @mm_free_list_prev _ _ _ _ sA f1 ho1
      (show (A + sA) % 16 = 0 by omega) (by omega) hsB
      (GET_SIZE_of_read rB hsB16 (by omega) (by decide) (Or.inl rfl))
      (GET_PREV_ALLOC_of_read rB hsB16 (by decide) (Or.inl rfl))
      (by rw [GET_ALLOC_congr rC, aC]; decide)
      (GET_SIZE_of_read rF hsA16 (by omega) (by decide) (Or.inr rfl))
      (by omega) (by rw [e1]; exact List.mem_cons_self _ _) (by rw [e1]; exact gH)
    have e2 : A + sA + sB - 32 = A + (sA + sB) - 32 := by omega
    rw [e1] at l2 rh2 f2
    rw [e2] at rf2
    rw [List.erase_cons_head] at f2
    obtain ⟨c1, c2, c3, c4, c5⟩ := @merged_block_serves ar _ _ _ _ _ fuel hlo (by omega) (by omega)
      (by omega) ((mm_free_frame s A).trans (mm_free_frame _ _)) l2 rh2 rf2 hn
    exact ⟨c1, c2, c3, c4, f2, c5⟩
  · -- `B` first, then `A`
    have hoB : ∀ x ∈ L, Outside s.mem (A + sA) (A + sA + sB) x := by
      intro x hx
      have := ho x hx
      unfold Outside at this ⊢
      omega
    obtain ⟨f1, _, r1, z1⟩ := mm_free_list_alone hfl hoB (show (A + sA) % 16 = 0 by omega)
      (by omega) (by omega) hsB gB (by rw [pB]; decide) (by rw [aC]; decide)
    have rA : read (mm_free s (A + sA)).mem (A - 16) = read s.mem (A - 16) := by
      rw [r1 _ (by omega), if_neg (by omega), if_neg (by omega), if_neg (by omega)]
    have rB : read (mm_free s (A + sA)).mem (A + sA - 16) = SET_BITS sB 0 2 := by
      rw [r1 _ (by omega), if_neg (by omega), if_neg (by omega), if_pos rfl]
    have gB1 : GET_SIZE (mm_free s (A + sA)).mem (A + sA - 16) = sB :=
      GET_SIZE_of_read rB hsB16 (by omega) (by decide) (Or.inr rfl)
    have ho1 : ∀ x ∈ (A + sA) :: L, Outside (mm_free s (A + sA)).mem A (A + sA) x := by
      intro x hx
      rcases List.mem_cons.mp hx with rfl | hxL
      · exact Or.inr (Nat.le_refl _)
      · refine Outside.outside_congr (m := s.mem) (z1 x hxL) ?_
        have := ho x hxL
        unfold Outside at this ⊢
        omega
    obtain ⟨f2, l2, rh2, rf2⟩ := @mm_free_list_next _ _ _ _ sB f1 ho1 hA16 hlo hhi hsA
      (by rw [GET_SIZE_congr rA]; exact gA)
      (by rw [GET_PREV_ALLOC_congr rA, pA]; decide)
      (GET_ALLOC_of_read rB hsB16 (by decide) (Or.inr rfl))
      gB1 (List.mem_cons_self _ _)
    rw [List.erase_cons_head] at f2
    obtain ⟨c1, c2, c3, c4, c5⟩ := @merged_block_serves ar _ _ _ _ _ fuel hlo (by omega) (by omega)
      (by omega) ((mm_free_frame s _).trans (mm_free_frame _ _)) l2 rh2 rf2 hn
    exact ⟨c1, c2, c3, c4, f2, c5⟩

/-- The free list of `three_live` is the free remainder of the page. -/
theorem three_live_list : FreeList three_live.st.mem three_live.st.last_freed [65680] := by
  refine ⟨?_, ?_, ?_⟩
  · simp only [Seg]
    decide!
  · intro x hx
    simp only [List.mem_singleton] at hx
    subst hx
    exact ⟨by decide, by decide, by decide!, by decide!⟩
  · exact List.pairwise_singleton _ _

theorem three_live_adjacent : AdjacentLive three_live.st [65680] 65584 32 32 :=
  { list := three_live_list
    outside := by
      intro x hx
      simp only [List.mem_singleton] at hx
      subst hx
      exact Or.inr (by decide)
    alignA := by decide
    lowA := by decide
    high := by decide!
    sizeA := by decide
    sizeB := by decide
    hdrA_size := by decide!
    hdrA_alloc := by decide!
    hdrA_prev := by decide!
    hdrB_size := by decide!
    hdrB_alloc := by decide!
    hdrB_prev := by decide!
    next_alloc := by decide! }

/-- Witness of `coalescing_completeness`: the first two of three live
32-byte blocks, freed lower block first, and a request of 48 bytes. -/
theorem coalescing_completeness_witness :
    (mm_free (mm_free three_live.st 65584) (65584 + 32)).last_freed = 65584 ∧
    GET_SIZE (mm_free (mm_free three_live.st 65584) (65584 + 32)).mem (HEADER_PAYLOAD 65584)
      = 32 + 32 ∧
    GET_ALLOC (mm_free (mm_free three_live.st 65584) (65584 + 32)).mem (HEADER_PAYLOAD 65584)
      = 0 ∧
    GET_SIZE (mm_free (mm_free three_live.st 65584) (65584 + 32)).mem
      (FOOTER_PAYLOAD (mm_free (mm_free three_live.st 65584) (65584 + 32)).mem 65584)
      = 32 + 32 ∧
    FreeList (mm_free (mm_free three_live.st 65584) (65584 + 32)).mem
      (mm_free (mm_free three_live.st 65584) (65584 + 32)).last_freed [65584, 65680] ∧
    ∃ t1, mm_malloc arena4k (0 + 1) (mm_free (mm_free three_live.st 65584) (65584 + 32)) 48
        = some (65584, t1) ∧ t1.maps = three_live.st.maps :=
  coalescing_completeness arena4k three_live.st [65680] 65584 32 32 48 0 three_live_adjacent
    (by decide!) _ (Or.inl rfl)

/-! ## Failing runs for alignment and for the commit of the first fit -/

/-- C2, a failing run.  The client of `unaligned_actions` asks for at most 48
bytes, frees only live addresses and writes only into its own live 40-byte
allocation at `65664`; that allocation covers the header of the free block
`65696`, which the free list still holds.  The last call, `mm_malloc(48)`,
follows the words the client stored and returns `65704`, which is 8 modulo
16. -/
theorem client_store_breaks_alignment :
    (play arena4k 3 (start arena4k) (unaligned_actions.take 11)).map
        (fun σ => (σ.st.last_freed, σ.live))
      = some (65584, [(65664, 40), (65728, 1), (65632, 1)]) ∧
    (play arena4k 3 (start arena4k) unaligned_actions).map (fun σ => (σ.live, σ.st.maps))
      = some ([(65704, 48), (65664, 40), (65728, 1), (65632, 1)], [(65536, 28672)]) ∧
    65704 % 16 = 8 := by
  decide!

/-- C11, a failing run.  Right after `mm_init` on `arena4k` the free list is
the null-terminated chain `[65584]`.  For the request `2^32 - 16` the needed
size is `0`, so the block `65584` passes the test of the walk.  `mm_malloc`
returns `65584` without calling `mem_map`, but the block is not committed: its
header still records 28608 bytes with the allocation bit clear, and the
free-list head is `94192`, the payload address of the end block. -/
theorem first_fit_not_committed :
    needed_size 4294967280 = 0 ∧
    free_list 2 (mm_init arena4k boot).mem (mm_init arena4k boot).last_freed = some [65584] ∧
    fits (mm_init arena4k boot).mem (sext (needed_size 4294967280)) 65584 ∧
    (mm_malloc arena4k 1 (mm_init arena4k boot) 4294967280).map
        (fun r => (r.1, r.2.last_freed, r.2.maps))
      = some (65584, 94192, [(65536, 28672)]) ∧
    (mm_malloc arena4k 1 (mm_init arena4k boot) 4294967280).map
        (fun r => (GET_ALLOC r.2.mem (HEADER_PAYLOAD 65584),
          GET_SIZE r.2.mem (HEADER_PAYLOAD 65584)))
      = some (0, 28608) := by
  refine ⟨by decide!, by decide!, ?_, by decide!, by decide!⟩
  unfold fits
  decide!

end MM
